import Mathlib

/-! Entity folders (`src/editor/entity_folders.cpp`)

A shallow embedding of the entity-folder manager of the editor: the folder
table, the per-entity linkage array, and the operations that move entities
between the intrusive doubly linked member lists of folders.

Conventions of the embedding.

* A C++ reference into `m_folders` or `m_entities` is the position of the
  record in the array; every read goes through the current array, so aliasing
  between two references behaves as in the source.
* An operation returns `none` when the source would stop in a fatal
  assertion, index an array out of bounds, read past the end of a blob, or
  ask the random source for more values than the listed ones.
* `INVALID_FOLDER`, the default partition of a new folder and the format
  cutoff are declared in headers that are not part of the sources; they are
  parameters of the definitions that use them.
-/

namespace Lumix

abbrev FolderID := Nat

abbrev PartitionHandle := Nat

/-- Modelled from the spec: the engine type `EntityPtr` (declared outside the
sources) is "an entity reference or INVALID"; a reference is a dense 0-based
index. `none` is `INVALID_ENTITY`, `isValid` is `Option.isSome`. -/
abbrev EntityPtr := Option Nat

/-- Modelled from the spec: `EntityRef` is an entity reference that is always
valid, that is, its index. -/
abbrev EntityRef := Nat

/-- The invalid entity reference. -/
def INVALID_ENTITY : EntityPtr := none

/-- Record of the folder table (`EntityFolders::Folder`). -/
structure Folder where
  id : FolderID
  parent : FolderID
  first_child : FolderID
  prev : FolderID
  next : FolderID
  first_entity : EntityPtr
  partition : PartitionHandle
  name : String
  deriving DecidableEq, Repr

/-- Linkage record of one entity (`EntityFolders::Entity`). -/
structure Entity where
  folder : FolderID
  next : EntityPtr
  prev : EntityPtr
  deriving DecidableEq, Repr

/-- Modelled from the spec: the World collaborator, reduced to what the
manager reads (`getFirstEntity`, `getActivePartition`) and the trace of the
`setPartition` requests it has issued, oldest first. -/
structure World where
  first_entity : EntityPtr
  active_partition : PartitionHandle
  set_partition_calls : List (EntityRef × PartitionHandle)
  deriving DecidableEq, Repr

/-- State of an `EntityFolders` manager together with its world. -/
structure EntityFolders where
  m_entities : List Entity
  m_folders : List Folder
  m_selected_folder : FolderID
  m_ignore_new_entities : Bool
  m_world : World
  deriving DecidableEq, Repr

/-- Modelled from the spec: `World::setPartition(e, partition)`, recorded in
the trace of requests. -/
def World.setPartition (w : World) (e : EntityRef) (p : PartitionHandle) : World :=
  { w with set_partition_calls := w.set_partition_calls ++ [(e, p)] }

/-- `getFolder(FolderID)`: position of the first record with the given id;
`none` is the `ASSERT(false)` branch. -/
def getFolder : List Folder → FolderID → Option Nat
  | [], _ => none
  | f :: fs, folder_id =>
    if f.id = folder_id then some 0 else (getFolder fs folder_id).map (· + 1)

/-- `m_entities[i].next = v`. -/
def setNext (ents : List Entity) (i : Nat) (v : EntityPtr) : Option (List Entity) :=
  match ents[i]? with
  | some r => some (ents.set i { r with next := v })
  | none => none

/-- `m_entities[i].prev = v`. -/
def setPrev (ents : List Entity) (i : Nat) (v : EntityPtr) : Option (List Entity) :=
  match ents[i]? with
  | some r => some (ents.set i { r with prev := v })
  | none => none

/-- The three unlinking statements shared by `moveToFolder` (lines 88-90) and
`onEntityDestroyed` (lines 55-65): `src` is the position of the folder record
the entity is taken out of. -/
def unlink (ents : List Entity) (fs : List Folder) (src : Nat) (e : EntityRef) :
    Option (List Entity × List Folder) := do
  let entity ← ents[e]?
  let sf ← fs[src]?
  let fs1 := if sf.first_entity = some e then fs.set src { sf with first_entity := entity.next } else fs
  let ents1 ← (match entity.prev with
    | some p => setNext ents p entity.next
    | none => some ents)
  let entity1 ← ents1[e]?
  let ents2 ← (match entity1.next with
    | some n => setPrev ents1 n entity1.prev
    | none => some ents1)
  pure (ents2, fs1)

/-- Lines 94-100 of `moveToFolder`: put `e` at the head of the list of the
folder record at position `dst`. -/
def pushFront (ents : List Entity) (fs : List Folder) (dst : Nat) (e : EntityRef)
    (folder_id : FolderID) : Option (List Entity × List Folder) := do
  let d ← fs[dst]?
  let _ ← ents[e]?
  let ents1 := ents.set e { folder := folder_id, next := d.first_entity, prev := INVALID_ENTITY }
  let fs1 := fs.set dst { d with first_entity := some e }
  let ents2 ← (match d.first_entity with
    | some n => setPrev ents1 n (some e)
    | none => some ents1)
  pure (ents2, fs1)

/-! ## Blobs and entity maps -/

/-- Modelled from the spec: the serialization stream is "an append-only binary
writer and a cursor-based binary reader"; a blob is its bytes, an input stream
the bytes from the cursor on. Reading or skipping past the end is undefined
in the source and gives no result here. -/
abbrev Blob := List Nat

/-- `InputMemoryStream::read` of `n` bytes: the bytes read and the rest. -/
def Blob.read (n : Nat) (blob : Blob) : Option (List Nat × Blob) :=
  if n ≤ blob.length then some (blob.take n, blob.drop n) else none

/-- `InputMemoryStream::skip`. -/
def Blob.skip (n : Nat) (blob : Blob) : Option Blob :=
  if n ≤ blob.length then some (blob.drop n) else none

/-- Little-endian value of a run of bytes. -/
def decodeLE : List Nat → Nat
  | [] => 0
  | b :: bs => b % 256 + 256 * decodeLE bs

/-- The four bytes of a `u32`, little-endian. -/
def encodeU32 (n : Nat) : List Nat :=
  [n % 256, n / 256 % 256, n / 65536 % 256, n / 16777216 % 256]

/-- `blob.read<u32>()`. -/
def Blob.readU32 (blob : Blob) : Option (Nat × Blob) := do
  let (bytes, rest) ← Blob.read 4 blob
  pure (decodeLE bytes, rest)

/-- The `i32` with the bits of a `u32` (two's complement). -/
def asI32 (v : Nat) : Int :=
  if v < 2147483648 then (v : Int) else (v : Int) - 4294967296

/-- `blob.read(i32&)`: four bytes in two's complement. -/
def Blob.readI32 (blob : Blob) : Option (Int × Blob) := do
  let (v, rest) ← Blob.readU32 blob
  pure (asI32 v, rest)

/-- An `i32` used as a byte count: a negative count, or a product that leaves
the range of `i32` (signed overflow), has no defined result. -/
def byteCount (v : Int) : Option Nat :=
  if 0 ≤ v ∧ v < 2147483648 then some v.toNat else none

/-- Byte layout of the two record types, whose declarations are in the absent
header: the size of a record and the functions between a record and its
`size` bytes. `blob.write` of an array writes the images of its records one
after the other, `blob.read` of a record decodes `size` bytes. -/
structure Layout where
  entitySize : Nat
  encodeEntity : Entity → List Nat
  decodeEntity : List Nat → Entity
  folderSize : Nat
  encodeFolder : Folder → List Nat
  decodeFolder : List Nat → Folder

/-- Cut `n` records of `size` bytes each from a run of bytes. -/
def chunks (size : Nat) : Nat → List Nat → List (List Nat)
  | 0, _ => []
  | n + 1, bytes => bytes.take size :: chunks size n (bytes.drop size)

/-- Modelled from the spec: `EntityMap`, "a mapping from a source entity
reference to a destination entity reference (or absent)", held as the array
`m_map` indexed by the source index. -/
structure EntityMap where
  m_map : List EntityPtr
  deriving DecidableEq, Repr

/-- Modelled from the spec: `EntityMap::get`; an invalid reference and an index
outside the array are absent. -/
def EntityMap.get (entity_map : EntityMap) (e : EntityPtr) : EntityPtr :=
  match e with
  | none => INVALID_ENTITY
  | some i => (entity_map.m_map[i]?).join

/-- The `i32` stored in a blob at byte offset `off`. -/
def blobI32 (blob : Blob) (off : Nat) : Int :=
  asI32 (decodeLE ((blob.drop off).take 4))

/-- The reference `EntityPtr{(i32)i}` made from a `u32` index `i`: an index
from 2^31 on gives a negative `i32`, an invalid reference. -/
def sourceRef (i : Nat) : EntityPtr :=
  if i < 2147483648 then some i else INVALID_ENTITY

/-- `EntityFolders::serialize`. -/
def serialize (L : Layout) (s : EntityFolders) (blob : Blob) : Blob :=
  blob ++ encodeU32 s.m_entities.length ++ s.m_entities.flatMap L.encodeEntity ++
    encodeU32 s.m_folders.length ++ s.m_folders.flatMap L.encodeFolder

section Operations

variable (INVALID_FOLDER : FolderID)

/-- Modelled from the spec: a default-constructed linkage record. The member
initialisers of `Entity` are in the absent header; the record starts "unset":
no folder, no neighbours. -/
def Entity.unset : Entity :=
  { folder := INVALID_FOLDER, next := INVALID_ENTITY, prev := INVALID_ENTITY }

/-- `while (m_entities.size() <= index) m_entities.emplace();` -/
def grow (ents : List Entity) (index : Nat) : List Entity :=
  ents ++ List.replicate (index + 1 - ents.length) (Entity.unset INVALID_FOLDER)

/-- Lines 86-92 of `moveToFolder`: when the entity has a folder, take it out
of that folder's list and ask the world to put it into the partition of the
destination folder, the record at position `dst`. -/
def detach (ents : List Entity) (fs : List Folder) (w : World) (e : EntityRef) (dst : Nat) :
    Option (List Entity × List Folder × World) := do
  let entity ← ents[e]?
  if entity.folder ≠ INVALID_FOLDER then do
    let src ← getFolder fs entity.folder
    let (ents1, fs1) ← unlink ents fs src e
    let d ← fs1[dst]?
    pure (ents1, fs1, w.setPartition e d.partition)
  else pure (ents, fs, w)

/-- `EntityFolders::moveToFolder`. -/
def moveToFolder (s : EntityFolders) (e : EntityRef) (folder_id : FolderID) :
    Option EntityFolders := do
  if folder_id = INVALID_FOLDER then none
  let ents0 := grow INVALID_FOLDER s.m_entities e
  let dst ← getFolder s.m_folders folder_id
  let (ents1, fs1, w1) ← detach INVALID_FOLDER ents0 s.m_folders s.m_world e dst
  let (ents2, fs2) ← pushFront ents1 fs1 dst e folder_id
  pure { s with m_entities := ents2, m_folders := fs2, m_world := w1 }

/-- `EntityFolders::onEntityDestroyed`. -/
def onEntityDestroyed (s : EntityFolders) (e : EntityRef) : Option EntityFolders := do
  let entity ← s.m_entities[e]?
  let parent ← getFolder s.m_folders entity.folder
  let (ents1, fs1) ← unlink s.m_entities s.m_folders parent e
  let _ ← ents1[e]?
  pure { s with
    m_entities := ents1.set e (Entity.unset INVALID_FOLDER)
    m_folders := fs1 }

/-- `EntityFolders::onEntityCreated`. -/
def onEntityCreated (s : EntityFolders) (e : EntityRef) : Option EntityFolders :=
  if s.m_ignore_new_entities then some s else moveToFolder INVALID_FOLDER s e s.m_selected_folder

/-- `EntityFolders::getNextEntity`. -/
def getNextEntity (s : EntityFolders) (e : EntityRef) : Option EntityPtr :=
  s.m_entities[e]?.map (·.next)

/-- `EntityFolders::getFolder(EntityRef)`. -/
def getFolderOfEntity (s : EntityFolders) (e : EntityRef) : Option FolderID :=
  s.m_entities[e]?.map (·.folder)

/-- `EntityFolders::generateUniqueID`: rejection sampling against the ids of
the table. The list holds the coming outputs of `randGUID`, in order; the
result is the id and the outputs not yet consumed. -/
def generateUniqueID (fs : List Folder) : List FolderID → Option (FolderID × List FolderID)
  | [] => none
  | id :: rest =>
    if fs.any (fun f => f.id == id) then generateUniqueID fs rest else some (id, rest)

/-- Modelled from the spec: a folder record as `m_folders.emplace()` creates
it. The member initialisers of `Folder` are in the absent header; a new
folder has no parent, siblings, children or entities. The partition of a
default-constructed record is a parameter; `id` and `name` are assigned by
every caller. -/
def Folder.emplaced (defaultPartition : PartitionHandle) : Folder :=
  { id := 0
    parent := INVALID_FOLDER
    first_child := INVALID_FOLDER
    prev := INVALID_FOLDER
    next := INVALID_FOLDER
    first_entity := INVALID_ENTITY
    partition := defaultPartition
    name := "" }

/-- The constructor `EntityFolders::EntityFolders`: asserts that the world has
no entity and creates the root folder with a random id. -/
def construct (defaultPartition : PartitionHandle) (world : World) (rand : List FolderID) :
    Option (EntityFolders × List FolderID) :=
  if world.first_entity.isSome then none else
  match rand with
  | [] => none
  | id :: rest =>
    some ({ m_entities := []
            m_folders := [{ Folder.emplaced INVALID_FOLDER defaultPartition with
              id := id, name := "root" }]
            m_selected_folder := id
            m_ignore_new_entities := false
            m_world := world }, rest)

/-- `EntityFolders::emplaceFolder`. The result is the id of the new folder,
the new state and the random outputs not yet consumed. -/
def emplaceFolder (defaultPartition : PartitionHandle) (s : EntityFolders)
    (rand : List FolderID) (folder parent : FolderID) :
    Option (FolderID × EntityFolders × List FolderID) := do
  if parent = INVALID_FOLDER then none
  let (folder, rand) ←
    (if folder = INVALID_FOLDER then generateUniqueID s.m_folders rand else some (folder, rand))
  let new_folder := s.m_folders.length
  let fs0 := s.m_folders ++ [{ Folder.emplaced INVALID_FOLDER defaultPartition with
    id := folder, name := "Folder", parent := parent }]
  let p ← getFolder fs0 parent
  let P ← fs0[p]?
  let fs2 ←
    (if P.first_child ≠ INVALID_FOLDER then do
      let N ← fs0[new_folder]?
      let fs1 := fs0.set new_folder { N with next := P.first_child }
      let c ← getFolder fs1 P.first_child
      let C ← fs1[c]?
      pure (fs1.set c { C with prev := folder })
    else pure fs0)
  let P2 ← fs2[p]?
  pure (folder, { s with m_folders := fs2.set p { P2 with first_child := folder } }, rand)

/-- Modelled from the spec: `Array::eraseItems` (engine code outside the
sources) removes every item that satisfies the predicate and keeps the order
of the others. -/
def eraseItems {α : Type} (items : List α) (p : α → Prop) [DecidablePred p] : List α :=
  items.filter (fun x => ¬ p x)

/-- `EntityFolders::destroyFolder`. -/
def destroyFolder (s : EntityFolders) (folder_id : FolderID) : Option EntityFolders := do
  let f ← getFolder s.m_folders folder_id
  let F ← s.m_folders[f]?
  if F.first_entity.isSome then none
  if F.first_child ≠ INVALID_FOLDER then none
  if F.parent = INVALID_FOLDER then none
  let p ← getFolder s.m_folders F.parent
  let P ← s.m_folders[p]?
  let fs1 := if P.first_child = folder_id then s.m_folders.set p { P with first_child := F.next }
    else s.m_folders
  let F1 ← fs1[f]?
  let fs2 ←
    (if F1.prev ≠ INVALID_FOLDER then do
      let q ← getFolder fs1 F1.prev
      let Q ← fs1[q]?
      pure (fs1.set q { Q with next := F1.next })
    else pure fs1)
  let F2 ← fs2[f]?
  let fs3 ←
    (if F2.next ≠ INVALID_FOLDER then do
      let n ← getFolder fs2 F2.next
      let N ← fs2[n]?
      pure (fs2.set n { N with prev := F2.prev })
    else pure fs2)
  let fs4 := eraseItems fs3 (fun g => g.id = folder_id)
  let selected :=
    if s.m_selected_folder = folder_id then
      (match fs4 with
        | [] => INVALID_FOLDER
        | g :: _ => g.id)
    else s.m_selected_folder
  pure { s with m_folders := fs4, m_selected_folder := selected }

/-- `EntityFolders::destroyPartitionFolders`. -/
def destroyPartitionFolders (s : EntityFolders) (partition : PartitionHandle) : EntityFolders :=
  { s with m_folders := eraseItems s.m_folders (fun f => f.partition = partition) }

/-- One iteration of the loop of `cloneTo` (lines 190-194) for the pair
`(src_e, dst_e)` of the map, and the rest of the loop. `get_mapped` is the
lambda of lines 176-181. -/
def cloneEntities (src : List Entity) (get_mapped : EntityPtr → EntityPtr) :
    List (EntityPtr × EntityPtr) → List Entity → Option (List Entity)
  | [], ents => some ents
  | (src_e, dst_e) :: rest, ents => do
    let si ← src_e
    let di ← dst_e
    let ents0 := grow INVALID_FOLDER ents di
    let srec ← src[si]?
    let ents1 ← setNext ents0 di (get_mapped srec.next)
    let srec' ← src[si]?
    let ents2 ← setPrev ents1 di (get_mapped srec'.prev)
    cloneEntities src get_mapped rest ents2

/-- Modelled from the spec: the `HashMap` argument of `EntityFolders::cloneTo`,
"a mapping from a source entity reference to a destination entity reference
(or absent)", is the list of its key-value pairs in iteration order, and
`find` is the lookup of a key; the body follows lines 174-196. -/
def cloneTo (s dst : EntityFolders) (partition : PartitionHandle)
    (entity_map : List (EntityPtr × EntityPtr)) : Option EntityFolders := do
  let get_mapped := fun (e : EntityPtr) =>
    if e.isSome then
      (match entity_map.lookup e with
        | some v => v
        | none => INVALID_ENTITY)
    else e
  let fs := dst.m_folders ++ s.m_folders.filter (fun f => f.partition = partition)
  let ents ← cloneEntities INVALID_FOLDER s.m_entities get_mapped entity_map []
  pure { dst with m_entities := ents, m_folders := fs }

/-- Repeated `emplaceFolder(AUTO, parent)`, one call for each listed parent. The
result holds the ids of the new folders in the order of the calls. -/
def emplaceAuto (defaultPartition : PartitionHandle) :
    List FolderID → EntityFolders → List FolderID →
      Option (List FolderID × EntityFolders × List FolderID)
  | [], s, rand => some ([], s, rand)
  | parent :: parents, s, rand => do
    let (id, s1, rand1) ← emplaceFolder INVALID_FOLDER defaultPartition s rand INVALID_FOLDER parent
    let (ids, s2, rand2) ← emplaceAuto defaultPartition parents s1 rand1
    pure (id :: ids, s2, rand2)

/-- The scenario of the spec: construct the manager over an empty world,
create the entities 0, 1 and 2, add a folder under the root with an
automatic id and move entity 1 into it. The result is the root id, the id of
the new folder and the final state. -/
def scenario (defaultPartition : PartitionHandle) (world : World) (rand : List FolderID) :
    Option (FolderID × FolderID × EntityFolders) := do
  let (s0, rand1) ← construct INVALID_FOLDER defaultPartition world rand
  let R := s0.m_selected_folder
  let s1 ← onEntityCreated INVALID_FOLDER s0 0
  let s2 ← onEntityCreated INVALID_FOLDER s1 1
  let s3 ← onEntityCreated INVALID_FOLDER s2 2
  let (F1, s4, _) ← emplaceFolder INVALID_FOLDER defaultPartition s3 rand1 INVALID_FOLDER R
  let s5 ← moveToFolder INVALID_FOLDER s4 1 F1
  pure (R, F1, s5)

/-- The loop of the legacy branch of `deserialize` (lines 222-231): every valid
entry of the map is put at the head of the list of the folder record at
position `folder`. -/
def legacyInsert (folder : Nat) :
    List EntityPtr → List Entity → List Folder → Option (List Entity × List Folder)
  | [], ents, fs => some (ents, fs)
  | none :: rest, ents, fs => legacyInsert folder rest ents fs
  | some e :: rest, ents, fs => do
    let ents0 := grow INVALID_FOLDER ents e
    let T ← fs[folder]?
    let x ← ents0[e]?
    let ents1 := ents0.set e { x with folder := T.id }
    let ents2 ←
      (match T.first_entity with
        | some h => setPrev ents1 h (some e)
        | none => some ents1)
    let x2 ← ents2[e]?
    let ents3 := ents2.set e { x2 with next := T.first_entity }
    legacyInsert folder rest ents3 (fs.set folder { T with first_entity := some e })

/-- The legacy branch of `deserialize` (lines 199-233). `defaultId` is the id a
record has between `m_folders.emplace()` and the assignment of its id, which
`generateUniqueID` compares against; the header would tell its value. -/
def deserializeLegacy (defaultPartition : PartitionHandle) (defaultId : FolderID)
    (s : EntityFolders) (rand : List FolderID) (blob : Blob) (entity_map : EntityMap)
    (additive : Bool) : Option (EntityFolders × Blob × List FolderID) := do
  let (count, blob1) ← Blob.readI32 blob
  let n1 ← byteCount (count * 12)
  let blob2 ← Blob.skip n1 blob1
  let (size, blob3) ← Blob.readI32 blob2
  let n2 ← byteCount size
  let blob4 ← Blob.skip n2 blob3
  let blob5 ← Blob.skip 8 blob4
  let (folder, fs, rand1) ←
    (if additive then do
      let fs0 := s.m_folders ++ [{ Folder.emplaced INVALID_FOLDER defaultPartition with
        id := defaultId }]
      let (id, rand1) ← generateUniqueID fs0 rand
      let N ← fs0[s.m_folders.length]?
      pure (s.m_folders.length,
        fs0.set s.m_folders.length { N with
          id := id, partition := s.m_world.active_partition, name := "root" }, rand1)
    else
      if s.m_folders.length = 1 then pure (0, s.m_folders, rand) else none)
  let (ents, fs') ← legacyInsert INVALID_FOLDER folder entity_map.m_map s.m_entities fs
  pure ({ s with m_entities := ents, m_folders := fs' }, blob5, rand1)

/-- The loop of lines 240-253 of `deserialize`: `n` records remain to be read,
the next one has source index `i`. -/
def readEntities (L : Layout) (entity_map : EntityMap) :
    Nat → Nat → List Entity → Blob → Option (List Entity × Blob)
  | 0, _, ents, blob => some (ents, blob)
  | n + 1, i, ents, blob => do
    let (bytes, blob1) ← Blob.read L.entitySize blob
    let r := L.decodeEntity bytes
    match entity_map.get (sourceRef i) with
    | some e =>
      let ents0 := grow INVALID_FOLDER ents e
      readEntities L entity_map n (i + 1)
        (ents0.set e { folder := r.folder, next := entity_map.get r.next,
                       prev := entity_map.get r.prev }) blob1
    | none => readEntities L entity_map n (i + 1) ents blob1

/-- The current-format branch of `deserialize` (lines 235-261). A folder count
of zero, or one that makes the `u32` sum wrap, leaves `m_folders[folder_offset]`
outside the array. -/
def deserializeCurrent (L : Layout) (s : EntityFolders) (blob : Blob) (entity_map : EntityMap)
    (additive : Bool) : Option (EntityFolders × Blob) := do
  let fs0 := if additive then s.m_folders else []
  let folder_offset := fs0.length
  let (count, blob1) ← Blob.readU32 blob
  let (ents, blob2) ← readEntities INVALID_FOLDER L entity_map count 0 s.m_entities blob1
  let (folder_count, blob3) ← Blob.readU32 blob2
  if ¬ (folder_offset < (folder_count + folder_offset) % 4294967296) then none
  let (bytes, blob4) ← Blob.read (L.folderSize * folder_count) blob3
  let read := (chunks L.folderSize folder_count bytes).map L.decodeFolder
  pure ({ s with
    m_entities := ents
    m_folders := fs0 ++ read.map (fun f => { f with first_entity := entity_map.get f.first_entity }) },
    blob4)

/-- `EntityFolders::deserialize`; `NEW_ENTITY_FOLDERS` is the version of the
format cutoff. The result is the state, the rest of the blob and the random
outputs not yet consumed. -/
def deserialize (defaultPartition : PartitionHandle) (defaultId : FolderID) (L : Layout)
    (NEW_ENTITY_FOLDERS : Nat) (s : EntityFolders) (rand : List FolderID) (blob : Blob)
    (entity_map : EntityMap) (additive : Bool) (version : Nat) :
    Option (EntityFolders × Blob × List FolderID) :=
  if version ≤ NEW_ENTITY_FOLDERS then
    deserializeLegacy INVALID_FOLDER defaultPartition defaultId s rand blob entity_map additive
  else
    (deserializeCurrent INVALID_FOLDER L s blob entity_map additive).map
      (fun (s', blob') => (s', blob', rand))

end Operations

/-- A call of one of the two operations that change the membership lists. -/
inductive Call where
  | moveToFolder (e : EntityRef) (folder_id : FolderID)
  | onEntityDestroyed (e : EntityRef)
  deriving DecidableEq, Repr

/-- Run a sequence of calls, stopping at the first one that fails. -/
def runCalls (INVALID_FOLDER : FolderID) : List Call → EntityFolders → Option EntityFolders
  | [], s => some s
  | Call.moveToFolder e f :: cs, s =>
    (moveToFolder INVALID_FOLDER s e f).bind (runCalls INVALID_FOLDER cs)
  | Call.onEntityDestroyed e :: cs, s =>
    (onEntityDestroyed INVALID_FOLDER s e).bind (runCalls INVALID_FOLDER cs)

/-! ## Member lists and well-formed states -/

/-- `Chain ents prev cur l`: starting at the reference `cur` and following
`next`, one visits exactly the entities of `l`, in order, and then reaches
INVALID; the first node has `prev` as its `prev`, every later node has its
predecessor in the chain. -/
def Chain (ents : List Entity) : EntityPtr → EntityPtr → List Nat → Prop
  | _, cur, [] => cur = none
  | prev, cur, e :: rest =>
    cur = some e ∧ ∃ r, ents[e]? = some r ∧ r.prev = prev ∧ Chain ents (some e) r.next rest

/-- The list `l` is the member list of folder record `F`: the chain from
`F.first_entity` visits `l`, whose head has `prev == INVALID`, without
repetition, and `l` holds exactly the entities whose record names `F.id`. -/
def MemberList (ents : List Entity) (F : Folder) (l : List Nat) : Prop :=
  Chain ents INVALID_ENTITY F.first_entity l ∧ l.Nodup ∧
    ∀ i, i ∈ l ↔ ∃ r, ents[i]? = some r ∧ r.folder = F.id

/-- Well-formed manager state: folder ids are pairwise distinct and every
folder of the table has a member list. -/
def WellFormed (s : EntityFolders) : Prop :=
  (s.m_folders.map (·.id)).Nodup ∧ ∀ F ∈ s.m_folders, ∃ l, MemberList s.m_entities F l

/-- A well-formed state in which, moreover, no folder carries the sentinel id
and every linkage record names the sentinel or a folder of the table. -/
def Consistent (INVALID_FOLDER : FolderID) (s : EntityFolders) : Prop :=
  WellFormed s ∧ (∀ F ∈ s.m_folders, F.id ≠ INVALID_FOLDER) ∧
    ∀ r ∈ s.m_entities, r.folder = INVALID_FOLDER ∨ ∃ F ∈ s.m_folders, F.id = r.folder

/-- A consistent state in which, moreover, every linkage record without a
folder is unset (has no neighbours). -/
def Tidy (INVALID_FOLDER : FolderID) (s : EntityFolders) : Prop :=
  Consistent INVALID_FOLDER s ∧
    ∀ r ∈ s.m_entities, r.folder = INVALID_FOLDER → r = Entity.unset INVALID_FOLDER

/-- No folder of the table has the sentinel id. -/
def NoSentinel (INVALID_FOLDER : FolderID) (s : EntityFolders) : Prop :=
  ∀ F ∈ s.m_folders, F.id ≠ INVALID_FOLDER

/-- Two folder tables agree in everything but the `first_entity` fields. -/
def SameSkeleton (fs fs' : List Folder) : Prop :=
  fs'.map (fun F => { F with first_entity := INVALID_ENTITY }) =
    fs.map (fun F => { F with first_entity := INVALID_ENTITY })

/-- What the unlinking of an entity with record `r` does to the record `x`
of entity `j`: the predecessor of the entity gets its `next`, the successor
gets its `prev`. -/
def relink (r : Entity) (j : Nat) (x : Entity) : Entity :=
  { x with
    next := if r.prev = some j then r.next else x.next
    prev := if r.next = some j then r.prev else x.prev }

/-- The member list of `F` once entity `e` has been taken out of its list
while its record still names its old folder: `l` holds exactly the entities
other than `e` whose record names `F.id`. -/
def Detached (e : Nat) (ents : List Entity) (F : Folder) (l : List Nat) : Prop :=
  Chain ents INVALID_ENTITY F.first_entity l ∧ l.Nodup ∧
    ∀ i, i ∈ l ↔ i ≠ e ∧ ∃ r, ents[i]? = some r ∧ r.folder = F.id

/-- An example state, with sentinel 0: the root folder 5 holds the entities
2, 1, 0 (in list order) and has one empty child folder, 7. -/
def exampleState : EntityFolders :=
  { m_entities := [⟨5, none, some 1⟩, ⟨5, some 0, some 2⟩, ⟨5, some 1, none⟩]
    m_folders :=
      [{ id := 5, parent := 0, first_child := 7, prev := 0, next := 0, first_entity := some 2,
         partition := 0, name := "root" },
       { id := 7, parent := 5, first_child := 0, prev := 0, next := 0, first_entity := none,
         partition := 0, name := "Folder" }]
    m_selected_folder := 5
    m_ignore_new_entities := false
    m_world := ⟨none, 0, []⟩ }

/-- The example state after `moveToFolder(1, 7)`. -/
def exampleMoved : EntityFolders :=
  { m_entities := [⟨5, none, some 2⟩, ⟨7, none, none⟩, ⟨5, some 0, none⟩]
    m_folders :=
      [{ id := 5, parent := 0, first_child := 7, prev := 0, next := 0, first_entity := some 2,
         partition := 0, name := "root" },
       { id := 7, parent := 5, first_child := 0, prev := 0, next := 0, first_entity := some 1,
         partition := 0, name := "Folder" }]
    m_selected_folder := 5
    m_ignore_new_entities := false
    m_world := ⟨none, 0, [(1, 0)]⟩ }

/-- A destination manager for `cloneTo`: a root folder of partition 1. -/
def cloneDst : EntityFolders :=
  { m_entities := []
    m_folders :=
      [{ id := 3, parent := 0, first_child := 0, prev := 0, next := 0, first_entity := none,
         partition := 1, name := "root" }]
    m_selected_folder := 3
    m_ignore_new_entities := false
    m_world := ⟨none, 1, []⟩ }

/-- The destination after cloning partition 0 of the example state with the
map `2 ↦ 0, 0 ↦ 1`. -/
def cloneResult : EntityFolders :=
  { cloneDst with
    m_entities := [⟨0, none, none⟩, ⟨0, none, none⟩]
    m_folders := cloneDst.m_folders ++ exampleState.m_folders }

/-! ### The persisted layout, in the words of the spec

"`[u32 entity_count][entity_count × fixed-size entity linkage record]
[u32 folder_count][folder_count × fixed-size folder record]`" -/

/-- The entity count at the start of a current-format blob. -/
def blobEntityCount (blob : Blob) : Nat :=
  decodeLE (blob.take 4)

/-- The `i`-th entity linkage record of a current-format blob. -/
def blobEntity (L : Layout) (blob : Blob) (i : Nat) : Entity :=
  L.decodeEntity ((blob.drop (4 + i * L.entitySize)).take L.entitySize)

/-- The folder count of a current-format blob. -/
def blobFolderCount (L : Layout) (blob : Blob) : Nat :=
  decodeLE ((blob.drop (4 + blobEntityCount blob * L.entitySize)).take 4)

/-- The `j`-th folder record of a current-format blob. -/
def blobFolder (L : Layout) (blob : Blob) (j : Nat) : Folder :=
  L.decodeFolder ((blob.drop (4 + blobEntityCount blob * L.entitySize + 4 + j * L.folderSize)).take
    L.folderSize)

/-- The number of bytes of a current-format blob. -/
def blobSize (L : Layout) (blob : Blob) : Nat :=
  4 + blobEntityCount blob * L.entitySize + 4 + blobFolderCount L blob * L.folderSize

/-- A simple layout for examples: every field of a record takes one cell of
the blob, a reference `some i` is stored as `i + 1` and INVALID as 0, and the
name is stored as a code (0 for "root", 1 for "Folder"). -/
def exampleLayout : Layout :=
  { entitySize := 3
    encodeEntity := fun r => [r.folder, r.next.elim 0 (· + 1), r.prev.elim 0 (· + 1)]
    decodeEntity := fun b =>
      { folder := b.getD 0 0
        next := if b.getD 1 0 = 0 then none else some (b.getD 1 0 - 1)
        prev := if b.getD 2 0 = 0 then none else some (b.getD 2 0 - 1) }
    folderSize := 8
    encodeFolder := fun f =>
      [f.id, f.parent, f.first_child, f.prev, f.next, f.first_entity.elim 0 (· + 1), f.partition,
        if f.name = "root" then 0 else if f.name = "Folder" then 1 else 2]
    decodeFolder := fun b =>
      { id := b.getD 0 0
        parent := b.getD 1 0
        first_child := b.getD 2 0
        prev := b.getD 3 0
        next := b.getD 4 0
        first_entity := if b.getD 5 0 = 0 then none else some (b.getD 5 0 - 1)
        partition := b.getD 6 0
        name := if b.getD 7 0 = 0 then "root" else if b.getD 7 0 = 1 then "Folder" else "" } }

/-- A manager holding one unset linkage record and no folder. -/
def blankState : EntityFolders :=
  { m_entities := [⟨0, none, none⟩]
    m_folders := []
    m_selected_folder := 0
    m_ignore_new_entities := false
    m_world := ⟨none, 0, []⟩ }

/-- A current-format blob in the example layout: two entity records, of the
folders 5 and 7, and one folder record. -/
def twoRecordBlob : Blob :=
  [2, 0, 0, 0, 5, 0, 0, 7, 0, 0, 1, 0, 0, 0, 9, 0, 0, 0, 0, 0, 0, 0]

/-- A legacy-format blob: `count = 1`, twelve bytes of old folder data,
`size = 2`, two bytes, eight more bytes, and one byte that is not part of the
legacy data. -/
def legacyBlob : Blob :=
  [1, 0, 0, 0, 9, 9, 9, 9, 9, 9, 9, 9, 9, 9, 9, 9, 2, 0, 0, 0, 9, 9, 7, 7, 7, 7, 7, 7, 7, 7, 42]

/-! ## Sibling lists of folders -/

/-- `FChain fs prev cur l`: starting at the folder id `cur` and following
`next`, one visits exactly the folders of `l`, in order, and then reaches
`INVALID_FOLDER`; the first one has `prev` as its `prev`, every later one has
its predecessor in the chain. -/
def FChain (INVALID_FOLDER : FolderID) (fs : List Folder) :
    FolderID → FolderID → List FolderID → Prop
  | _, cur, [] => cur = INVALID_FOLDER
  | prev, cur, x :: rest =>
    cur = x ∧ x ≠ INVALID_FOLDER ∧
      ∃ X ∈ fs, X.id = x ∧ X.prev = prev ∧ FChain INVALID_FOLDER fs x X.next rest

/-- The list `l` is the sibling list of the children of folder record `P`:
`P.first_child` heads a `prev`/`next` chain that visits `l`, without
repetition, and `l` holds exactly the ids of the folders whose parent is `P`. -/
def SiblingList (INVALID_FOLDER : FolderID) (fs : List Folder) (P : Folder)
    (l : List FolderID) : Prop :=
  FChain INVALID_FOLDER fs INVALID_FOLDER P.first_child l ∧ l.Nodup ∧
    ∀ x, x ∈ l ↔ ∃ X ∈ fs, X.id = x ∧ X.parent = P.id

/-- Folder ids are distinct and the sibling lists are consistently doubly
linked: the `first_child` of each folder heads a chain of exactly its
children. -/
def Linked (INVALID_FOLDER : FolderID) (fs : List Folder) : Prop :=
  (fs.map (·.id)).Nodup ∧ ∀ P ∈ fs, ∃ l, SiblingList INVALID_FOLDER fs P l

/-- A linked table in which, moreover, a folder without a parent has no
siblings and the parent of every other folder is in the table. -/
def Forest (INVALID_FOLDER : FolderID) (fs : List Folder) : Prop :=
  Linked INVALID_FOLDER fs ∧
    (∀ G ∈ fs, G.parent = INVALID_FOLDER →
      G.next = INVALID_FOLDER ∧ G.prev = INVALID_FOLDER) ∧
    ∀ G ∈ fs, G.parent ≠ INVALID_FOLDER → ∃ P ∈ fs, P.id = G.parent

/-- What `destroyFolder` of the folder with record `F` does to the record `X`
of another folder (lines 109-111): the parent gets a new `first_child` when
`F` was its first child, the predecessor of `F` gets its `next`, the successor
gets its `prev`. -/
def bypass (F X : Folder) : Folder :=
  { X with
    first_child := if X.id = F.parent ∧ X.first_child = F.id then F.next else X.first_child
    next := if X.id = F.prev then F.next else X.next
    prev := if X.id = F.next then F.prev else X.prev }

/-- The table after `destroyFolder` of the folder with record `F`. -/
def destroyed (F : Folder) (fs : List Folder) : List Folder :=
  eraseItems (fs.map (bypass F)) (fun g => g.id = F.id)

/-- A table with three children 7, 8, 9 (in list order) of the root 5. -/
def siblingState : EntityFolders :=
  { m_entities := []
    m_folders :=
      [{ id := 5, parent := 0, first_child := 7, prev := 0, next := 0, first_entity := none,
         partition := 0, name := "root" },
       { id := 9, parent := 5, first_child := 0, prev := 8, next := 0, first_entity := none,
         partition := 0, name := "Folder" },
       { id := 8, parent := 5, first_child := 0, prev := 7, next := 9, first_entity := none,
         partition := 0, name := "Folder" },
       { id := 7, parent := 5, first_child := 0, prev := 0, next := 8, first_entity := none,
         partition := 0, name := "Folder" }]
    m_selected_folder := 8
    m_ignore_new_entities := false
    m_world := ⟨none, 0, []⟩ }

/-- The folder record `F` can be destroyed: it has no entities and no
children, its parent is a folder of the table, and its two sibling links are
the sentinel or ids of folders of the table. -/
def Destroyable (INVALID_FOLDER : FolderID) (fs : List Folder) (F : Folder) : Prop :=
  F.first_entity = INVALID_ENTITY ∧ F.first_child = INVALID_FOLDER ∧
    F.parent ≠ INVALID_FOLDER ∧ F.parent ∈ fs.map (·.id) ∧
    (F.prev = INVALID_FOLDER ∨ F.prev ∈ fs.map (·.id)) ∧
    (F.next = INVALID_FOLDER ∨ F.next ∈ fs.map (·.id))

/-! ## Selection and sequences of calls -/

/-- Modelled from the spec: `World::setActivePartition(partition)`; "exactly
one active partition at a time". -/
def World.setActivePartition (w : World) (p : PartitionHandle) : World :=
  { w with active_partition := p }

/-- `EntityFolders::selectFolder`. -/
def selectFolder (s : EntityFolders) (folder : FolderID) : Option EntityFolders := do
  let k ← getFolder s.m_folders folder
  let F ← s.m_folders[k]?
  pure { s with
    m_selected_folder := folder
    m_world := s.m_world.setActivePartition F.partition }

/-- A call of one of the operations of the manager that a client or the
world makes after construction. -/
inductive Step where
  | emplaceFolder (folder parent : FolderID)
  | destroyFolder (f : FolderID)
  | moveToFolder (e : EntityRef) (f : FolderID)
  | selectFolder (f : FolderID)
  | onEntityCreated (e : EntityRef)
  | onEntityDestroyed (e : EntityRef)
  deriving DecidableEq, Repr

/-- Run a sequence of calls, stopping at the first one that fails. The state
goes with the outputs of the random source that are still to come. -/
def runSteps (INVALID_FOLDER : FolderID) (defaultPartition : PartitionHandle) :
    List Step → EntityFolders × List FolderID → Option (EntityFolders × List FolderID)
  | [], st => some st
  | Step.emplaceFolder folder parent :: cs, (s, rand) =>
    (emplaceFolder INVALID_FOLDER defaultPartition s rand folder parent).bind
      (fun r => runSteps INVALID_FOLDER defaultPartition cs (r.2.1, r.2.2))
  | Step.destroyFolder f :: cs, (s, rand) =>
    (destroyFolder INVALID_FOLDER s f).bind
      (fun s1 => runSteps INVALID_FOLDER defaultPartition cs (s1, rand))
  | Step.moveToFolder e f :: cs, (s, rand) =>
    (moveToFolder INVALID_FOLDER s e f).bind
      (fun s1 => runSteps INVALID_FOLDER defaultPartition cs (s1, rand))
  | Step.selectFolder f :: cs, (s, rand) =>
    (selectFolder s f).bind (fun s1 => runSteps INVALID_FOLDER defaultPartition cs (s1, rand))
  | Step.onEntityCreated e :: cs, (s, rand) =>
    (onEntityCreated INVALID_FOLDER s e).bind
      (fun s1 => runSteps INVALID_FOLDER defaultPartition cs (s1, rand))
  | Step.onEntityDestroyed e :: cs, (s, rand) =>
    (onEntityDestroyed INVALID_FOLDER s e).bind
      (fun s1 => runSteps INVALID_FOLDER defaultPartition cs (s1, rand))

/-- The record at position 0 of the table is the root `R`: it has the id `R`
and no parent. -/
def RootFirst (INVALID_FOLDER R : FolderID) (fs : List Folder) : Prop :=
  (fs.map (fun G => (G.id, G.parent))).head? = some (R, INVALID_FOLDER)

/-! ## The table after `emplaceFolder` -/

/-- What `emplaceFolder` of a new folder `id` under the parent with record `P`
does to the record `X` of a folder of the table (lines 131-135): the parent
gets `id` as `first_child`, and its former first child, if there is one, gets
`id` as `prev`. -/
def graft (INVALID_FOLDER id : FolderID) (P X : Folder) : Folder :=
  { X with
    first_child := if X.id = P.id then id else X.first_child
    prev := if P.first_child ≠ INVALID_FOLDER ∧ X.id = P.first_child then id else X.prev }

/-- The record of the new folder `id` under the parent with record `P`. -/
def newFolder (INVALID_FOLDER : FolderID) (defaultPartition : PartitionHandle)
    (id : FolderID) (P : Folder) : Folder :=
  { Folder.emplaced INVALID_FOLDER defaultPartition with
    id := id, name := "Folder", parent := P.id, next := P.first_child }

/-- The table after `emplaceFolder` of the new folder `id` under the parent
with record `P`. -/
def grafted (INVALID_FOLDER : FolderID) (defaultPartition : PartitionHandle) (id : FolderID)
    (P : Folder) (fs : List Folder) : List Folder :=
  fs.map (graft INVALID_FOLDER id P) ++ [newFolder INVALID_FOLDER defaultPartition id P]

/-! ## Theorems -/

section Lemmas

theorem getFolder_some {fs : List Folder} {id : FolderID} {k : Nat}
    (h : getFolder fs id = some k) : ∃ F, fs[k]? = some F ∧ F.id = id := by
  induction fs generalizing k with
  | nil => simp [getFolder] at h
  | cons f fs ih =>
    unfold getFolder at h
    split at h
    · cases h; exact ⟨f, by simp, by assumption⟩
    · simp only [Option.map_eq_some'] at h
      obtain ⟨j, hj, rfl⟩ := h
      obtain ⟨F, hF, hid⟩ := ih hj
      exact ⟨F, by simpa using hF, hid⟩

theorem getFolder_of_mem {fs : List Folder} {F : Folder} (h : F ∈ fs) :
    ∃ k, getFolder fs F.id = some k := by
  induction fs with
  | nil => cases h
  | cons f fs ih =>
    unfold getFolder
    by_cases hf : f.id = F.id
    · exact ⟨0, by simp [hf]⟩
    · rcases List.mem_cons.1 h with rfl | h
      · exact absurd rfl hf
      · obtain ⟨k, hk⟩ := ih h
        exact ⟨k + 1, by simp [hf, hk]⟩

/-- With pairwise distinct ids a record is determined by its id. -/
theorem eq_of_id_eq {fs : List Folder} (hnd : (fs.map (·.id)).Nodup) {j k : Nat} {F G : Folder}
    (hF : fs[j]? = some F) (hG : fs[k]? = some G) (h : F.id = G.id) : j = k := by
  have hj : (fs.map (·.id))[j]? = some F.id := by simp [hF]
  have hk : (fs.map (·.id))[k]? = some F.id := by simp [hG, h]
  obtain ⟨hj1, hj2⟩ := List.getElem?_eq_some.1 hj
  obtain ⟨hk1, hk2⟩ := List.getElem?_eq_some.1 hk
  exact (List.Nodup.getElem_inj_iff hnd).1 (hj2.trans hk2.symm)

theorem Chain.head {ents : List Entity} {p c : EntityPtr} {l : List Nat}
    (h : Chain ents p c l) : c = l.head? := by
  cases l with
  | nil => exact h
  | cons e rest => exact h.1

theorem Chain.frame {ents ents' : List Entity} {l : List Nat} :
    ∀ {p c : EntityPtr}, (∀ i ∈ l, ents'[i]? = ents[i]?) → Chain ents p c l → Chain ents' p c l := by
  induction l with
  | nil => intro p c _ h; exact h
  | cons e rest ih =>
    intro p c hag h
    obtain ⟨hc, r, hr, hp, hrest⟩ := h
    refine ⟨hc, r, ?_, hp, ih (fun i hi => hag i (List.mem_cons_of_mem _ hi)) hrest⟩
    rw [hag e (List.mem_cons_self _ _)]; exact hr

theorem Chain.unique {ents : List Entity} {l l' : List Nat} :
    ∀ {p c : EntityPtr}, Chain ents p c l → Chain ents p c l' → l = l' := by
  induction l generalizing l' with
  | nil =>
    intro p c h h'
    cases l' with
    | nil => rfl
    | cons e rest => rw [h] at h'; exact absurd h'.1 (by simp)
  | cons e rest ih =>
    intro p c h h'
    cases l' with
    | nil => rw [h'] at h; exact absurd h.1 (by simp)
    | cons e' rest' =>
      obtain ⟨hc, r, hr, _, hrest⟩ := h
      obtain ⟨hc', r', hr', _, hrest'⟩ := h'
      have he : e = e' := by rw [hc] at hc'; exact Option.some.inj hc'
      subst he
      rw [hr] at hr'; cases hr'
      rw [ih hrest hrest']

theorem unlink_eq {ents : List Entity} {fs : List Folder} {src e : Nat} {r : Entity} {sf : Folder}
    (hr : ents[e]? = some r) (hsf : fs[src]? = some sf)
    (hp : ∀ p, r.prev = some p → p < ents.length) (hn : ∀ n, r.next = some n → n < ents.length) :
    ∃ ents2, unlink ents fs src e = some (ents2,
        if sf.first_entity = some e then fs.set src { sf with first_entity := r.next } else fs) ∧
      ents2.length = ents.length ∧ ∀ j, ents2[j]? = (ents[j]?).map (relink r j) := by
  have he : e < ents.length := (List.getElem?_eq_some.1 hr).1
  obtain ⟨rf, rn, rp⟩ := r
  cases rp with
  | none =>
    cases rn with
    | none =>
      refine ⟨ents, by simp [unlink, hr, hsf], rfl, fun j => ?_⟩
      cases ents[j]? <;> simp [relink]
    | some n =>
      have hn' := hn n rfl
      obtain ⟨xn, hxn⟩ : ∃ x, ents[n]? = some x := ⟨ents[n], List.getElem?_eq_getElem hn'⟩
      refine ⟨ents.set n { xn with prev := none }, by simp [unlink, hr, hsf, setPrev, hxn], by simp, fun j => ?_⟩
      rw [List.getElem?_set]
      by_cases hj : n = j
      · subst hj; simp [hn', hxn, relink]
      · have : ¬ (j = n) := fun h => hj h.symm
        cases ents[j]? <;> simp [hj, relink, this]
  | some p =>
    have hp' := hp p rfl
    obtain ⟨xp, hxp⟩ : ∃ x, ents[p]? = some x := ⟨ents[p], List.getElem?_eq_getElem hp'⟩
    have h1 : (ents.set p { xp with next := rn })[e]? = some ⟨rf, rn, some p⟩ := by
      rw [List.getElem?_set]
      by_cases hpe : p = e
      · subst hpe; rw [hr] at hxp; cases hxp; simp [hp']
      · simp [hpe, hr]
    cases rn with
    | none =>
      refine ⟨ents.set p { xp with next := none }, by simp [unlink, hr, hsf, setNext, hxp, h1], by simp, fun j => ?_⟩
      rw [List.getElem?_set]
      by_cases hj : p = j
      · subst hj; simp [hp', hxp, relink]
      · have : ¬ (j = p) := fun h => hj h.symm
        cases ents[j]? <;> simp [hj, relink, this]
    | some n =>
      have hn' := hn n rfl
      obtain ⟨yn, hyn⟩ : ∃ y, (ents.set p { xp with next := some n })[n]? = some y :=
        ⟨_, List.getElem?_eq_getElem (by simpa using hn')⟩
      refine ⟨(ents.set p { xp with next := some n }).set n { yn with prev := some p },
        by simp [unlink, hr, hsf, setNext, setPrev, hxp, h1, hyn], by simp, fun j => ?_⟩
      rw [List.getElem?_set] at hyn
      rw [List.getElem?_set, List.getElem?_set]
      by_cases hpn : p = n
      · subst hpn
        simp only [if_true, hp'] at hyn
        cases hyn
        by_cases hj : p = j
        · subst hj; simp [hp', hxp, relink]
        · have : ¬ (j = p) := fun h => hj h.symm
          cases ents[j]? <;> simp [hj, relink, this]
      · simp only [hpn, if_false] at hyn
        by_cases hj : n = j
        · subst hj
          have : ¬ (n = p) := fun h => hpn h.symm
          simp [hn', hyn, relink, this, hpn]
        · have hj' : ¬ (j = n) := fun h => hj h.symm
          by_cases hj2 : p = j
          · subst hj2; simp [hj, hp', hxp, relink, hj']
          · have : ¬ (j = p) := fun h => hj2 h.symm
            cases ents[j]? <;> simp [hj, hj2, relink, this, hj']

theorem relink_self {r : Entity} {j : Nat} (x : Entity) (hp : r.prev ≠ some j)
    (hn : r.next ≠ some j) : relink r j x = x := by
  simp [relink, hp, hn]

theorem relink_folder (r : Entity) (j : Nat) (x : Entity) : (relink r j x).folder = x.folder := rfl

theorem Chain.mem_get {ents : List Entity} {l : List Nat} :
    ∀ {p c : EntityPtr}, Chain ents p c l → ∀ i ∈ l, ∃ x, ents[i]? = some x := by
  induction l with
  | nil => intro p c _ i hi; cases hi
  | cons e rest ih =>
    intro p c h i hi
    obtain ⟨_, r, hr, _, hrest⟩ := h
    rcases List.mem_cons.1 hi with rfl | hi
    · exact ⟨r, hr⟩
    · exact ih hrest i hi

/-- In a chain, the record of a member names its predecessor (or the `prev`
the chain starts with) and its successor. -/
theorem Chain.prev_next {ents : List Entity} {e : Nat} {r : Entity} (hr : ents[e]? = some r)
    {l2 : List Nat} : ∀ (l1 : List Nat) {p c : EntityPtr}, Chain ents p c (l1 ++ e :: l2) →
      (r.prev = p ∧ l1 = [] ∨ ∃ q ∈ l1, r.prev = some q) ∧ r.next = l2.head? := by
  intro l1
  induction l1 with
  | nil =>
    intro p c h
    obtain ⟨_, r', hr', hp, hrest⟩ := h
    rw [hr] at hr'; cases hr'
    exact ⟨Or.inl ⟨hp, rfl⟩, hrest.head⟩
  | cons a l1 ih =>
    intro p c h
    obtain ⟨_, ra, _, _, hrest⟩ := h
    obtain ⟨h1, h2⟩ := ih hrest
    refine ⟨Or.inr ?_, h2⟩
    rcases h1 with ⟨h1, rfl⟩ | ⟨q, hq, h1⟩
    · exact ⟨a, List.mem_cons_self _ _, h1⟩
    · exact ⟨q, List.mem_cons_of_mem _ hq, h1⟩

theorem Chain.relink_frame {ents ents2 : List Entity} {r : Entity}
    (h2 : ∀ j, ents2[j]? = (ents[j]?).map (relink r j)) {l : List Nat} {p c : EntityPtr}
    (h : Chain ents p c l) (hl : ∀ j ∈ l, r.prev ≠ some j ∧ r.next ≠ some j) :
    Chain ents2 p c l := by
  refine Chain.frame (fun i hi => ?_) h
  rw [h2 i]
  cases ents[i]? with
  | none => rfl
  | some x => simp [relink_self x (hl i hi).1 (hl i hi).2]

/-- Unlinking a member of a chain leaves the chain of the other members. -/
theorem Chain.unlink {ents ents2 : List Entity} {e : Nat} {r : Entity} (hr : ents[e]? = some r)
    (h2 : ∀ j, ents2[j]? = (ents[j]?).map (relink r j)) {l2 : List Nat} :
    ∀ (l1 : List Nat) {p c : EntityPtr}, Chain ents p c (l1 ++ e :: l2) →
      (l1 ++ e :: l2).Nodup → (∀ q, p = some q → q ∉ l1 ++ e :: l2) →
      Chain ents2 p (if l1 = [] then r.next else c) (l1 ++ l2) := by
  intro l1
  induction l1 with
  | nil =>
    intro p c h hnd hp
    obtain ⟨_, r', hr', hrp, hrest⟩ := h
    rw [hr] at hr'; cases hr'
    simp only [List.nil_append, if_true]
    simp only [List.nil_append] at hnd hp
    cases l2 with
    | nil => exact hrest
    | cons n l3 =>
      obtain ⟨hn, rn, hrn, _, hrest3⟩ := hrest
      have hnd' := List.nodup_cons.1 hnd
      have hnd3 := List.nodup_cons.1 hnd'.2
      have hpn : r.prev ≠ some n := fun h =>
        hp n (hrp ▸ h) (List.mem_cons_of_mem _ (List.mem_cons_self _ _))
      refine ⟨hn, relink r n rn, by simp [h2 n, hrn], by simp [relink, hn, hrp], ?_⟩
      have : (relink r n rn).next = rn.next := by simp [relink, hpn]
      rw [this]
      refine Chain.relink_frame h2 hrest3 (fun j hj => ⟨fun h => ?_, fun h => ?_⟩)
      · exact hp j (hrp ▸ h) (List.mem_cons_of_mem _ (List.mem_cons_of_mem _ hj))
      · rw [hn] at h; cases h; exact hnd3.1 hj
  | cons a l1 ih =>
    intro p c h hnd hp
    obtain ⟨hc, ra, hra, hrap, hrest⟩ := h
    have hnd' := List.nodup_cons.1 (by simpa using hnd : (a :: (l1 ++ e :: l2)).Nodup)
    obtain ⟨hprev, hnext⟩ := Chain.prev_next hr l1 hrest
    have ha2 : a ∉ l2 := fun h => hnd'.1 (List.mem_append_right _ (List.mem_cons_of_mem _ h))
    have ha1 : a ∉ l1 := fun h => hnd'.1 (List.mem_append_left _ h)
    have hna : r.next ≠ some a := by
      intro h; rw [hnext] at h
      exact ha2 (List.mem_of_mem_head? h)
    have ih' := ih hrest hnd'.2 (fun q hq => by cases hq; exact hnd'.1)
    simp only [List.cons_append, if_false, reduceCtorEq]
    refine ⟨hc, relink r a ra, by simp [h2 a, hra], by simp [relink, hna, hrap], ?_⟩
    have : (relink r a ra).next = if l1 = [] then r.next else ra.next := by
      rcases hprev with ⟨h1, rfl⟩ | ⟨q, hq, h1⟩
      · simp [relink, h1]
      · have hqa : q ≠ a := fun h => ha1 (h ▸ hq)
        have hl1 : l1 ≠ [] := List.ne_nil_of_mem hq
        simp [relink, h1, hqa, hl1]
    rw [this]; exact ih'

theorem pushFront_eq {ents : List Entity} {fs : List Folder} {dst e : Nat} {d : Folder} {x : Entity}
    (folder_id : FolderID) (hd : fs[dst]? = some d) (hx : ents[e]? = some x)
    (hn : ∀ n, d.first_entity = some n → n < ents.length ∧ n ≠ e) :
    ∃ ents2, pushFront ents fs dst e folder_id =
        some (ents2, fs.set dst { d with first_entity := some e }) ∧
      ents2.length = ents.length ∧
      ∀ j, ents2[j]? = if j = e then some ⟨folder_id, d.first_entity, none⟩
        else if d.first_entity = some j then (ents[j]?).map (fun y => { y with prev := some e })
        else ents[j]? := by
  have he : e < ents.length := (List.getElem?_eq_some.1 hx).1
  cases hfe : d.first_entity with
  | none =>
    refine ⟨_, by simp [pushFront, hd, hx, hfe]; rfl, by simp, fun j => ?_⟩
    rw [List.getElem?_set]
    by_cases hj : e = j
    · subst hj; simp [he, INVALID_ENTITY]
    · have : ¬ (j = e) := fun h => hj h.symm
      simp [hj, this]
  | some n =>
    obtain ⟨hn1, hn2⟩ := hn n hfe
    have hn3 : ¬ (e = n) := fun h => hn2 h.symm
    obtain ⟨y, hy⟩ : ∃ y, ents[n]? = some y := ⟨ents[n], List.getElem?_eq_getElem hn1⟩
    have h1 : (ents.set e ⟨folder_id, some n, INVALID_ENTITY⟩)[n]? = some y := by
      rw [List.getElem?_set]; simp [hn3, hy]
    refine ⟨_, by simp [pushFront, hd, hx, hfe, setPrev, h1]; rfl, by simp, fun j => ?_⟩
    rw [List.getElem?_set, List.getElem?_set]
    by_cases hj : n = j
    · subst hj; simp [hn1, hy, hn2]
    · have : ¬ (j = n) := fun h => hj h.symm
      by_cases hj2 : e = j
      · subst hj2; simp [hj, he, INVALID_ENTITY]
      · have : ¬ (j = e) := fun h => hj2 h.symm
        simp [hj, hj2, this]

/-- Putting a non-member in front of a chain gives the chain of the longer list. -/
theorem Chain.pushFront {ents ents2 : List Entity} {e : Nat} {c : EntityPtr} {l : List Nat}
    (folder_id : FolderID) (h : Chain ents none c l) (hnd : l.Nodup) (he : e ∉ l)
    (h2 : ∀ j, ents2[j]? = if j = e then some ⟨folder_id, c, none⟩
        else if c = some j then (ents[j]?).map (fun y => { y with prev := some e })
        else ents[j]?) :
    Chain ents2 none (some e) (e :: l) := by
  refine ⟨rfl, ⟨folder_id, c, none⟩, by simp [h2 e], rfl, ?_⟩
  cases l with
  | nil => exact h
  | cons n l3 =>
    obtain ⟨hn, rn, hrn, _, hrest⟩ := h
    have hne : n ≠ e := fun h => he (h ▸ List.mem_cons_self _ _)
    have hnd' := List.nodup_cons.1 hnd
    refine ⟨hn, { rn with prev := some e }, by simp [h2 n, hne, hn, hrn], rfl, ?_⟩
    refine Chain.frame (fun i hi => ?_) hrest
    have hie : i ≠ e := fun h => he (h ▸ List.mem_cons_of_mem _ hi)
    have hin : ¬ (n = i) := fun h => hnd'.1 (h ▸ hi)
    simp [h2 i, hie, hn, hin]

theorem mem_of_getElem? {α : Type} {l : List α} {k : Nat} {a : α} (h : l[k]? = some a) : a ∈ l :=
  List.mem_iff_getElem?.2 ⟨k, h⟩

/-- State-level effect of the unlinking step on a table whose folders all have
member lists: every list loses `e` and keeps its order. -/
theorem unlink_state {ents : List Entity} {fs : List Folder} {e si : Nat} {r : Entity}
    (hnd : (fs.map (·.id)).Nodup) (hall : ∀ F ∈ fs, ∃ l, MemberList ents F l)
    (hr : ents[e]? = some r) (hsrc : getFolder fs r.folder = some si) :
    ∃ ents1 fs1, unlink ents fs si e = some (ents1, fs1) ∧ ents1.length = ents.length ∧
      fs1.length = fs.length ∧
      (∀ j, ents1[j]? = (ents[j]?).map (relink r j)) ∧
      ∀ (k : Nat) (F : Folder) (l : List Nat), fs[k]? = some F → MemberList ents F l →
        ∃ F', fs1[k]? = some F' ∧ F' = { F with first_entity := F'.first_entity } ∧
          Detached e ents1 F' (l.erase e) := by
  obtain ⟨G, hG, hGid⟩ := getFolder_some hsrc
  obtain ⟨lG, hGc, hGnd, hGm⟩ := hall G (mem_of_getElem? hG)
  have heG : e ∈ lG := (hGm e).2 ⟨r, hr, hGid.symm⟩
  obtain ⟨l1, l2, rfl⟩ := List.append_of_mem heG
  obtain ⟨hprev, hnext⟩ := Chain.prev_next hr l1 hGc
  have hpm : ∀ q, r.prev = some q → q ∈ l1 := by
    intro q hq
    rcases hprev with ⟨h, _⟩ | ⟨q', hq', h⟩
    · rw [h] at hq; cases hq
    · rw [h] at hq; cases hq; exact hq'
  have hnm : ∀ n, r.next = some n → n ∈ l2 := by
    intro n hn; rw [hnext] at hn; exact List.mem_of_mem_head? hn
  have hlt : ∀ i ∈ l1 ++ e :: l2, i < ents.length := by
    intro i hi
    obtain ⟨x, hx⟩ := Chain.mem_get hGc i hi
    exact (List.getElem?_eq_some.1 hx).1
  obtain ⟨ents1, hun, hlen, hpt⟩ := unlink_eq hr hG
    (fun q hq => hlt q (List.mem_append_left _ (hpm q hq)))
    (fun n hn => hlt n (List.mem_append_right _ (List.mem_cons_of_mem _ (hnm n hn))))
  have hfold : ∀ i : Nat, (∃ x : Entity, ents1[i]? = some x ∧ x.folder = G.id) ↔
      ∃ x : Entity, ents[i]? = some x ∧ x.folder = G.id := by
    intro i; rw [hpt i]
    cases ents[i]? <;> simp [relink_folder]
  refine ⟨ents1, _, hun, hlen, ?_, hpt, ?_⟩
  · split <;> simp
  intro k F l hF hFl
  obtain ⟨hFc, hFnd, hFm⟩ := hFl
  have hfoldF : ∀ i : Nat, (∃ x : Entity, ents1[i]? = some x ∧ x.folder = F.id) ↔
      ∃ x : Entity, ents[i]? = some x ∧ x.folder = F.id := by
    intro i; rw [hpt i]
    cases ents[i]? <;> simp [relink_folder]
  by_cases hid : F.id = G.id
  · have hk : k = si := eq_of_id_eq hnd hF hG hid
    subst hk
    rw [hG] at hF; cases hF
    have hl : l = l1 ++ e :: l2 := Chain.unique hFc hGc
    subst hl
    have he1 : e ∉ l1 := fun h => by
      have := (List.nodup_append.1 hGnd).2.2 h (List.mem_cons_self _ _)
      exact this
    have herase : (l1 ++ e :: l2).erase e = l1 ++ l2 := by
      rw [List.erase_append_right _ he1, List.erase_cons_head]
    have hk : k < fs.length := (List.getElem?_eq_some.1 hG).1
    have hch := Chain.unlink hr hpt l1 hGc hGnd (fun q hq => by cases hq)
    have hhead : G.first_entity = some e ↔ l1 = [] := by
      rw [hGc.head]
      cases l1 with
      | nil => simp
      | cons a l1 =>
        simp only [List.cons_append, List.head?_cons, Option.some.injEq, reduceCtorEq, iff_false]
        intro h; exact he1 (h ▸ List.mem_cons_self _ _)
    rw [herase]
    have hmem : ∀ i : Nat, i ∈ l1 ++ l2 ↔
        i ≠ e ∧ ∃ x : Entity, ents1[i]? = some x ∧ x.folder = G.id := by
      intro i
      rw [hfold i, ← hGm i, ← herase, List.Nodup.mem_erase_iff hGnd]
    by_cases hl1 : l1 = []
    · refine ⟨{ G with first_entity := r.next }, by simp [hhead.2 hl1, hk], rfl, ?_, ?_, hmem⟩
      · simpa [hl1] using hch
      · exact herase ▸ hGnd.erase e
    · refine ⟨G, by simp [mt hhead.1 hl1, hG], rfl, ?_, ?_, hmem⟩
      · simpa [hl1] using hch
      · exact herase ▸ hGnd.erase e
  · have hk : k ≠ si := fun h => by subst h; rw [hG] at hF; cases hF; exact hid rfl
    have heF : e ∉ l := fun h => by
      obtain ⟨x, hx, hxf⟩ := (hFm e).1 h
      rw [hr] at hx; cases hx; exact hid (hxf.symm.trans hGid.symm)
    have hdisj : ∀ j ∈ l, j ∉ l1 ++ e :: l2 := by
      intro j hj hj'
      obtain ⟨x, hx, hxf⟩ := (hFm j).1 hj
      obtain ⟨y, hy, hyf⟩ := (hGm j).1 hj'
      rw [hx] at hy; cases hy; exact hid (hxf.symm.trans hyf)
    rw [List.erase_of_not_mem heF]
    refine ⟨F, ?_, rfl, ?_, hFnd, ?_⟩
    · split
      · rw [List.getElem?_set_ne (fun h => hk h.symm)]; exact hF
      · exact hF
    · refine Chain.relink_frame hpt hFc (fun j hj => ⟨fun h => ?_, fun h => ?_⟩)
      · exact hdisj j hj (List.mem_append_left _ (hpm j h))
      · exact hdisj j hj (List.mem_append_right _ (List.mem_cons_of_mem _ (hnm j h)))
    · intro i
      rw [hfoldF i, ← hFm i]
      exact ⟨fun h => ⟨fun hie => heF (hie ▸ h), h⟩, fun h => h.2⟩

/-- Lists after an insertion at the head: if the linkage array changes as the
insertion step prescribes (entity `e` gets the record of a new head of folder
`D`, the old head gets `e` as its `prev`) and `e` was in no list, the list of
`D` gets `e` in front and the other lists stay. -/
theorem insert_lists {ents ents2 : List Entity} {fs : List Folder} {e dst : Nat} {D : Folder}
    (hnd : (fs.map (·.id)).Nodup) (hD : fs[dst]? = some D)
    (hdet : ∀ F ∈ fs, ∃ l, Detached e ents F l)
    (hpt : ∀ j : Nat, ents2[j]? = if j = e then some ⟨D.id, D.first_entity, none⟩
        else if D.first_entity = some j then (ents[j]?).map (fun y => { y with prev := some e })
        else ents[j]?) :
    ∀ (k : Nat) (F : Folder) (l : List Nat), fs[k]? = some F → Detached e ents F l →
      ∃ F', (fs.set dst { D with first_entity := some e })[k]? = some F' ∧
        F' = { F with first_entity := F'.first_entity } ∧
        MemberList ents2 F' (if k = dst then e :: l else l) := by
  obtain ⟨lD, hDc, hDnd, hDm⟩ := hdet D (mem_of_getElem? hD)
  have hfirst : ∀ n, D.first_entity = some n → n ∈ lD := by
    intro n hn; rw [hDc.head] at hn; exact List.mem_of_mem_head? hn
  have hfold : ∀ (i : Nat) (g : FolderID), (∃ y : Entity, ents2[i]? = some y ∧ y.folder = g) ↔
      (i = e ∧ g = D.id) ∨ (i ≠ e ∧ ∃ y : Entity, ents[i]? = some y ∧ y.folder = g) := by
    intro i g
    rw [hpt i]
    by_cases hie : i = e
    · simp [hie, eq_comm]
    · simp only [hie, if_false, false_and, false_or, ne_eq, not_false_eq_true, true_and]
      split
      · cases ents[i]? <;> simp
      · rfl
  intro k F l hF hFl
  obtain ⟨hFc, hFnd, hFm⟩ := hFl
  have hkl : k < fs.length := (List.getElem?_eq_some.1 hF).1
  have heF : e ∉ l := fun h => ((hFm e).1 h).1 rfl
  by_cases hk : k = dst
  · subst hk
    rw [hD] at hF; cases hF
    refine ⟨{ D with first_entity := some e }, by simp [hkl], rfl, ?_, ?_, ?_⟩
    · simp only [if_true]
      exact Chain.pushFront D.id hFc hFnd heF hpt
    · simp only [if_true]
      exact List.nodup_cons.2 ⟨heF, hFnd⟩
    · intro i
      simp only [if_true, List.mem_cons]
      rw [hfold i D.id, hFm i]
      simp
  · have hid : F.id ≠ D.id := fun h => hk (eq_of_id_eq hnd hF hD h)
    have hdisj : ∀ j ∈ l, j ∉ lD := by
      intro j hj hj'
      obtain ⟨_, y, hy, hyf⟩ := (hFm j).1 hj
      obtain ⟨_, z, hz, hzf⟩ := (hDm j).1 hj'
      rw [hy] at hz; cases hz; exact hid (hyf.symm.trans hzf)
    refine ⟨F, by rw [List.getElem?_set_ne (fun h => hk h.symm)]; exact hF, rfl, ?_, ?_, ?_⟩
    · simp only [hk, if_false]
      refine Chain.frame (fun i hi => ?_) hFc
      have hie : i ≠ e := fun h => heF (h ▸ hi)
      have hfi : D.first_entity ≠ some i := fun h => hdisj i hi (hfirst i h)
      simp [hpt i, hie, hfi]
    · simpa [hk] using hFnd
    · intro i
      simp only [hk, if_false]
      rw [hfold i F.id, hFm i]
      simp [hid]

/-- State-level effect of the insertion step on a table from whose lists `e`
is absent: the destination list gets `e` in front, the others stay. -/
theorem pushFront_state {ents : List Entity} {fs : List Folder} {e dst : Nat} {D : Folder}
    {x : Entity} (hnd : (fs.map (·.id)).Nodup) (hD : fs[dst]? = some D) (hx : ents[e]? = some x)
    (hdet : ∀ F ∈ fs, ∃ l, Detached e ents F l) :
    ∃ ents2 fs2, pushFront ents fs dst e D.id = some (ents2, fs2) ∧ ents2.length = ents.length ∧
      fs2.length = fs.length ∧
      (∀ j : Nat, ents2[j]? = if j = e then some ⟨D.id, D.first_entity, none⟩
        else if D.first_entity = some j then (ents[j]?).map (fun y => { y with prev := some e })
        else ents[j]?) ∧
      ∀ (k : Nat) (F : Folder) (l : List Nat), fs[k]? = some F → Detached e ents F l →
        ∃ F', fs2[k]? = some F' ∧ F' = { F with first_entity := F'.first_entity } ∧
          MemberList ents2 F' (if k = dst then e :: l else l) := by
  obtain ⟨lD, hDc, hDnd, hDm⟩ := hdet D (mem_of_getElem? hD)
  have hfirst : ∀ n, D.first_entity = some n → n ∈ lD := by
    intro n hn; rw [hDc.head] at hn; exact List.mem_of_mem_head? hn
  obtain ⟨ents2, hpf, hlen, hpt⟩ := pushFront_eq D.id hD hx (fun n hn => by
    obtain ⟨hne, y, hy, _⟩ := (hDm n).1 (hfirst n hn)
    exact ⟨(List.getElem?_eq_some.1 hy).1, hne⟩)
  exact ⟨ents2, _, hpf, hlen, by simp, hpt, insert_lists hnd hD hdet hpt⟩

theorem grow_getElem? (INVALID_FOLDER : FolderID) (ents : List Entity) (e j : Nat) :
    (grow INVALID_FOLDER ents e)[j]? =
      if j < ents.length then ents[j]?
      else if j ≤ e then some (Entity.unset INVALID_FOLDER) else none := by
  unfold grow
  rw [List.getElem?_append]
  split
  · rfl
  · rw [List.getElem?_replicate]
    congr 1
    apply propext
    omega

theorem grow_self (INVALID_FOLDER : FolderID) (ents : List Entity) (e : Nat) :
    ∃ x, (grow INVALID_FOLDER ents e)[e]? = some x ∧ (ents[e]? = some x ∨
      (ents.length ≤ e ∧ x = Entity.unset INVALID_FOLDER)) := by
  rw [grow_getElem?]
  by_cases h : e < ents.length
  · exact ⟨ents[e], by simp [h], Or.inl (List.getElem?_eq_getElem h)⟩
  · exact ⟨_, by simp [h], Or.inr ⟨by omega, rfl⟩⟩

/-- Growing the linkage array keeps the member list of a folder whose id is
not the sentinel. -/
theorem MemberList.grow {INVALID_FOLDER : FolderID} {ents : List Entity} {F : Folder}
    {l : List Nat} (e : Nat) (hF : F.id ≠ INVALID_FOLDER) (h : MemberList ents F l) :
    MemberList (grow INVALID_FOLDER ents e) F l := by
  obtain ⟨hc, hnd, hm⟩ := h
  refine ⟨Chain.frame (fun i hi => ?_) hc, hnd, fun i => ?_⟩
  · obtain ⟨y, hy⟩ := Chain.mem_get hc i hi
    have := (List.getElem?_eq_some.1 hy).1
    simp [grow_getElem?, this]
  · rw [hm i, grow_getElem?]
    by_cases hi : i < ents.length
    · simp [hi]
    · have hnone : ents[i]? = none := List.getElem?_eq_none (by omega)
      simp only [hi, if_false, hnone]
      split
      · have : ¬ INVALID_FOLDER = F.id := fun h => hF h.symm
        simp [Entity.unset, this]
      · simp

theorem detach_state {INVALID_FOLDER : FolderID} {ents : List Entity} {fs : List Folder}
    (w : World) {e dst : Nat} {x : Entity} {D : Folder}
    (hnd : (fs.map (·.id)).Nodup) (hall : ∀ F ∈ fs, ∃ l, MemberList ents F l)
    (hno : ∀ F ∈ fs, F.id ≠ INVALID_FOLDER) (hx : ents[e]? = some x) (hD : fs[dst]? = some D)
    (htab : x.folder = INVALID_FOLDER ∨ ∃ F ∈ fs, F.id = x.folder) :
    ∃ ents1 fs1, detach INVALID_FOLDER ents fs w e dst = some (ents1, fs1,
        if x.folder ≠ INVALID_FOLDER then w.setPartition e D.partition else w) ∧
      ents1.length = ents.length ∧ fs1.length = fs.length ∧
      (∀ j : Nat, (ents1[j]?).map (·.folder) = (ents[j]?).map (·.folder)) ∧
      ∀ (k : Nat) (F : Folder) (l : List Nat), fs[k]? = some F → MemberList ents F l →
        ∃ F', fs1[k]? = some F' ∧ F' = { F with first_entity := F'.first_entity } ∧
          Detached e ents1 F' (l.erase e) := by
  by_cases hxf : x.folder = INVALID_FOLDER
  · refine ⟨ents, fs, by simp [detach, hx, hxf], rfl, rfl, fun _ => rfl, ?_⟩
    intro k F l hF hFl
    obtain ⟨hFc, hFnd, hFm⟩ := hFl
    have heF : e ∉ l := fun h => by
      obtain ⟨y, hy, hyf⟩ := (hFm e).1 h
      rw [hx] at hy; cases hy
      exact hno F (mem_of_getElem? hF) (hyf.symm.trans hxf)
    rw [List.erase_of_not_mem heF]
    refine ⟨F, hF, rfl, hFc, hFnd, fun i => ?_⟩
    rw [hFm i]
    exact ⟨fun h => ⟨fun hie => heF (hie ▸ (hFm i).2 h), h⟩, fun h => h.2⟩
  · obtain ⟨G, hG, hGid⟩ := htab.resolve_left hxf
    obtain ⟨si, hsi⟩ := getFolder_of_mem hG
    rw [hGid] at hsi
    obtain ⟨ents1, fs1, hun, hlen, hflen, hpt, hlists⟩ := unlink_state hnd hall hx hsi
    obtain ⟨lD, hlD⟩ := hall D (mem_of_getElem? hD)
    obtain ⟨D', hD', hD'eq, _⟩ := hlists dst D lD hD hlD
    have hpart : D'.partition = D.partition := by rw [hD'eq]
    refine ⟨ents1, fs1, by simp [detach, hx, hxf, hsi, hun, hD', hpart], hlen, hflen, ?_, hlists⟩
    intro j
    rw [hpt j]
    cases ents[j]? <;> simp [relink_folder]

theorem ids_eq_of_pointwise {fs fs1 : List Folder} (hlen : fs1.length = fs.length)
    (h : ∀ (k : Nat) (F : Folder), fs[k]? = some F → ∃ F', fs1[k]? = some F' ∧ F'.id = F.id) :
    fs1.map (·.id) = fs.map (·.id) := by
  apply List.ext_getElem?
  intro k
  rw [List.getElem?_map, List.getElem?_map]
  by_cases hk : k < fs.length
  · obtain ⟨F', hF', hid⟩ := h k fs[k] (List.getElem?_eq_getElem hk)
    rw [hF', List.getElem?_eq_getElem hk]; simp [hid]
  · rw [List.getElem?_eq_none (by omega), List.getElem?_eq_none (by omega)]

/-- Full description of a successful `moveToFolder` on a consistent state. -/
theorem moveToFolder_spec {INVALID_FOLDER : FolderID} {s : EntityFolders}
    (hs : Consistent INVALID_FOLDER s) (e : Nat) {f : FolderID}
    (hf : ∃ F ∈ s.m_folders, F.id = f) :
    ∃ (s' : EntityFolders) (x : Entity) (D : Folder) (dst : Nat),
      moveToFolder INVALID_FOLDER s e f = some s' ∧
      (grow INVALID_FOLDER s.m_entities e)[e]? = some x ∧
      s.m_folders[dst]? = some D ∧ D.id = f ∧
      s'.m_world = (if x.folder ≠ INVALID_FOLDER then s.m_world.setPartition e D.partition
        else s.m_world) ∧
      s'.m_selected_folder = s.m_selected_folder ∧
      s'.m_ignore_new_entities = s.m_ignore_new_entities ∧
      s'.m_entities.length = (grow INVALID_FOLDER s.m_entities e).length ∧
      s'.m_folders.length = s.m_folders.length ∧
      (∃ nxt, s'.m_entities[e]? = some ⟨f, nxt, none⟩) ∧
      (∀ j : Nat, j ≠ e → (s'.m_entities[j]?).map (·.folder) =
        ((grow INVALID_FOLDER s.m_entities e)[j]?).map (·.folder)) ∧
      ∀ (k : Nat) (F : Folder) (l : List Nat), s.m_folders[k]? = some F →
        MemberList s.m_entities F l →
        ∃ F', s'.m_folders[k]? = some F' ∧ F' = { F with first_entity := F'.first_entity } ∧
          MemberList s'.m_entities F' (if F.id = f then e :: l.erase e else l.erase e) := by
  obtain ⟨⟨hnd, hall⟩, hno, htab⟩ := hs
  obtain ⟨Ff, hFf, rfl⟩ := hf
  obtain ⟨dst, hdst⟩ := getFolder_of_mem hFf
  obtain ⟨D, hD, hDid⟩ := getFolder_some hdst
  obtain ⟨x, hx, hxc⟩ := grow_self INVALID_FOLDER s.m_entities e
  have hall0 : ∀ F ∈ s.m_folders, ∃ l, MemberList (grow INVALID_FOLDER s.m_entities e) F l := by
    intro F hF
    obtain ⟨l, hl⟩ := hall F hF
    exact ⟨l, hl.grow e (hno F hF)⟩
  have htab0 : x.folder = INVALID_FOLDER ∨ ∃ F ∈ s.m_folders, F.id = x.folder := by
    rcases hxc with h | ⟨_, h⟩
    · exact htab x (mem_of_getElem? h)
    · left; rw [h]; rfl
  obtain ⟨ents1, fs1, hdet, hlen1, hflen1, hfold1, hlists1⟩ :=
    detach_state s.m_world hnd hall0 hno hx hD htab0
  have hpos1 : ∀ (k : Nat) (F : Folder), s.m_folders[k]? = some F →
      ∃ F', fs1[k]? = some F' ∧ F'.id = F.id := by
    intro k F hF
    obtain ⟨l, hl⟩ := hall0 F (mem_of_getElem? hF)
    obtain ⟨F', hF', heq, _⟩ := hlists1 k F l hF hl
    exact ⟨F', hF', by rw [heq]⟩
  have hnd1 : (fs1.map (·.id)).Nodup := by rw [ids_eq_of_pointwise hflen1 hpos1]; exact hnd
  have he0 : e < (grow INVALID_FOLDER s.m_entities e).length := (List.getElem?_eq_some.1 hx).1
  obtain ⟨x1, hx1⟩ : ∃ x1, ents1[e]? = some x1 :=
    by
    have he1 : e < ents1.length := by omega
    exact ⟨ents1[e], List.getElem?_eq_getElem he1⟩
  obtain ⟨D1, hD1, hD1id⟩ := hpos1 dst D hD
  have hdet1 : ∀ F' ∈ fs1, ∃ l, Detached e ents1 F' l := by
    intro F' hF'
    obtain ⟨k, hk⟩ := List.mem_iff_getElem?.1 hF'
    have hkl : k < s.m_folders.length := by
      have := (List.getElem?_eq_some.1 hk).1; omega
    obtain ⟨l, hl⟩ := hall0 _ (List.getElem_mem hkl)
    obtain ⟨F'', hF'', _, hd⟩ := hlists1 k _ l (List.getElem?_eq_getElem hkl) hl
    rw [hk] at hF''; cases hF''
    exact ⟨_, hd⟩
  obtain ⟨ents2, fs2, hpf, hlen2, hflen2, hpt2, hlists2⟩ := pushFront_state hnd1 hD1 hx1 hdet1
  rw [hD1id, hDid] at hpf
  have hne : Ff.id ≠ INVALID_FOLDER := hno Ff hFf
  refine ⟨{ s with
      m_entities := ents2
      m_folders := fs2
      m_world := if x.folder ≠ INVALID_FOLDER then s.m_world.setPartition e D.partition
        else s.m_world }, x, D, dst, by simp [moveToFolder, hne, hdst, hdet, hpf], hx, hD, hDid,
    rfl, rfl, rfl, by simp [hlen2, hlen1], by simp [hflen2, hflen1], ?_, ?_, ?_⟩
  · exact ⟨D1.first_entity, by simp [hpt2 e, hD1id, hDid]⟩
  · intro j hj
    simp only [hpt2 j, hj, if_false]
    rw [← hfold1 j]
    split
    · cases ents1[j]? <;> simp
    · rfl
  · intro k F l hF hFl
    obtain ⟨F1, hF1, hF1eq, hd1⟩ := hlists1 k F l hF (hFl.grow e (hno F (mem_of_getElem? hF)))
    obtain ⟨F2, hF2, hF2eq, hm2⟩ := hlists2 k F1 _ hF1 hd1
    refine ⟨F2, hF2, by rw [hF2eq, hF1eq], ?_⟩
    have hiff : (k = dst) ↔ (F.id = Ff.id) :=
      ⟨fun h => by subst h; rw [hD] at hF; cases hF; exact hDid,
       fun h => eq_of_id_eq hnd hF hD (h.trans hDid.symm)⟩
    by_cases hk : k = dst
    · simpa [hk, hiff.1 hk] using hm2
    · simpa [hk, mt hiff.2 hk] using hm2

theorem Consistent.of_pointwise {INVALID_FOLDER : FolderID} {s s' : EntityFolders}
    (hs : Consistent INVALID_FOLDER s) (hflen : s'.m_folders.length = s.m_folders.length)
    (hlists : ∀ (k : Nat) (F : Folder), s.m_folders[k]? = some F →
      ∃ F' l', s'.m_folders[k]? = some F' ∧ F'.id = F.id ∧ MemberList s'.m_entities F' l')
    (hents : ∀ r ∈ s'.m_entities,
      r.folder = INVALID_FOLDER ∨ ∃ F ∈ s.m_folders, F.id = r.folder) :
    Consistent INVALID_FOLDER s' := by
  obtain ⟨⟨hnd, _⟩, hno, _⟩ := hs
  have hids : s'.m_folders.map (·.id) = s.m_folders.map (·.id) :=
    ids_eq_of_pointwise hflen (fun k F hF => by
      obtain ⟨F', _, h1, h2, _⟩ := hlists k F hF
      exact ⟨F', h1, h2⟩)
  have hback : ∀ F' ∈ s'.m_folders, ∃ F ∈ s.m_folders, F'.id = F.id ∧
      ∃ l', MemberList s'.m_entities F' l' := by
    intro F' hF'
    obtain ⟨k, hk⟩ := List.mem_iff_getElem?.1 hF'
    have hkl : k < s.m_folders.length := by
      have := (List.getElem?_eq_some.1 hk).1; omega
    obtain ⟨F'', l', h1, h2, h3⟩ := hlists k _ (List.getElem?_eq_getElem hkl)
    rw [hk] at h1; cases h1
    exact ⟨_, List.getElem_mem hkl, h2, l', h3⟩
  refine ⟨⟨by rw [hids]; exact hnd, fun F' hF' => ?_⟩, fun F' hF' => ?_, fun r hr => ?_⟩
  · obtain ⟨_, _, _, h⟩ := hback F' hF'; exact h
  · obtain ⟨F, hF, hid, _⟩ := hback F' hF'; rw [hid]; exact hno F hF
  · rcases hents r hr with h | ⟨F, hF, hid⟩
    · exact Or.inl h
    · right
      obtain ⟨k, hk⟩ := List.mem_iff_getElem?.1 hF
      obtain ⟨F', _, h1, h2, _⟩ := hlists k F hk
      exact ⟨F', mem_of_getElem? h1, h2.trans hid⟩

/-- `moveToFolder` into a folder of the table keeps a state consistent. -/
theorem moveToFolder_consistent {INVALID_FOLDER : FolderID} {s : EntityFolders}
    (hs : Consistent INVALID_FOLDER s) (e : Nat) {f : FolderID}
    (hf : ∃ F ∈ s.m_folders, F.id = f) :
    ∃ s', moveToFolder INVALID_FOLDER s e f = some s' ∧ Consistent INVALID_FOLDER s' := by
  obtain ⟨s', x, D, dst, hmv, hx, hD, hDid, _, _, _, _, hflen, ⟨nxt, hnew⟩, hfold, hlists⟩ :=
    moveToFolder_spec hs e hf
  refine ⟨s', hmv, hs.of_pointwise hflen (fun k F hF => ?_) (fun r hr => ?_)⟩
  · obtain ⟨l, hl⟩ := hs.1.2 F (mem_of_getElem? hF)
    obtain ⟨F', h1, h2, h3⟩ := hlists k F l hF hl
    exact ⟨F', _, h1, by rw [h2], h3⟩
  · obtain ⟨j, hj⟩ := List.mem_iff_getElem?.1 hr
    by_cases hje : j = e
    · subst hje
      rw [hnew] at hj; cases hj
      exact Or.inr ⟨D, mem_of_getElem? hD, hDid⟩
    · have h := hfold j hje
      rw [hj, grow_getElem?] at h
      by_cases hjl : j < s.m_entities.length
      · simp only [hjl, if_true, List.getElem?_eq_getElem hjl, Option.map_some'] at h
        have h' : s.m_entities[j].folder = r.folder := (Option.some.inj h).symm
        rw [← h']
        exact hs.2.2 _ (List.getElem_mem hjl)
      · simp only [hjl, if_false] at h
        split at h
        · simp only [Option.map_some', Option.some.injEq] at h
          left; rw [h]; rfl
        · simp at h

/-- Full description of a successful `onEntityDestroyed` on a consistent state. -/
theorem onEntityDestroyed_spec {INVALID_FOLDER : FolderID} {s : EntityFolders}
    (hs : Consistent INVALID_FOLDER s) {e : Nat} {x : Entity}
    (hx : s.m_entities[e]? = some x) (hxf : x.folder ≠ INVALID_FOLDER) :
    ∃ s' : EntityFolders, onEntityDestroyed INVALID_FOLDER s e = some s' ∧
      s'.m_world = s.m_world ∧ s'.m_selected_folder = s.m_selected_folder ∧
      s'.m_entities.length = s.m_entities.length ∧
      s'.m_folders.length = s.m_folders.length ∧
      s'.m_entities[e]? = some (Entity.unset INVALID_FOLDER) ∧
      (∀ j : Nat, j ≠ e → (s'.m_entities[j]?).map (·.folder) =
        (s.m_entities[j]?).map (·.folder)) ∧
      ∀ (k : Nat) (F : Folder) (l : List Nat), s.m_folders[k]? = some F →
        MemberList s.m_entities F l →
        ∃ F', s'.m_folders[k]? = some F' ∧ F' = { F with first_entity := F'.first_entity } ∧
          MemberList s'.m_entities F' (l.erase e) := by
  obtain ⟨⟨hnd, hall⟩, hno, htab⟩ := hs
  obtain ⟨G, hG, hGid⟩ := (htab x (mem_of_getElem? hx)).resolve_left hxf
  obtain ⟨si, hsi⟩ := getFolder_of_mem hG
  rw [hGid] at hsi
  obtain ⟨ents1, fs1, hun, hlen, hflen, hpt, hlists⟩ := unlink_state hnd hall hx hsi
  have he : e < s.m_entities.length := (List.getElem?_eq_some.1 hx).1
  have hx1 : ents1[e]? = some (relink x e x) := by rw [hpt e, hx]; rfl
  have hfin : ∀ j : Nat, (ents1.set e (Entity.unset INVALID_FOLDER))[j]? =
      if j = e then some (Entity.unset INVALID_FOLDER) else ents1[j]? := by
    intro j
    rw [List.getElem?_set]
    by_cases hj : e = j
    · subst hj; simp [hlen, he]
    · have : ¬ (j = e) := fun h => hj h.symm
      simp [hj, this]
  refine ⟨{ s with m_entities := ents1.set e (Entity.unset INVALID_FOLDER), m_folders := fs1 },
    by simp [onEntityDestroyed, hx, hsi, hun, hx1], rfl, rfl, by simp [hlen], hflen,
    by simp [hfin e], fun j hj => ?_, fun k F l hF hFl => ?_⟩
  · simp only [hfin j, hj, if_false, hpt j]
    cases s.m_entities[j]? <;> simp [relink_folder]
  · obtain ⟨F', hF', hF'eq, hc, hnd', hm⟩ := hlists k F l hF hFl
    have hF'id : F'.id = F.id := by rw [hF'eq]
    have hFno : F.id ≠ INVALID_FOLDER := hno F (mem_of_getElem? hF)
    refine ⟨F', hF', hF'eq, Chain.frame (fun i hi => ?_) hc, hnd', fun i => ?_⟩
    · have hie : i ≠ e := ((hm i).1 hi).1
      simp [hfin i, hie]
    · simp only [hfin i, hm i]
      by_cases hie : i = e
      · have : ¬ INVALID_FOLDER = F.id := fun h => hFno h.symm
        simp [hie, Entity.unset, hF'id, this]
      · simp [hie]

/-- `onEntityDestroyed` of an entity that has a folder keeps a state consistent. -/
theorem onEntityDestroyed_consistent {INVALID_FOLDER : FolderID} {s : EntityFolders}
    (hs : Consistent INVALID_FOLDER s) {e : Nat} {x : Entity}
    (hx : s.m_entities[e]? = some x) (hxf : x.folder ≠ INVALID_FOLDER) :
    ∃ s', onEntityDestroyed INVALID_FOLDER s e = some s' ∧ Consistent INVALID_FOLDER s' := by
  obtain ⟨s', hod, _, _, _, hflen, hnew, hfold, hlists⟩ := onEntityDestroyed_spec hs hx hxf
  refine ⟨s', hod, hs.of_pointwise hflen (fun k F hF => ?_) (fun r hr => ?_)⟩
  · obtain ⟨l, hl⟩ := hs.1.2 F (mem_of_getElem? hF)
    obtain ⟨F', h1, h2, h3⟩ := hlists k F l hF hl
    exact ⟨F', _, h1, by rw [h2], h3⟩
  · obtain ⟨j, hj⟩ := List.mem_iff_getElem?.1 hr
    by_cases hje : j = e
    · subst hje
      rw [hnew] at hj; cases hj
      exact Or.inl rfl
    · have h := hfold j hje
      rw [hj] at h
      cases hsj : s.m_entities[j]? with
      | none => rw [hsj] at h; simp at h
      | some y =>
        rw [hsj] at h
        simp only [Option.map_some', Option.some.injEq] at h
        rw [h]
        exact hs.2.2 y (mem_of_getElem? hsj)

theorem moveToFolder_some_mem {INVALID_FOLDER : FolderID} {s s' : EntityFolders} {e : Nat}
    {f : FolderID} (h : moveToFolder INVALID_FOLDER s e f = some s') :
    ∃ F ∈ s.m_folders, F.id = f := by
  unfold moveToFolder at h
  by_cases hf : f = INVALID_FOLDER
  · simp [hf] at h
  · cases hg : getFolder s.m_folders f with
    | none => simp [hf, hg] at h
    | some dst =>
      obtain ⟨F, hF, hid⟩ := getFolder_some hg
      exact ⟨F, mem_of_getElem? hF, hid⟩

theorem onEntityDestroyed_some_mem {INVALID_FOLDER : FolderID} {s s' : EntityFolders} {e : Nat}
    (h : onEntityDestroyed INVALID_FOLDER s e = some s') :
    ∃ x, s.m_entities[e]? = some x ∧ ∃ F ∈ s.m_folders, F.id = x.folder := by
  unfold onEntityDestroyed at h
  cases hx : s.m_entities[e]? with
  | none => simp [hx] at h
  | some x =>
    cases hg : getFolder s.m_folders x.folder with
    | none => simp [hx, hg] at h
    | some k =>
      obtain ⟨F, hF, hid⟩ := getFolder_some hg
      exact ⟨x, rfl, F, mem_of_getElem? hF, hid⟩

theorem runCalls_consistent {INVALID_FOLDER : FolderID} (calls : List Call) :
    ∀ {s s' : EntityFolders}, Consistent INVALID_FOLDER s →
      runCalls INVALID_FOLDER calls s = some s' → Consistent INVALID_FOLDER s' := by
  induction calls with
  | nil => intro s s' hs h; cases h; exact hs
  | cons c cs ih =>
    intro s s' hs h
    cases c with
    | moveToFolder e f =>
      simp only [runCalls, Option.bind_eq_some] at h
      obtain ⟨s1, h1, h2⟩ := h
      obtain ⟨s1', h1', hc⟩ := moveToFolder_consistent hs e (moveToFolder_some_mem h1)
      rw [h1] at h1'; cases h1'
      exact ih hc h2
    | onEntityDestroyed e =>
      simp only [runCalls, Option.bind_eq_some] at h
      obtain ⟨s1, h1, h2⟩ := h
      obtain ⟨x, hx, F, hF, hid⟩ := onEntityDestroyed_some_mem h1
      obtain ⟨s1', h1', hc⟩ := onEntityDestroyed_consistent hs hx (hid ▸ hs.2.1 F hF)
      rw [h1] at h1'; cases h1'
      exact ih hc h2

theorem construct_consistent (INVALID_FOLDER : FolderID) (defaultPartition : PartitionHandle)
    (w : World) (id : FolderID) (rest : List FolderID) (hw : w.first_entity = none)
    (hid : id ≠ INVALID_FOLDER) :
    ∃ s, construct INVALID_FOLDER defaultPartition w (id :: rest) = some (s, rest) ∧
      Consistent INVALID_FOLDER s := by
  refine ⟨{ m_entities := [],
             m_folders := [{ Folder.emplaced INVALID_FOLDER defaultPartition with
               id := id, name := "root" }],
             m_selected_folder := id,
             m_ignore_new_entities := false,
             m_world := w }, by simp [construct, hw], ⟨by simp, ?_⟩, ?_, ?_⟩
  · intro F hF
    simp only [List.mem_singleton] at hF
    subst hF
    exact ⟨[], rfl, List.nodup_nil, by simp⟩
  · intro F hF
    simp only [List.mem_singleton] at hF
    subst hF
    exact hid
  · intro r hr; cases hr

theorem unlink_some {ents ents1 : List Entity} {fs fs1 : List Folder} {src e : Nat}
    (h : unlink ents fs src e = some (ents1, fs1)) :
    ∃ sf r, fs[src]? = some sf ∧ ents[e]? = some r ∧
      fs1 = if sf.first_entity = some e then fs.set src { sf with first_entity := r.next }
        else fs := by
  unfold unlink at h
  cases hr : ents[e]? with
  | none => simp [hr] at h
  | some r =>
    cases hsf : fs[src]? with
    | none => simp [hr, hsf] at h
    | some sf =>
      simp only [hr, hsf, Option.bind_eq_bind, Option.some_bind, Option.bind_eq_some,
        Option.pure_def, Option.some.injEq, Prod.mk.injEq] at h
      obtain ⟨_, _, _, _, _, _, _, h2⟩ := h
      exact ⟨sf, r, rfl, rfl, h2.symm⟩

theorem unlink_partition {ents ents1 : List Entity} {fs fs1 : List Folder} {src e : Nat}
    (h : unlink ents fs src e = some (ents1, fs1)) (k : Nat) :
    (fs1[k]?).map (·.partition) = (fs[k]?).map (·.partition) := by
  obtain ⟨sf, r, hsf, _, rfl⟩ := unlink_some h
  split
  · rw [List.getElem?_set]
    by_cases hk : src = k
    · subst hk
      have := (List.getElem?_eq_some.1 hsf).1
      simp [this, hsf]
    · simp [hk]
  · rfl

/-- The trace of `setPartition` requests after a completed `moveToFolder`: one
request is added exactly when the entity had a folder. -/
theorem moveToFolder_world {INVALID_FOLDER : FolderID} {s s' : EntityFolders} {e : Nat}
    {f : FolderID} (h : moveToFolder INVALID_FOLDER s e f = some s') :
    ∃ (dst : Nat) (D : Folder) (x : Entity), getFolder s.m_folders f = some dst ∧
      s.m_folders[dst]? = some D ∧ D.id = f ∧
      (grow INVALID_FOLDER s.m_entities e)[e]? = some x ∧
      s'.m_world = if x.folder ≠ INVALID_FOLDER then s.m_world.setPartition e D.partition
        else s.m_world := by
  unfold moveToFolder at h
  by_cases hf : f = INVALID_FOLDER
  · simp [hf] at h
  cases hg : getFolder s.m_folders f with
  | none => simp [hf, hg] at h
  | some dst =>
    obtain ⟨D, hD, hDid⟩ := getFolder_some hg
    obtain ⟨x, hx, _⟩ := grow_self INVALID_FOLDER s.m_entities e
    refine ⟨dst, D, x, rfl, hD, hDid, hx, ?_⟩
    simp only [hf, if_false, hg, Option.bind_eq_bind, Option.some_bind, Option.bind_eq_some,
      Option.pure_def, Option.some.injEq, Prod.exists] at h
    obtain ⟨ents1, fs1, w1, hdet, ents2, fs2, _, rfl⟩ := h
    simp only
    unfold detach at hdet
    simp only [hx, Option.bind_eq_bind, Option.some_bind] at hdet
    by_cases hxf : x.folder = INVALID_FOLDER
    · simp only [hxf, ne_eq, not_true_eq_false, if_false, Option.pure_def, Option.some.injEq,
        Prod.mk.injEq] at hdet
      simp [hxf, hdet.2.2]
    · simp only [ne_eq, hxf, not_false_eq_true, if_true, Option.bind_eq_some, Option.pure_def,
        Option.some.injEq, Prod.mk.injEq, Prod.exists] at hdet
      obtain ⟨src, _, e1, f1, hun, d, hd, rfl, rfl, rfl⟩ := hdet
      have hp := unlink_partition hun dst
      rw [hd, hD] at hp
      simp only [Option.map_some', Option.some.injEq] at hp
      simp [hxf, hp]

theorem generateUniqueID_congr (fs fs' : List Folder) (h : fs.map (·.id) = fs'.map (·.id))
    (rand : List FolderID) : generateUniqueID fs rand = generateUniqueID fs' rand := by
  have hany : ∀ id, fs.any (fun f => f.id == id) = fs'.any (fun f => f.id == id) := by
    intro id
    have h1 : ∀ l : List Folder, l.any (fun f => f.id == id) = true ↔ id ∈ l.map (·.id) := by
      intro l
      simp only [List.any_eq_true, beq_iff_eq, List.mem_map]
    rw [Bool.eq_iff_iff, h1, h1, h]
  induction rand with
  | nil => rfl
  | cons id rest ih => simp only [generateUniqueID, hany, ih]

/-- The id returned by `generateUniqueID` is the first listed random value
that no folder of the table has. -/
theorem generateUniqueID_first {fs : List Folder} {rand rest : List FolderID} {id : FolderID}
    (h : generateUniqueID fs rand = some (id, rest)) :
    (∀ F ∈ fs, F.id ≠ id) ∧ ∃ pre, rand = pre ++ id :: rest ∧ ∀ x ∈ pre, ∃ F ∈ fs, F.id = x := by
  induction rand with
  | nil => simp [generateUniqueID] at h
  | cons a rand ih =>
    unfold generateUniqueID at h
    split at h
    · rename_i hany
      obtain ⟨h1, pre, h2, h3⟩ := ih h
      refine ⟨h1, a :: pre, by simp [h2], fun x hx => ?_⟩
      rcases List.mem_cons.1 hx with rfl | hx
      · simpa using hany
      · exact h3 x hx
    · rename_i hany
      cases h
      refine ⟨?_, [], rfl, fun x hx => by cases hx⟩
      simpa using hany

theorem generateUniqueID_not_mem {fs : List Folder} {rand rest : List FolderID} {id : FolderID}
    (h : generateUniqueID fs rand = some (id, rest)) : id ∉ fs.map (·.id) := by
  intro hmem
  obtain ⟨F, hF, hid⟩ := List.mem_map.1 hmem
  exact (generateUniqueID_first h).1 F hF hid

/-- The scenario of the spec, computed: the final state for a root id `R` and a
generated id `F1` that are not the sentinel. -/
theorem scenario_eq (INVALID_FOLDER : FolderID) (defaultPartition : PartitionHandle) (w : World)
    (R F1 : FolderID) (rand rand' : List FolderID) (hw : w.first_entity = none)
    (hR : R ≠ INVALID_FOLDER)
    (hgen : generateUniqueID [{ Folder.emplaced INVALID_FOLDER defaultPartition with
      id := R, name := "root" }] rand = some (F1, rand'))
    (hF1 : F1 ≠ INVALID_FOLDER) :
    F1 ≠ R ∧ scenario INVALID_FOLDER defaultPartition w (R :: rand) = some (R, F1,
      { m_entities := [⟨R, none, some 2⟩, ⟨F1, none, none⟩, ⟨R, some 0, none⟩]
        m_folders := [⟨R, INVALID_FOLDER, F1, INVALID_FOLDER, INVALID_FOLDER, some 2, defaultPartition, "root"⟩,
          ⟨F1, R, INVALID_FOLDER, INVALID_FOLDER, INVALID_FOLDER, some 1, defaultPartition, "Folder"⟩]
        m_selected_folder := R
        m_ignore_new_entities := false
        m_world := w.setPartition 1 defaultPartition }) := by
  have hgen' := (generateUniqueID_congr _ [⟨R, INVALID_FOLDER, INVALID_FOLDER, INVALID_FOLDER, INVALID_FOLDER, some 2, defaultPartition, "root"⟩] (by simp) rand).symm.trans hgen
  have hne : F1 ≠ R := fun h => by
    have := generateUniqueID_not_mem hgen
    simp [h] at this
  have hne' : ¬ R = F1 := fun h => hne h.symm
  have h1 : moveToFolder INVALID_FOLDER
      { m_entities := []
        m_folders := [⟨R, INVALID_FOLDER, INVALID_FOLDER, INVALID_FOLDER, INVALID_FOLDER, none, defaultPartition, "root"⟩]
        m_selected_folder := R
        m_ignore_new_entities := false
        m_world := w } 0 R = some
      { m_entities := [⟨R, none, none⟩]
        m_folders := [⟨R, INVALID_FOLDER, INVALID_FOLDER, INVALID_FOLDER, INVALID_FOLDER, some 0, defaultPartition, "root"⟩]
        m_selected_folder := R
        m_ignore_new_entities := false
        m_world := w } := by
    simp [moveToFolder, grow, getFolder, detach, pushFront, Entity.unset, INVALID_ENTITY, hR,
      List.replicate]
  have h2 : moveToFolder INVALID_FOLDER
      { m_entities := [⟨R, none, none⟩]
        m_folders := [⟨R, INVALID_FOLDER, INVALID_FOLDER, INVALID_FOLDER, INVALID_FOLDER, some 0, defaultPartition, "root"⟩]
        m_selected_folder := R
        m_ignore_new_entities := false
        m_world := w } 1 R = some
      { m_entities := [⟨R, none, some 1⟩, ⟨R, some 0, none⟩]
        m_folders := [⟨R, INVALID_FOLDER, INVALID_FOLDER, INVALID_FOLDER, INVALID_FOLDER, some 1, defaultPartition, "root"⟩]
        m_selected_folder := R
        m_ignore_new_entities := false
        m_world := w } := by
    simp [moveToFolder, grow, getFolder, detach, pushFront, Entity.unset, INVALID_ENTITY, hR,
      List.replicate, setPrev]
  have h3 : moveToFolder INVALID_FOLDER
      { m_entities := [⟨R, none, some 1⟩, ⟨R, some 0, none⟩]
        m_folders := [⟨R, INVALID_FOLDER, INVALID_FOLDER, INVALID_FOLDER, INVALID_FOLDER, some 1, defaultPartition, "root"⟩]
        m_selected_folder := R
        m_ignore_new_entities := false
        m_world := w } 2 R = some
      { m_entities := [⟨R, none, some 1⟩, ⟨R, some 0, some 2⟩, ⟨R, some 1, none⟩]
        m_folders := [⟨R, INVALID_FOLDER, INVALID_FOLDER, INVALID_FOLDER, INVALID_FOLDER, some 2, defaultPartition, "root"⟩]
        m_selected_folder := R
        m_ignore_new_entities := false
        m_world := w } := by
    simp [moveToFolder, grow, getFolder, detach, pushFront, Entity.unset, INVALID_ENTITY, hR,
      List.replicate, setPrev]
  have h4 : emplaceFolder INVALID_FOLDER defaultPartition
      { m_entities := [⟨R, none, some 1⟩, ⟨R, some 0, some 2⟩, ⟨R, some 1, none⟩]
        m_folders := [⟨R, INVALID_FOLDER, INVALID_FOLDER, INVALID_FOLDER, INVALID_FOLDER, some 2, defaultPartition, "root"⟩]
        m_selected_folder := R
        m_ignore_new_entities := false
        m_world := w } rand INVALID_FOLDER R = some (F1,
      { m_entities := [⟨R, none, some 1⟩, ⟨R, some 0, some 2⟩, ⟨R, some 1, none⟩]
        m_folders := [⟨R, INVALID_FOLDER, F1, INVALID_FOLDER, INVALID_FOLDER, some 2, defaultPartition, "root"⟩,
          ⟨F1, R, INVALID_FOLDER, INVALID_FOLDER, INVALID_FOLDER, none, defaultPartition, "Folder"⟩]
        m_selected_folder := R
        m_ignore_new_entities := false
        m_world := w }, rand') := by
    simp [emplaceFolder, hR, hgen', getFolder, Folder.emplaced, INVALID_ENTITY]
  have h5 : moveToFolder INVALID_FOLDER
      { m_entities := [⟨R, none, some 1⟩, ⟨R, some 0, some 2⟩, ⟨R, some 1, none⟩]
        m_folders := [⟨R, INVALID_FOLDER, F1, INVALID_FOLDER, INVALID_FOLDER, some 2, defaultPartition, "root"⟩,
          ⟨F1, R, INVALID_FOLDER, INVALID_FOLDER, INVALID_FOLDER, none, defaultPartition, "Folder"⟩]
        m_selected_folder := R
        m_ignore_new_entities := false
        m_world := w } 1 F1 = some
      { m_entities := [⟨R, none, some 2⟩, ⟨F1, none, none⟩, ⟨R, some 0, none⟩]
        m_folders := [⟨R, INVALID_FOLDER, F1, INVALID_FOLDER, INVALID_FOLDER, some 2, defaultPartition, "root"⟩,
          ⟨F1, R, INVALID_FOLDER, INVALID_FOLDER, INVALID_FOLDER, some 1, defaultPartition, "Folder"⟩]
        m_selected_folder := R
        m_ignore_new_entities := false
        m_world := w.setPartition 1 defaultPartition } := by
    simp [moveToFolder, grow, getFolder, detach, pushFront, Entity.unset, INVALID_ENTITY, hR,
      hF1, hne, hne', List.replicate, setPrev, setNext, unlink]
  refine ⟨hne, ?_⟩
  simp [scenario, construct, hw, onEntityCreated, Folder.emplaced, INVALID_ENTITY, h1, h2, h3,
    h4, h5]

theorem exampleState_consistent : Consistent 0 exampleState := by
  refine ⟨⟨by decide, fun F hF => ?_⟩, fun F hF => ?_, fun r hr => ?_⟩
  · simp only [exampleState, List.mem_cons, List.mem_singleton, List.not_mem_nil, or_false] at hF
    rcases hF with rfl | rfl
    · refine ⟨[2, 1, 0], ⟨rfl, _, rfl, rfl, rfl, _, rfl, rfl, rfl, _, rfl, rfl, rfl⟩, by decide,
        fun i => ?_⟩
      rcases i with _ | _ | _ | i <;> simp [exampleState]
    · refine ⟨[], rfl, by decide, fun i => ?_⟩
      rcases i with _ | _ | _ | i <;> simp [exampleState]
  · simp only [exampleState, List.mem_cons, List.mem_singleton, List.not_mem_nil, or_false] at hF
    rcases hF with rfl | rfl <;> decide
  · simp only [exampleState, List.mem_cons, List.mem_singleton, List.not_mem_nil, or_false] at hr
    rcases hr with rfl | rfl | rfl <;> exact Or.inr ⟨_, List.mem_cons_self _ _, rfl⟩

theorem ids_set {fs : List Folder} {k : Nat} {X : Folder} (Y : Folder) (hX : fs[k]? = some X)
    (hY : Y.id = X.id) : (fs.set k Y).map (·.id) = fs.map (·.id) := by
  apply List.ext_getElem?
  intro j
  rw [List.getElem?_map, List.getElem?_map, List.getElem?_set]
  by_cases hj : k = j
  · subst hj
    have := (List.getElem?_eq_some.1 hX).1
    simp [this, hX, hY]
  · simp [hj]

theorem unlink_ids {ents ents1 : List Entity} {fs fs1 : List Folder} {src e : Nat}
    (h : unlink ents fs src e = some (ents1, fs1)) : fs1.map (·.id) = fs.map (·.id) := by
  obtain ⟨sf, r, hsf, _, rfl⟩ := unlink_some h
  split
  · exact ids_set _ hsf rfl
  · rfl

theorem pushFront_ids {ents ents2 : List Entity} {fs fs2 : List Folder} {dst e : Nat}
    {f : FolderID} (h : pushFront ents fs dst e f = some (ents2, fs2)) :
    fs2.map (·.id) = fs.map (·.id) := by
  unfold pushFront at h
  cases hd : fs[dst]? with
  | none => simp [hd] at h
  | some d =>
    simp only [hd, Option.bind_eq_bind, Option.some_bind, Option.bind_eq_some, Option.pure_def,
      Option.some.injEq, Prod.mk.injEq] at h
    obtain ⟨_, _, _, _, _, rfl⟩ := h
    exact ids_set _ hd rfl

theorem detach_ids {INVALID_FOLDER : FolderID} {ents ents1 : List Entity} {fs fs1 : List Folder}
    {w w1 : World} {e dst : Nat}
    (h : detach INVALID_FOLDER ents fs w e dst = some (ents1, fs1, w1)) :
    fs1.map (·.id) = fs.map (·.id) := by
  unfold detach at h
  cases hx : ents[e]? with
  | none => simp [hx] at h
  | some x =>
    simp only [hx, Option.bind_eq_bind, Option.some_bind] at h
    by_cases hxf : x.folder = INVALID_FOLDER
    · simp only [hxf, ne_eq, not_true_eq_false, if_false, Option.pure_def, Option.some.injEq,
        Prod.mk.injEq] at h
      rw [h.2.1]
    · simp only [ne_eq, hxf, not_false_eq_true, if_true, Option.bind_eq_some, Option.pure_def,
        Option.some.injEq, Prod.mk.injEq, Prod.exists] at h
      obtain ⟨src, _, e1, f1, hun, d, hd, rfl, rfl, rfl⟩ := h
      exact unlink_ids hun

theorem moveToFolder_ids {INVALID_FOLDER : FolderID} {s s' : EntityFolders} {e : Nat}
    {f : FolderID} (h : moveToFolder INVALID_FOLDER s e f = some s') :
    s'.m_folders.map (·.id) = s.m_folders.map (·.id) := by
  unfold moveToFolder at h
  by_cases hf : f = INVALID_FOLDER
  · simp [hf] at h
  simp only [hf, if_false, Option.bind_eq_bind, Option.some_bind, Option.bind_eq_some,
    Option.pure_def, Option.some.injEq, Prod.exists] at h
  obtain ⟨dst, hg, ents1, fs1, w1, hdet, ents2, fs2, hpf, rfl⟩ := h
  simp only
  rw [pushFront_ids hpf, detach_ids hdet]

theorem onEntityDestroyed_ids {INVALID_FOLDER : FolderID} {s s' : EntityFolders} {e : Nat}
    (h : onEntityDestroyed INVALID_FOLDER s e = some s') :
    s'.m_folders.map (·.id) = s.m_folders.map (·.id) := by
  unfold onEntityDestroyed at h
  simp only [Option.bind_eq_bind, Option.bind_eq_some, Option.pure_def, Option.some.injEq,
    Prod.exists] at h
  obtain ⟨x, _, p, _, ents1, fs1, hun, _, _, rfl⟩ := h
  exact unlink_ids hun

theorem emplaceFolder_ids {INVALID_FOLDER : FolderID} {defaultPartition : PartitionHandle}
    {s s' : EntityFolders} {rand rand' : List FolderID} {folder parent id : FolderID}
    (h : emplaceFolder INVALID_FOLDER defaultPartition s rand folder parent = some (id, s', rand')) :
    s'.m_folders.map (·.id) = s.m_folders.map (·.id) ++ [id] ∧
      (if folder = INVALID_FOLDER then generateUniqueID s.m_folders rand = some (id, rand')
        else id = folder ∧ rand' = rand) := by
  unfold emplaceFolder at h
  by_cases hp : parent = INVALID_FOLDER
  · simp [hp] at h
  simp only [hp, if_false, Option.bind_eq_bind, Option.some_bind, Option.bind_eq_some,
    Option.pure_def, Option.some.injEq, Prod.exists, Prod.mk.injEq] at h
  obtain ⟨id', rand1, hgen, p, hgp, P, hP, fs2, hfs2, P2, hP2, rfl, rfl, rfl⟩ := h
  have hfs2ids : fs2.map (·.id) = s.m_folders.map (·.id) ++ [id'] := by
    by_cases hc : P.first_child = INVALID_FOLDER
    · simp only [hc, ne_eq, not_true_eq_false, if_false, Option.some.injEq] at hfs2
      rw [← hfs2]; simp
    · simp only [ne_eq, hc, not_false_eq_true, if_true, Option.bind_eq_some,
        Option.some.injEq] at hfs2
      obtain ⟨N, hN, c, hc1, C, hC, rfl⟩ := hfs2
      refine (ids_set { C with prev := id' } hC rfl).trans
        ((ids_set { N with next := P.first_child } hN rfl).trans ?_)
      simp
  refine ⟨?_, ?_⟩
  · exact (ids_set { P2 with first_child := id' } hP2 rfl).trans hfs2ids
  · split
    · rename_i hf; simpa [hf] using hgen
    · rename_i hf
      simp only [hf, if_false, Option.some.injEq, Prod.mk.injEq] at hgen
      exact ⟨hgen.1.symm, hgen.2.symm⟩

theorem generateUniqueID_returns {fs : List Folder} {rand : List FolderID} {x : FolderID}
    (hx : x ∈ rand) (hfresh : ∀ F ∈ fs, F.id ≠ x) :
    ∃ id rest, generateUniqueID fs rand = some (id, rest) := by
  induction rand with
  | nil => cases hx
  | cons a rand ih =>
    unfold generateUniqueID
    split
    · rename_i hany
      rcases List.mem_cons.1 hx with rfl | hx
      · simp only [List.any_eq_true, beq_iff_eq] at hany
        obtain ⟨F, hF, hid⟩ := hany
        exact absurd hid (hfresh F hF)
      · exact ih hx
    · exact ⟨a, rand, rfl⟩

theorem generateUniqueID_mem {fs : List Folder} {rand rest : List FolderID} {id : FolderID}
    (h : generateUniqueID fs rand = some (id, rest)) : id ∈ rand ∧ ∀ x ∈ rest, x ∈ rand := by
  obtain ⟨_, pre, rfl, _⟩ := generateUniqueID_first h
  exact ⟨by simp, fun x hx => by simp [hx]⟩

theorem emplaceFolder_nodup {INVALID_FOLDER : FolderID} {defaultPartition : PartitionHandle}
    {s s' : EntityFolders} {rand rand' : List FolderID} {parent id : FolderID}
    (hnd : (s.m_folders.map (·.id)).Nodup)
    (h : emplaceFolder INVALID_FOLDER defaultPartition s rand INVALID_FOLDER parent =
      some (id, s', rand')) :
    id ∉ s.m_folders.map (·.id) ∧ s'.m_folders.map (·.id) = s.m_folders.map (·.id) ++ [id] ∧
      (s'.m_folders.map (·.id)).Nodup := by
  obtain ⟨hids, hgen⟩ := emplaceFolder_ids h
  rw [if_pos rfl] at hgen
  have hnot := generateUniqueID_not_mem hgen
  refine ⟨hnot, hids, ?_⟩
  rw [hids]
  exact List.nodup_append.2 ⟨hnd, List.nodup_singleton _, by
    intro a h1 h2
    rw [List.mem_singleton] at h2
    exact hnot (h2 ▸ h1)⟩

theorem emplaceAuto_nodup {INVALID_FOLDER : FolderID} {defaultPartition : PartitionHandle}
    (parents : List FolderID) : ∀ {s s' : EntityFolders} {rand rand' : List FolderID}
      {ids : List FolderID}, (s.m_folders.map (·.id)).Nodup →
      emplaceAuto INVALID_FOLDER defaultPartition parents s rand = some (ids, s', rand') →
      s'.m_folders.map (·.id) = s.m_folders.map (·.id) ++ ids ∧
        (s'.m_folders.map (·.id)).Nodup := by
  induction parents with
  | nil =>
    intro s s' rand rand' ids hnd h
    simp only [emplaceAuto, Option.some.injEq, Prod.mk.injEq] at h
    obtain ⟨rfl, rfl, rfl⟩ := h
    exact ⟨by simp, hnd⟩
  | cons p ps ih =>
    intro s s' rand rand' ids hnd h
    simp only [emplaceAuto, Option.bind_eq_bind, Option.bind_eq_some, Option.pure_def,
      Option.some.injEq, Prod.mk.injEq, Prod.exists] at h
    obtain ⟨id, s1, rand1, h1, ids1, s2, rand2, h2, rfl, rfl, rfl⟩ := h
    obtain ⟨_, hids1, hnd1⟩ := emplaceFolder_nodup hnd h1
    obtain ⟨hids2, hnd2⟩ := ih hnd1 h2
    exact ⟨by rw [hids2, hids1]; simp, hnd2⟩

theorem set_append_last {α : Type} (l : List α) (a b : α) :
    (l ++ [a]).set l.length b = l ++ [b] := by
  induction l with
  | nil => rfl
  | cons x l ih => simp [ih]

theorem destroyFolder_ids {INVALID_FOLDER : FolderID} {s s' : EntityFolders} {f : FolderID}
    (h : destroyFolder INVALID_FOLDER s f = some s') :
    ∃ fs3 : List Folder, fs3.map (·.id) = s.m_folders.map (·.id) ∧
      s'.m_folders = fs3.filter (fun g => g.id ≠ f) := by
  unfold destroyFolder at h
  simp only [Option.bind_eq_bind, Option.bind_eq_some, Option.pure_def, Option.some.injEq] at h
  obtain ⟨k, hk, F, hF, h⟩ := h
  by_cases h1 : F.first_entity.isSome = true
  · simp [h1] at h
  by_cases h2 : F.first_child = INVALID_FOLDER
  swap
  · simp [h1, h2] at h
  by_cases h3 : F.parent = INVALID_FOLDER
  · simp [h1, h2, h3] at h
  simp only [h1, h2, h3, if_false, ne_eq, not_true_eq_false, Option.bind_eq_some,
    Option.some_bind, Option.some.injEq, exists_const, Bool.false_eq_true] at h
  obtain ⟨p, hp, P, hP, F1, hF1, fs2, hfs2, F2, hF2, fs3, hfs3, rfl⟩ := h
  refine ⟨fs3, ?_, rfl⟩
  have e1 : (if P.first_child = f then s.m_folders.set p { P with first_child := F.next }
      else s.m_folders).map (·.id) = s.m_folders.map (·.id) := by
    split
    · exact ids_set _ hP rfl
    · rfl
  have e2 : fs2.map (·.id) = s.m_folders.map (·.id) := by
    rw [← e1]
    by_cases hc : F1.prev = INVALID_FOLDER
    · simp only [hc, not_true_eq_false, if_false, Option.some.injEq] at hfs2
      rw [← hfs2]
    · simp only [hc, not_false_eq_true, if_true, Option.bind_eq_some, Option.some.injEq] at hfs2
      obtain ⟨q, _, Q, hQ, rfl⟩ := hfs2
      exact ids_set _ hQ rfl
  rw [← e2]
  by_cases hc : F2.next = INVALID_FOLDER
  · simp only [hc, not_true_eq_false, if_false, Option.some.injEq] at hfs3
    rw [← hfs3]
  · simp only [hc, not_false_eq_true, if_true, Option.bind_eq_some, Option.some.injEq] at hfs3
    obtain ⟨n, _, N, hN, rfl⟩ := hfs3
    exact ids_set _ hN rfl

theorem legacyInsert_ids {INVALID_FOLDER : FolderID} {folder : Nat} (m : List EntityPtr) :
    ∀ {ents ents' : List Entity} {fs fs' : List Folder},
      legacyInsert INVALID_FOLDER folder m ents fs = some (ents', fs') →
      fs'.map (·.id) = fs.map (·.id) := by
  induction m with
  | nil =>
    intro ents ents' fs fs' h
    simp only [legacyInsert, Option.some.injEq, Prod.mk.injEq] at h
    rw [h.2]
  | cons a m ih =>
    intro ents ents' fs fs' h
    cases a with
    | none => exact ih h
    | some e =>
      simp only [legacyInsert, Option.bind_eq_bind, Option.bind_eq_some] at h
      obtain ⟨T, hT, x, _, ents2, _, x2, _, h⟩ := h
      exact (ih h).trans (ids_set _ hT rfl)

theorem deserializeLegacy_ids {INVALID_FOLDER : FolderID} {defaultPartition : PartitionHandle}
    {defaultId : FolderID} {s s' : EntityFolders} {rand rand' : List FolderID} {blob blob' : Blob}
    {entity_map : EntityMap} {additive : Bool}
    (h : deserializeLegacy INVALID_FOLDER defaultPartition defaultId s rand blob entity_map
      additive = some (s', blob', rand')) :
    if additive then
      ∃ id, generateUniqueID (s.m_folders ++ [{ Folder.emplaced INVALID_FOLDER defaultPartition with
          id := defaultId }]) rand = some (id, rand') ∧
        s'.m_folders.map (·.id) = s.m_folders.map (·.id) ++ [id]
    else s'.m_folders.map (·.id) = s.m_folders.map (·.id) ∧ rand' = rand := by
  unfold deserializeLegacy at h
  simp only [Option.bind_eq_bind, Option.bind_eq_some, Option.pure_def, Option.some.injEq,
    Prod.exists, Prod.mk.injEq] at h
  obtain ⟨count, blob1, _, n1, _, blob2, _, size, blob3, _, n2, _, blob4, _, blob5, _,
    folder, fs, rand1, hsel, ents, fs', hins, rfl, rfl, rfl⟩ := h
  have hids := legacyInsert_ids _ hins
  cases additive with
  | true =>
    simp only [if_true, Option.bind_eq_some, Option.some.injEq, Prod.mk.injEq,
      Prod.exists] at hsel ⊢
    obtain ⟨id, rand1', hgen, N, hN, rfl, rfl, rfl⟩ := hsel
    refine ⟨id, hgen, ?_⟩
    rw [hids]
    rw [set_append_last]
    simp
  | false =>
    simp only [Bool.false_eq_true, if_false] at hsel ⊢
    by_cases hl : s.m_folders.length = 1
    · simp only [hl, if_true, Option.some.injEq, Prod.mk.injEq] at hsel
      obtain ⟨rfl, rfl, rfl⟩ := hsel
      exact ⟨hids, rfl⟩
    · simp [hl] at hsel

theorem NoSentinel.of_ids {INVALID_FOLDER : FolderID} {s s' : EntityFolders}
    (hs : NoSentinel INVALID_FOLDER s)
    (h : ∀ x ∈ s'.m_folders.map (·.id), x ∈ s.m_folders.map (·.id)) :
    NoSentinel INVALID_FOLDER s' := by
  intro F' hF' hid
  obtain ⟨F, hF, hFid⟩ := List.mem_map.1 (h F'.id (List.mem_map.2 ⟨F', hF', rfl⟩))
  exact hs F hF (hFid.trans hid)

theorem setNext_mem {ents ents' : List Entity} {i : Nat} {v : EntityPtr}
    (h : setNext ents i v = some ents') {r : Entity} (hr : r ∈ ents') :
    r ∈ ents ∨ ∃ x ∈ ents, r = { x with next := v } := by
  unfold setNext at h
  split at h
  · rename_i x hx
    cases h
    rcases List.mem_or_eq_of_mem_set hr with h1 | h1
    · exact Or.inl h1
    · exact Or.inr ⟨x, mem_of_getElem? hx, h1⟩
  · cases h

theorem setPrev_mem {ents ents' : List Entity} {i : Nat} {v : EntityPtr}
    (h : setPrev ents i v = some ents') {r : Entity} (hr : r ∈ ents') :
    r ∈ ents ∨ ∃ x ∈ ents, r = { x with prev := v } := by
  unfold setPrev at h
  split at h
  · rename_i x hx
    cases h
    rcases List.mem_or_eq_of_mem_set hr with h1 | h1
    · exact Or.inl h1
    · exact Or.inr ⟨x, mem_of_getElem? hx, h1⟩
  · cases h

theorem lookup_mem {m : List (EntityPtr × EntityPtr)} {x v : EntityPtr}
    (h : List.lookup x m = some v) : (x, v) ∈ m := by
  induction m with
  | nil => simp at h
  | cons a m ih =>
    obtain ⟨k, v'⟩ := a
    simp only [List.lookup] at h
    split at h
    · rename_i heq
      simp only [beq_iff_eq] at heq
      cases h
      rw [heq]; exact List.mem_cons_self _ _
    · exact List.mem_cons_of_mem _ (ih h)

theorem cloneEntities_refs {INVALID_FOLDER : FolderID} {src : List Entity}
    {get_mapped : EntityPtr → EntityPtr} {P : EntityPtr → Prop} (hnone : P none)
    (hP : ∀ x, P (get_mapped x)) (m : List (EntityPtr × EntityPtr)) :
    ∀ {ents ents' : List Entity}, (∀ r ∈ ents, P r.next ∧ P r.prev) →
      cloneEntities INVALID_FOLDER src get_mapped m ents = some ents' →
      ∀ r ∈ ents', P r.next ∧ P r.prev := by
  induction m with
  | nil =>
    intro ents ents' h0 h
    simp only [cloneEntities, Option.some.injEq] at h
    subst h; exact h0
  | cons a m ih =>
    intro ents ents' h0 h
    obtain ⟨src_e, dst_e⟩ := a
    simp only [cloneEntities, Option.bind_eq_bind, Option.bind_eq_some] at h
    obtain ⟨si, _, di, _, srec, _, ents1, h1, srec', _, ents2, h2, h⟩ := h
    refine ih ?_ h
    have hg : ∀ r ∈ grow INVALID_FOLDER ents di, P r.next ∧ P r.prev := by
      intro r hr
      rcases List.mem_append.1 hr with hr | hr
      · exact h0 r hr
      · rw [List.eq_of_mem_replicate hr]; exact ⟨hnone, hnone⟩
    have hg1 : ∀ r ∈ ents1, P r.next ∧ P r.prev := by
      intro r hr
      rcases setNext_mem h1 hr with hr | ⟨x, hx, rfl⟩
      · exact hg r hr
      · exact ⟨hP _, (hg x hx).2⟩
    intro r hr
    rcases setPrev_mem h2 hr with hr | ⟨x, hx, rfl⟩
    · exact hg1 r hr
    · exact ⟨(hg1 x hx).1, hP _⟩

theorem Blob.read_eq {n : Nat} {blob : Blob} (h : n ≤ blob.length) :
    Blob.read n blob = some (blob.take n, blob.drop n) := by
  simp [Blob.read, h]

theorem Blob.readU32_eq {blob : Blob} (h : 4 ≤ blob.length) :
    Blob.readU32 blob = some (decodeLE (blob.take 4), blob.drop 4) := by
  simp [Blob.readU32, Blob.read_eq h]

/-- The entity loop of the current format, described record by record. -/
theorem readEntities_spec (INVALID_FOLDER : FolderID) (L : Layout) (entity_map : EntityMap)
    (n : Nat) : ∀ (i : Nat) (ents : List Entity) (blob : Blob), n * L.entitySize ≤ blob.length →
      ∃ ents', readEntities INVALID_FOLDER L entity_map n i ents blob =
          some (ents', blob.drop (n * L.entitySize)) ∧
        (∀ (k d : Nat), k < n → entity_map.get (sourceRef (i + k)) = some d →
          (∀ k', k < k' → k' < n → entity_map.get (sourceRef (i + k')) ≠ some d) →
          ents'[d]? = some
            { folder := (L.decodeEntity ((blob.drop (k * L.entitySize)).take L.entitySize)).folder
              next := entity_map.get
                (L.decodeEntity ((blob.drop (k * L.entitySize)).take L.entitySize)).next
              prev := entity_map.get
                (L.decodeEntity ((blob.drop (k * L.entitySize)).take L.entitySize)).prev }) ∧
        (∀ d : Nat, (∀ k, k < n → entity_map.get (sourceRef (i + k)) ≠ some d) →
          ents'[d]? = ents[d]? ∨
            (ents[d]? = none ∧ ents'[d]? = some (Entity.unset INVALID_FOLDER))) := by
  induction n with
  | zero =>
    intro i ents blob _
    exact ⟨ents, by simp [readEntities], fun k d hk => absurd hk (Nat.not_lt_zero _),
      fun d _ => Or.inl rfl⟩
  | succ n ih =>
    intro i ents blob hlen
    have hsz : L.entitySize ≤ blob.length := by
      have : L.entitySize ≤ (n + 1) * L.entitySize := Nat.le_mul_of_pos_left _ (Nat.succ_pos n)
      omega
    have hlen1 : n * L.entitySize ≤ (blob.drop L.entitySize).length := by
      rw [List.length_drop]
      have : (n + 1) * L.entitySize = n * L.entitySize + L.entitySize := Nat.succ_mul _ _
      omega
    have hdrop : ∀ k, (blob.drop L.entitySize).drop (k * L.entitySize) =
        blob.drop ((k + 1) * L.entitySize) := by
      intro k
      rw [List.drop_drop, Nat.succ_mul, Nat.add_comm]
    cases hget : entity_map.get (sourceRef i) with
    | none =>
      obtain ⟨ents', hrun, ha, hb⟩ := ih (i + 1) ents (blob.drop L.entitySize) hlen1
      refine ⟨ents', ?_, ?_, ?_⟩
      · simp only [readEntities, Blob.read_eq hsz, Option.bind_eq_bind, Option.some_bind, hget]
        rw [hrun, hdrop]
      · intro k d hk hkd hlast
        cases k with
        | zero => simp only [Nat.add_zero] at hkd; rw [hget] at hkd; cases hkd
        | succ k =>
          have := ha k d (by omega) (by rw [Nat.add_assoc, Nat.add_comm 1 k]; exact hkd)
            (fun k' h1 h2 => by
              have := hlast (k' + 1) (by omega) (by omega)
              rwa [Nat.add_assoc, Nat.add_comm 1 k'])
          rw [hdrop] at this
          exact this
      · intro d hd
        exact hb d (fun k hk => by
          have := hd (k + 1) (by omega)
          rwa [Nat.add_assoc, Nat.add_comm 1 k])
    | some e =>
      obtain ⟨ents', hrun, ha, hb⟩ := ih (i + 1)
        ((grow INVALID_FOLDER ents e).set e
          { folder := (L.decodeEntity (blob.take L.entitySize)).folder
            next := entity_map.get (L.decodeEntity (blob.take L.entitySize)).next
            prev := entity_map.get (L.decodeEntity (blob.take L.entitySize)).prev })
        (blob.drop L.entitySize) hlen1
      have hself : ((grow INVALID_FOLDER ents e).set e
          { folder := (L.decodeEntity (blob.take L.entitySize)).folder
            next := entity_map.get (L.decodeEntity (blob.take L.entitySize)).next
            prev := entity_map.get (L.decodeEntity (blob.take L.entitySize)).prev })[e]? = some
          { folder := (L.decodeEntity (blob.take L.entitySize)).folder
            next := entity_map.get (L.decodeEntity (blob.take L.entitySize)).next
            prev := entity_map.get (L.decodeEntity (blob.take L.entitySize)).prev } := by
        obtain ⟨x, hx, _⟩ := grow_self INVALID_FOLDER ents e
        have := (List.getElem?_eq_some.1 hx).1
        rw [List.getElem?_set]; simp [this]
      refine ⟨ents', ?_, ?_, ?_⟩
      · simp only [readEntities, Blob.read_eq hsz, Option.bind_eq_bind, Option.some_bind, hget]
        rw [hrun, hdrop]
      · intro k d hk hkd hlast
        cases k with
        | zero =>
          simp only [Nat.add_zero] at hkd; rw [hget] at hkd; cases hkd
          have hnot : ∀ k, k < n → entity_map.get (sourceRef (i + 1 + k)) ≠ some e := by
            intro k hk
            have := hlast (k + 1) (by omega) (by omega)
            rwa [Nat.add_assoc, Nat.add_comm 1 k]
          rcases hb e hnot with h | ⟨h, _⟩
          · rw [h, hself]; simp
          · rw [hself] at h; cases h
        | succ k =>
          have := ha k d (by omega) (by rw [Nat.add_assoc, Nat.add_comm 1 k]; exact hkd)
            (fun k' h1 h2 => by
              have := hlast (k' + 1) (by omega) (by omega)
              rwa [Nat.add_assoc, Nat.add_comm 1 k'])
          rw [hdrop] at this
          exact this
      · intro d hd
        have hde : d ≠ e := by
          intro h
          have := hd 0 (Nat.succ_pos n)
          simp only [Nat.add_zero] at this
          exact this (h ▸ hget)
        have hstep : ((grow INVALID_FOLDER ents e).set e
          { folder := (L.decodeEntity (blob.take L.entitySize)).folder
            next := entity_map.get (L.decodeEntity (blob.take L.entitySize)).next
            prev := entity_map.get (L.decodeEntity (blob.take L.entitySize)).prev })[d]? =
            (grow INVALID_FOLDER ents e)[d]? :=
          List.getElem?_set_ne (fun h => hde h.symm)
        have hgrow := grow_getElem? INVALID_FOLDER ents e d
        rcases hb d (fun k hk => by
          have := hd (k + 1) (by omega)
          rwa [Nat.add_assoc, Nat.add_comm 1 k]) with h | ⟨h, h'⟩
        · rw [hstep, hgrow] at h
          by_cases hdl : d < ents.length
          · simp only [hdl, if_true] at h; exact Or.inl h
          · simp only [hdl, if_false] at h
            have hnone : ents[d]? = none := List.getElem?_eq_none (by omega)
            split at h
            · exact Or.inr ⟨hnone, h⟩
            · left; rw [h, hnone]
        · rw [hstep, hgrow] at h
          by_cases hdl : d < ents.length
          · simp only [hdl, if_true] at h
            have := List.getElem?_eq_getElem hdl
            rw [this] at h; cases h
          · exact Or.inr ⟨List.getElem?_eq_none (by omega), h'⟩

theorem chunks_eq (size : Nat) (n : Nat) : ∀ bytes : List Nat,
    chunks size n bytes = (List.range n).map (fun j => (bytes.drop (j * size)).take size) := by
  induction n with
  | zero => intro bytes; rfl
  | succ n ih =>
    intro bytes
    rw [chunks, ih, List.range_succ_eq_map, List.map_cons, List.map_map]
    congr 1
    · simp
    · apply List.map_congr_left
      intro j _
      simp only [Function.comp, List.drop_drop]
      congr 2
      rw [Nat.succ_mul, Nat.add_comm]

theorem take_drop_take {α : Type} (l : List α) (size n j : Nat) (hj : j < n) :
    ((l.take (size * n)).drop (j * size)).take size = (l.drop (j * size)).take size := by
  rw [List.drop_take, List.take_take]
  congr 1
  have h1 : (j + 1) * size ≤ n * size := Nat.mul_le_mul_right _ hj
  rw [Nat.succ_mul] at h1
  rw [Nat.mul_comm size n]
  omega

/-- The current-format branch, described in the terms of the persisted layout. -/
theorem deserializeCurrent_spec (INVALID_FOLDER : FolderID) (L : Layout) (s : EntityFolders)
    (blob : Blob) (entity_map : EntityMap) (additive : Bool)
    (hsize : blobSize L blob ≤ blob.length)
    (hidx : (if additive then s.m_folders else []).length <
      (blobFolderCount L blob + (if additive then s.m_folders else []).length) % 4294967296) :
    ∃ ents', deserializeCurrent INVALID_FOLDER L s blob entity_map additive =
        some ({ s with
          m_entities := ents'
          m_folders := (if additive then s.m_folders else []) ++
            (List.range (blobFolderCount L blob)).map (fun j =>
              { blobFolder L blob j with
                first_entity := entity_map.get (blobFolder L blob j).first_entity }) },
          blob.drop (blobSize L blob)) ∧
      (∀ (i d : Nat), i < blobEntityCount blob → entity_map.get (sourceRef i) = some d →
        (∀ j, i < j → j < blobEntityCount blob → entity_map.get (sourceRef j) ≠ some d) →
        ents'[d]? = some
          { folder := (blobEntity L blob i).folder
            next := entity_map.get (blobEntity L blob i).next
            prev := entity_map.get (blobEntity L blob i).prev }) ∧
      (∀ d : Nat, (∀ i, i < blobEntityCount blob → entity_map.get (sourceRef i) ≠ some d) →
        ents'[d]? = s.m_entities[d]? ∨
          (s.m_entities[d]? = none ∧ ents'[d]? = some (Entity.unset INVALID_FOLDER))) := by
  unfold blobSize at hsize
  have h4 : 4 ≤ blob.length := by omega
  have hlen1 : blobEntityCount blob * L.entitySize ≤ (blob.drop 4).length := by
    rw [List.length_drop]; omega
  obtain ⟨ents', hrun, ha, hb⟩ := readEntities_spec INVALID_FOLDER L entity_map
    (blobEntityCount blob) 0 s.m_entities (blob.drop 4) hlen1
  have hd2 : (blob.drop 4).drop (blobEntityCount blob * L.entitySize) =
      blob.drop (4 + blobEntityCount blob * L.entitySize) := by
    rw [List.drop_drop, Nat.add_comm]
  have h4' : 4 ≤ (blob.drop (4 + blobEntityCount blob * L.entitySize)).length := by
    rw [List.length_drop]; omega
  have hd3 : (blob.drop (4 + blobEntityCount blob * L.entitySize)).drop 4 =
      blob.drop (4 + blobEntityCount blob * L.entitySize + 4) := by
    rw [List.drop_drop, Nat.add_comm]
  have hlen3 : L.folderSize * blobFolderCount L blob ≤
      (blob.drop (4 + blobEntityCount blob * L.entitySize + 4)).length := by
    rw [List.length_drop, Nat.mul_comm]; omega
  have hd4 : (blob.drop (4 + blobEntityCount blob * L.entitySize + 4)).drop
      (L.folderSize * blobFolderCount L blob) = blob.drop (4 + blobEntityCount blob * L.entitySize +
        4 + blobFolderCount L blob * L.folderSize) := by
    rw [List.drop_drop, Nat.mul_comm L.folderSize (blobFolderCount L blob), Nat.add_comm]
  have hfold : (chunks L.folderSize (blobFolderCount L blob)
      ((blob.drop (4 + blobEntityCount blob * L.entitySize + 4)).take
        (L.folderSize * blobFolderCount L blob))).map L.decodeFolder =
      (List.range (blobFolderCount L blob)).map (blobFolder L blob) := by
    rw [chunks_eq, List.map_map]
    apply List.map_congr_left
    intro j hj
    simp only [Function.comp, blobFolder]
    rw [take_drop_take _ _ _ _ (List.mem_range.1 hj), List.drop_drop, Nat.add_comm]
  refine ⟨ents', ?_, ?_, ?_⟩
  · unfold deserializeCurrent
    have hcount : decodeLE (blob.take 4) = blobEntityCount blob := rfl
    have hfc : decodeLE ((blob.drop (4 + blobEntityCount blob * L.entitySize)).take 4) =
        blobFolderCount L blob := rfl
    simp only [Blob.readU32_eq h4, Option.bind_eq_bind, Option.some_bind, hcount, hrun, hd2,
      Blob.readU32_eq h4', hfc, hd3, hidx, not_true_eq_false, if_false, Blob.read_eq hlen3, hd4,
      hfold, Option.pure_def]
    rw [List.map_map]
    rfl
  · intro i d hi hid hlast
    have := ha i d hi (by simpa using hid) (fun k' h1 h2 => by simpa using hlast k' h1 h2)
    simp only [List.drop_drop] at this
    rw [this]
    simp only [blobEntity, Nat.add_comm]
  · intro d hd
    exact hb d (fun k hk => by simpa using hd k hk)

theorem decodeLE_encodeU32 {n : Nat} (h : n < 4294967296) : decodeLE (encodeU32 n) = n := by
  simp only [decodeLE, encodeU32]
  omega

theorem flatMap_length {α : Type} (enc : α → List Nat) (size : Nat) (l : List α)
    (h : ∀ x ∈ l, (enc x).length = size) : (l.flatMap enc).length = l.length * size := by
  induction l with
  | nil => simp
  | cons a l ih =>
    rw [List.flatMap_cons, List.length_append, h a (List.mem_cons_self _ _),
      ih (fun x hx => h x (List.mem_cons_of_mem _ hx)), List.length_cons, Nat.succ_mul,
      Nat.add_comm]

theorem take_drop_flatMap {α : Type} (enc : α → List Nat) (size : Nat) (rest : List Nat) :
    ∀ (l : List α) (i : Nat) (x : α), (∀ y ∈ l, (enc y).length = size) → l[i]? = some x →
      ((l.flatMap enc ++ rest).drop (i * size)).take size = enc x := by
  intro l
  induction l with
  | nil => intro i x _ hx; simp at hx
  | cons a l ih =>
    intro i x h hx
    have ha := h a (List.mem_cons_self _ _)
    cases i with
    | zero =>
      simp only [List.getElem?_cons_zero, Option.some.injEq] at hx
      subst hx
      rw [Nat.zero_mul, List.drop_zero, List.flatMap_cons, List.append_assoc,
        List.take_append_of_le_length (by omega), List.take_of_length_le (by omega)]
    | succ i =>
      simp only [List.getElem?_cons_succ] at hx
      rw [List.flatMap_cons, List.append_assoc, Nat.succ_mul, Nat.add_comm (i * size) size,
        ← List.drop_drop, ← ha, List.drop_left, ha]
      exact ih i x (fun y hy => h y (List.mem_cons_of_mem _ hy)) hx

theorem drop_add_append {α : Type} (l1 l2 : List α) (n i : Nat) (h : l1.length = n) :
    (l1 ++ l2).drop (n + i) = l2.drop i := by
  subst h
  exact List.drop_append i

/-- The blob written by `serialize`, read in the terms of the persisted layout. -/
theorem serialize_layout (L : Layout) (S : EntityFolders)
    (hne : S.m_entities.length < 4294967296) (hnf : S.m_folders.length < 4294967296)
    (hE : ∀ r ∈ S.m_entities, (L.encodeEntity r).length = L.entitySize ∧
      L.decodeEntity (L.encodeEntity r) = r)
    (hF : ∀ F ∈ S.m_folders, (L.encodeFolder F).length = L.folderSize ∧
      L.decodeFolder (L.encodeFolder F) = F) :
    blobEntityCount (serialize L S []) = S.m_entities.length ∧
    (∀ (i : Nat) (x : Entity), S.m_entities[i]? = some x → blobEntity L (serialize L S []) i = x) ∧
    blobFolderCount L (serialize L S []) = S.m_folders.length ∧
    (∀ (j : Nat) (F : Folder), S.m_folders[j]? = some F → blobFolder L (serialize L S []) j = F) ∧
    blobSize L (serialize L S []) = (serialize L S []).length := by
  have hblob : serialize L S [] = encodeU32 S.m_entities.length ++
      (S.m_entities.flatMap L.encodeEntity ++ (encodeU32 S.m_folders.length ++
        (S.m_folders.flatMap L.encodeFolder ++ []))) := by
    simp [serialize, List.append_assoc]
  have hEl := flatMap_length L.encodeEntity L.entitySize S.m_entities (fun r hr => (hE r hr).1)
  have hFl := flatMap_length L.encodeFolder L.folderSize S.m_folders (fun r hr => (hF r hr).1)
  have h4 : ∀ n, (encodeU32 n).length = 4 := fun _ => rfl
  have hcount : blobEntityCount (serialize L S []) = S.m_entities.length := by
    unfold blobEntityCount
    rw [hblob, List.take_append_of_le_length (by rw [h4]), List.take_of_length_le (by rw [h4])]
    exact decodeLE_encodeU32 hne
  have hfcount : blobFolderCount L (serialize L S []) = S.m_folders.length := by
    unfold blobFolderCount
    rw [hcount, hblob, ← Nat.add_zero (4 + _), Nat.add_assoc 4,
      drop_add_append _ _ 4 _ (h4 _), drop_add_append _ _ _ 0 hEl, List.drop_zero,
      List.take_append_of_le_length (by rw [h4]), List.take_of_length_le (by rw [h4])]
    exact decodeLE_encodeU32 hnf
  refine ⟨hcount, ?_, hfcount, ?_, ?_⟩
  · intro i x hx
    unfold blobEntity
    rw [hblob, drop_add_append _ _ 4 _ (h4 _),
      take_drop_flatMap L.encodeEntity L.entitySize _ S.m_entities i x (fun r hr => (hE r hr).1) hx]
    exact (hE x (mem_of_getElem? hx)).2
  · intro j F hFj
    unfold blobFolder
    rw [hcount, hblob, Nat.add_assoc (4 + _) 4, Nat.add_assoc 4,
      drop_add_append _ _ 4 _ (h4 _), drop_add_append _ _ _ _ hEl, drop_add_append _ _ 4 _ (h4 _),
      take_drop_flatMap L.encodeFolder L.folderSize _ S.m_folders j F (fun r hr => (hF r hr).1) hFj]
    exact (hF F (mem_of_getElem? hFj)).2
  · unfold blobSize
    rw [hcount, hfcount]
    rw [hblob]
    simp only [List.length_append, h4, hEl, hFl, List.length_nil]
    omega

/-- In a consistent state the neighbours of an entity that has a folder, and
the head of the list of a folder, are entities that have a folder. -/
theorem Consistent.refs {INVALID_FOLDER : FolderID} {s : EntityFolders}
    (hs : Consistent INVALID_FOLDER s) :
    (∀ (i : Nat) (x : Entity), s.m_entities[i]? = some x → x.folder ≠ INVALID_FOLDER →
      (∀ n, x.next = some n → ∃ y, s.m_entities[n]? = some y ∧ y.folder ≠ INVALID_FOLDER) ∧
      (∀ n, x.prev = some n → ∃ y, s.m_entities[n]? = some y ∧ y.folder ≠ INVALID_FOLDER)) ∧
    (∀ F ∈ s.m_folders, ∀ h, F.first_entity = some h →
      ∃ y, s.m_entities[h]? = some y ∧ y.folder ≠ INVALID_FOLDER) := by
  obtain ⟨⟨_, hall⟩, hno, htab⟩ := hs
  constructor
  · intro i x hx hxf
    obtain ⟨G, hG, hGid⟩ := (htab x (mem_of_getElem? hx)).resolve_left hxf
    obtain ⟨l, hc, _, hm⟩ := hall G hG
    have hi : i ∈ l := (hm i).2 ⟨x, hx, hGid.symm⟩
    obtain ⟨l1, l2, rfl⟩ := List.append_of_mem hi
    obtain ⟨hprev, hnext⟩ := Chain.prev_next hx l1 hc
    have hmem : ∀ n ∈ l1 ++ i :: l2, ∃ y, s.m_entities[n]? = some y ∧ y.folder ≠ INVALID_FOLDER := by
      intro n hn
      obtain ⟨y, hy, hyf⟩ := (hm n).1 hn
      exact ⟨y, hy, hyf ▸ hno G hG⟩
    constructor
    · intro n hn
      rw [hnext] at hn
      exact hmem n (List.mem_append_right _ (List.mem_cons_of_mem _ (List.mem_of_mem_head? hn)))
    · intro n hn
      rcases hprev with ⟨h, _⟩ | ⟨q, hq, h⟩
      · rw [h] at hn; cases hn
      · rw [h] at hn; cases hn
        exact hmem n (List.mem_append_left _ hq)
  · intro F hF h hh
    obtain ⟨l, hc, _, hm⟩ := hall F hF
    rw [hc.head] at hh
    obtain ⟨y, hy, hyf⟩ := (hm h).1 (List.mem_of_mem_head? hh)
    exact ⟨y, hy, hyf ▸ hno F hF⟩

theorem construct_entities {INVALID_FOLDER : FolderID} {defaultPartition : PartitionHandle}
    {w : World} {rand rand' : List FolderID} {M : EntityFolders}
    (h : construct INVALID_FOLDER defaultPartition w rand = some (M, rand')) :
    M.m_entities = [] := by
  unfold construct at h
  split at h
  · cases h
  · split at h
    · cases h
    · simp only [Option.some.injEq, Prod.mk.injEq] at h
      rw [← h.1]

/-- Round trip through the current format, for a reader without entities. -/
theorem round_trip {INVALID_FOLDER : FolderID} {L : Layout} {S M : EntityFolders}
    {entity_map : EntityMap} (hM : M.m_entities = []) (hS : Tidy INVALID_FOLDER S)
    (hne : S.m_folders ≠ []) (hlenE : S.m_entities.length < 2147483648)
    (hlenF : S.m_folders.length < 4294967296)
    (hE : ∀ r ∈ S.m_entities, (L.encodeEntity r).length = L.entitySize ∧
      L.decodeEntity (L.encodeEntity r) = r)
    (hF : ∀ F ∈ S.m_folders, (L.encodeFolder F).length = L.folderSize ∧
      L.decodeFolder (L.encodeFolder F) = F)
    (hmap : ∀ (i : Nat) (x : Entity), S.m_entities[i]? = some x →
      entity_map.get (some i) = some i ∨
        (entity_map.get (some i) = none ∧ x = Entity.unset INVALID_FOLDER)) :
    ∃ s' : EntityFolders,
      deserializeCurrent INVALID_FOLDER L M (serialize L S []) entity_map false = some (s', []) ∧
      s'.m_selected_folder = M.m_selected_folder ∧
      s'.m_folders = S.m_folders ∧
      (∀ (i : Nat) (x : Entity), S.m_entities[i]? = some x → entity_map.get (some i) = some i →
        s'.m_entities[i]? = some x) ∧
      (∀ F ∈ S.m_folders, ∀ l, MemberList S.m_entities F l → MemberList s'.m_entities F l) := by
  obtain ⟨hcount, hent, hfcount, hfold, hsize⟩ := serialize_layout L S (by omega) hlenF hE hF
  obtain ⟨hrefs, hfirst⟩ := hS.1.refs
  have hpos : 0 < S.m_folders.length := List.length_pos.2 hne
  obtain ⟨ents', hrun, ha, hb⟩ := deserializeCurrent_spec INVALID_FOLDER L M (serialize L S [])
    entity_map false (by rw [hsize]) (by
      simp only [Bool.false_eq_true, if_false, List.length_nil, Nat.add_zero, hfcount]
      rw [Nat.mod_eq_of_lt hlenF]; exact hpos)
  rw [hsize, List.drop_length] at hrun
  have hsrc : ∀ i, i < S.m_entities.length → sourceRef i = some i := by
    intro i hi
    have : i < 2147483648 := by omega
    simp [sourceRef, this]
  -- the map is the identity on every entity that has a folder
  have hid : ∀ (n : Nat) (y : Entity), S.m_entities[n]? = some y → y.folder ≠ INVALID_FOLDER →
      entity_map.get (some n) = some n := by
    intro n y hy hyf
    rcases hmap n y hy with h | ⟨_, h⟩
    · exact h
    · exact absurd (by rw [h]; rfl) hyf
  have hptr : ∀ (i : Nat) (x : Entity), S.m_entities[i]? = some x →
      entity_map.get x.next = x.next ∧ entity_map.get x.prev = x.prev := by
    intro i x hx
    by_cases hxf : x.folder = INVALID_FOLDER
    · rw [hS.2 x (mem_of_getElem? hx) hxf]; exact ⟨rfl, rfl⟩
    · obtain ⟨h1, h2⟩ := hrefs i x hx hxf
      constructor
      · cases hn : x.next with
        | none => rfl
        | some n => obtain ⟨y, hy, hyf⟩ := h1 n hn; exact hid n y hy hyf
      · cases hn : x.prev with
        | none => rfl
        | some n => obtain ⟨y, hy, hyf⟩ := h2 n hn; exact hid n y hy hyf
  have hsame : ∀ (i : Nat) (x : Entity), S.m_entities[i]? = some x →
      entity_map.get (some i) = some i → ents'[i]? = some x := by
    intro i x hx hi
    have hil : i < S.m_entities.length := (List.getElem?_eq_some.1 hx).1
    have := ha i i (by rw [hcount]; exact hil) (by rw [hsrc i hil]; exact hi) (by
      intro j hij hj
      rw [hcount] at hj
      rw [hsrc j hj]
      rcases hmap j _ (List.getElem?_eq_getElem hj) with h | ⟨h, _⟩
      · rw [h]; intro h'; cases h'; omega
      · rw [h]; intro h'; cases h')
    rw [this, hent i x hx, (hptr i x hx).1, (hptr i x hx).2]
  have himage : ∀ (i : Nat) (r : Entity), ents'[i]? = some r → r.folder ≠ INVALID_FOLDER →
      S.m_entities[i]? = some r := by
    intro i r hr hrf
    by_cases him : ∃ j, j < blobEntityCount (serialize L S []) ∧
        entity_map.get (sourceRef j) = some i
    · obtain ⟨j, hj, hji⟩ := him
      rw [hcount] at hj
      rw [hsrc j hj] at hji
      have hjx := List.getElem?_eq_getElem hj
      rcases hmap j _ hjx with h | ⟨h, _⟩
      · have hji' : j = i := by rw [h] at hji; exact Option.some.inj hji
        subst hji'
        rw [hsame j _ hjx h] at hr
        cases hr
        exact hjx
      · rw [h] at hji; cases hji
    · rcases hb i (fun j hj hji => him ⟨j, hj, hji⟩) with h | ⟨_, h⟩
      · rw [hM] at h; rw [h] at hr; cases hr
      · rw [h] at hr; cases hr
        exact absurd rfl hrf
  refine ⟨_, hrun, rfl, ?_, hsame, ?_⟩
  · simp only [Bool.false_eq_true, if_false, List.nil_append]
    apply List.ext_getElem?
    intro j
    rw [List.getElem?_map, hfcount]
    by_cases hj : j < S.m_folders.length
    · have hFj := List.getElem?_eq_getElem hj
      rw [List.getElem?_range hj, hFj, Option.map_some', hfold j _ hFj]
      have : entity_map.get (S.m_folders[j]).first_entity = (S.m_folders[j]).first_entity := by
        cases hh : (S.m_folders[j]).first_entity with
        | none => rfl
        | some h =>
          obtain ⟨y, hy, hyf⟩ := hfirst _ (List.getElem_mem hj) h hh
          exact hid h y hy hyf
      rw [this]
    · rw [List.getElem?_eq_none (by simpa using Nat.le_of_not_lt hj),
        List.getElem?_eq_none (Nat.le_of_not_lt hj)]
      rfl
  · intro F hFm l hl
    obtain ⟨hc, hnd, hm⟩ := hl
    have hFno := hS.1.2.1 F hFm
    refine ⟨Chain.frame (fun i hi => ?_) hc, hnd, fun i => ?_⟩
    · obtain ⟨x, hx, hxf⟩ := (hm i).1 hi
      rw [hx]
      exact hsame i x hx (hid i x hx (hxf ▸ hFno))
    · rw [hm i]
      constructor
      · rintro ⟨x, hx, hxf⟩
        exact ⟨x, hsame i x hx (hid i x hx (hxf ▸ hFno)), hxf⟩
      · rintro ⟨r, hr, hrf⟩
        exact ⟨r, himage i r hr (hrf ▸ hFno), hrf⟩

theorem exampleState_tidy : Tidy 0 exampleState := by
  refine ⟨exampleState_consistent, fun r hr hf => ?_⟩
  simp only [exampleState, List.mem_cons, List.mem_singleton, List.not_mem_nil, or_false] at hr
  rcases hr with rfl | rfl | rfl <;> simp at hf

/-- One round of the legacy loop on an entity whose record has no `prev`
changes the linkage array as an insertion at the head does: `folder` and
`next` of the record are overwritten. -/
theorem legacyStep_eq {INVALID_FOLDER : FolderID} {ents : List Entity} {fs : List Folder}
    {folder e : Nat} {T : Folder} {x : Entity} (rest : List EntityPtr)
    (hT : fs[folder]? = some T) (hx : (grow INVALID_FOLDER ents e)[e]? = some x)
    (hxp : x.prev = INVALID_ENTITY)
    (hn : ∀ n, T.first_entity = some n → n < (grow INVALID_FOLDER ents e).length ∧ n ≠ e) :
    ∃ ents3, legacyInsert INVALID_FOLDER folder (some e :: rest) ents fs =
        legacyInsert INVALID_FOLDER folder rest ents3 (fs.set folder { T with first_entity := some e }) ∧
      ∀ j : Nat, ents3[j]? = if j = e then some ⟨T.id, T.first_entity, none⟩
        else if T.first_entity = some j then
          ((grow INVALID_FOLDER ents e)[j]?).map (fun y => { y with prev := some e })
        else (grow INVALID_FOLDER ents e)[j]? := by
  have he : e < (grow INVALID_FOLDER ents e).length := (List.getElem?_eq_some.1 hx).1
  cases hfe : T.first_entity with
  | none =>
    refine ⟨((grow INVALID_FOLDER ents e).set e { x with folder := T.id }).set e
      ⟨T.id, none, none⟩, ?_, fun j => ?_⟩
    · simp only [INVALID_ENTITY] at hxp
      simp [legacyInsert, hT, hx, hfe, he, hxp]
    · rw [List.getElem?_set, List.getElem?_set]
      by_cases hj : e = j
      · subst hj; simp [he]
      · have : ¬ (j = e) := fun h => hj h.symm
        simp [hj, this]
  | some h =>
    obtain ⟨hh1, hh2⟩ := hn h hfe
    have hh3 : ¬ (e = h) := fun h' => hh2 h'.symm
    obtain ⟨y, hy⟩ : ∃ y, (grow INVALID_FOLDER ents e)[h]? = some y :=
      ⟨_, List.getElem?_eq_getElem hh1⟩
    have h1 : ((grow INVALID_FOLDER ents e).set e { x with folder := T.id })[h]? = some y := by
      rw [List.getElem?_set]; simp [hh3, hy]
    have h2 : (((grow INVALID_FOLDER ents e).set e { x with folder := T.id }).set h
        { y with prev := some e })[e]? = some { x with folder := T.id } := by
      rw [List.getElem?_set, List.getElem?_set]; simp [hh2, he]
    refine ⟨(((grow INVALID_FOLDER ents e).set e { x with folder := T.id }).set h
        { y with prev := some e }).set e ⟨T.id, some h, none⟩, ?_, fun j => ?_⟩
    · simp only [INVALID_ENTITY] at hxp
      simp only [hxp] at h1 h2
      simp [legacyInsert, hT, hx, hfe, setPrev, h1, h2, hxp]
    · rw [List.getElem?_set, List.getElem?_set, List.getElem?_set]
      by_cases hj : e = j
      · subst hj; simp [he]
      · have hj' : ¬ (j = e) := fun h => hj h.symm
        by_cases hj2 : h = j
        · subst hj2; simp [hj, hj', hh1, hy]
        · have : ¬ (j = h) := fun h' => hj2 h'.symm
          simp [hj, hj', hj2, this]

/-- The legacy loop on a table whose folders all have member lists, for a map
whose valid entries are pairwise distinct and name records that are absent or
have neither a folder nor a `prev`:
the entries are put in front of the list of the target folder, the last one
first, and the other lists stay. -/
theorem legacyInsert_spec {INVALID_FOLDER : FolderID} {folder : Nat} (m : List EntityPtr) :
    ∀ {ents : List Entity} {fs : List Folder}, (fs.map (·.id)).Nodup →
      (∀ F ∈ fs, F.id ≠ INVALID_FOLDER) → (∀ F ∈ fs, ∃ l, MemberList ents F l) →
      folder < fs.length → m.reduceOption.Nodup →
      (∀ e ∈ m.reduceOption, ∀ r, ents[e]? = some r →
        r.folder = INVALID_FOLDER ∧ r.prev = INVALID_ENTITY) →
      ∃ ents' fs', legacyInsert INVALID_FOLDER folder m ents fs = some (ents', fs') ∧
        fs'.length = fs.length ∧
        ∀ (k : Nat) (F : Folder) (l : List Nat), fs[k]? = some F → MemberList ents F l →
          ∃ F', fs'[k]? = some F' ∧ F' = { F with first_entity := F'.first_entity } ∧
            MemberList ents' F' (if k = folder then m.reduceOption.reverse ++ l else l) := by
  induction m with
  | nil =>
    intro ents fs _ _ _ _ _ _
    refine ⟨ents, fs, rfl, rfl, fun k F l hF hl => ⟨F, hF, rfl, ?_⟩⟩
    simpa using hl
  | cons a m ih =>
    intro ents fs hnd hno hall hfolder hmnd hunset
    cases a with
    | none =>
      rw [List.reduceOption_cons_of_none] at hmnd hunset ⊢
      exact ih hnd hno hall hfolder hmnd hunset
    | some e =>
      rw [List.reduceOption_cons_of_some] at hmnd hunset
      simp only [List.reduceOption_cons_of_some]
      obtain ⟨he_rest, hrest_nd⟩ := List.nodup_cons.1 hmnd
      obtain ⟨T, hT⟩ : ∃ T, fs[folder]? = some T := ⟨_, List.getElem?_eq_getElem hfolder⟩
      obtain ⟨x, hx, hxf, hxp⟩ : ∃ x, (grow INVALID_FOLDER ents e)[e]? = some x ∧
          x.folder = INVALID_FOLDER ∧ x.prev = INVALID_ENTITY := by
        obtain ⟨x, hx, hc⟩ := grow_self INVALID_FOLDER ents e
        rcases hc with hc | ⟨_, hc⟩
        · exact ⟨x, hx, hunset e (List.mem_cons_self _ _) x hc⟩
        · rw [hc] at hx; exact ⟨_, hx, rfl, rfl⟩
      have hall0 : ∀ F ∈ fs, ∃ l, MemberList (grow INVALID_FOLDER ents e) F l := by
        intro F hF
        obtain ⟨l, hl⟩ := hall F hF
        exact ⟨l, hl.grow e (hno F hF)⟩
      have hdet0 : ∀ (F : Folder) (l : List Nat), F ∈ fs →
          MemberList (grow INVALID_FOLDER ents e) F l → Detached e (grow INVALID_FOLDER ents e) F l := by
        intro F l hF hl
        obtain ⟨hc, hlnd, hm⟩ := hl
        have heF : e ∉ l := fun h => by
          obtain ⟨y, hy, hyf⟩ := (hm e).1 h
          rw [hx] at hy; cases hy
          exact hno F hF (hyf.symm.trans hxf)
        refine ⟨hc, hlnd, fun i => ?_⟩
        rw [hm i]
        exact ⟨fun h => ⟨fun hie => heF (hie ▸ (hm i).2 h), h⟩, fun h => h.2⟩
      have hdet : ∀ F ∈ fs, ∃ l, Detached e (grow INVALID_FOLDER ents e) F l := by
        intro F hF
        obtain ⟨l, hl⟩ := hall0 F hF
        exact ⟨l, hdet0 F l hF hl⟩
      obtain ⟨lT, hlT⟩ := hall0 T (mem_of_getElem? hT)
      have hhead : ∀ n, T.first_entity = some n → n ∈ lT := by
        intro n hn; rw [hlT.1.head] at hn; exact List.mem_of_mem_head? hn
      obtain ⟨ents3, hstep, hpt⟩ := legacyStep_eq m hT hx hxp (fun n hn => by
        obtain ⟨hne, y, hy, _⟩ := ((hdet0 T lT (mem_of_getElem? hT) hlT).2.2 n).1 (hhead n hn)
        exact ⟨(List.getElem?_eq_some.1 hy).1, hne⟩)
      have hins := insert_lists hnd hT hdet hpt
      have hpos1 : ∀ (k : Nat) (F : Folder), fs[k]? = some F →
          ∃ F', (fs.set folder { T with first_entity := some e })[k]? = some F' ∧ F'.id = F.id := by
        intro k F hF
        obtain ⟨l, hl⟩ := hall0 F (mem_of_getElem? hF)
        obtain ⟨F', hF', heq, _⟩ := hins k F l hF (hdet0 F l (mem_of_getElem? hF) hl)
        exact ⟨F', hF', by rw [heq]⟩
      have hids1 : (fs.set folder { T with first_entity := some e }).map (·.id) = fs.map (·.id) :=
        ids_set _ hT rfl
      have hback : ∀ F' ∈ fs.set folder { T with first_entity := some e },
          ∃ (k : Nat) (F : Folder) (l : List Nat), fs[k]? = some F ∧
            (fs.set folder { T with first_entity := some e })[k]? = some F' ∧
            F' = { F with first_entity := F'.first_entity } ∧
            MemberList ents3 F' (if k = folder then e :: l else l) := by
        intro F' hF'
        obtain ⟨k, hk⟩ := List.mem_iff_getElem?.1 hF'
        have hkl : k < fs.length := by
          have := (List.getElem?_eq_some.1 hk).1; simpa using this
        obtain ⟨l, hl⟩ := hall0 _ (List.getElem_mem hkl)
        obtain ⟨F'', h1, h2, h3⟩ := hins k _ l (List.getElem?_eq_getElem hkl)
          (hdet0 _ l (List.getElem_mem hkl) hl)
        rw [hk] at h1; cases h1
        exact ⟨k, _, l, List.getElem?_eq_getElem hkl, hk, h2, h3⟩
      obtain ⟨ents', fs', hrun, hlen', hlists'⟩ := @ih ents3
        (fs.set folder { T with first_entity := some e })
        (by rw [hids1]; exact hnd)
        (fun F' hF' => by
          obtain ⟨k, F, _, hF, _, heq, _⟩ := hback F' hF'
          rw [heq]; exact hno F (mem_of_getElem? hF))
        (fun F' hF' => by
          obtain ⟨k, F, l, _, _, _, hm⟩ := hback F' hF'
          exact ⟨_, hm⟩)
        (by simpa using hfolder) hrest_nd
        (fun e' he' r hr => by
          have hne : e' ≠ e := fun h => he_rest (h ▸ he')
          have hgrow : ∀ y, (grow INVALID_FOLDER ents e)[e']? = some y →
              y.folder = INVALID_FOLDER ∧ y.prev = INVALID_ENTITY := by
            intro y hy
            rw [grow_getElem?] at hy
            by_cases hlt : e' < ents.length
            · rw [if_pos hlt] at hy
              exact hunset e' (List.mem_cons_of_mem _ he') y hy
            · rw [if_neg hlt] at hy
              split at hy
              · cases hy; exact ⟨rfl, rfl⟩
              · cases hy
          have hfe : T.first_entity ≠ some e' := by
            intro h
            obtain ⟨_, y, hy, hyf⟩ :=
              ((hdet0 T lT (mem_of_getElem? hT) hlT).2.2 e').1 (hhead e' h)
            exact hno T (mem_of_getElem? hT) (hyf.symm.trans (hgrow y hy).1)
          rw [hpt e', if_neg hne, if_neg hfe] at hr
          exact hgrow r hr)
      refine ⟨ents', fs', hstep.trans hrun, by simpa using hlen', ?_⟩
      intro k F l hF hl
      obtain ⟨F1, hF1, hF1eq, hm1⟩ := hins k F l hF
        (hdet0 F l (mem_of_getElem? hF) (hl.grow e (hno F (mem_of_getElem? hF))))
      obtain ⟨F', hF', hF'eq, hm'⟩ := hlists' k F1 _ hF1 hm1
      refine ⟨F', hF', by rw [hF'eq, hF1eq], ?_⟩
      by_cases hk : k = folder
      · simp only [hk, if_true] at hm' ⊢
        simpa [List.reverse_cons, List.append_assoc] using hm'
      · simpa [hk] using hm'

theorem Blob.readI32_drop {blob : Blob} {off : Nat} (h : off + 4 ≤ blob.length) :
    Blob.readI32 (blob.drop off) = some (blobI32 blob off, blob.drop (off + 4)) := by
  have h4 : 4 ≤ (blob.drop off).length := by rw [List.length_drop]; omega
  simp [Blob.readI32, Blob.readU32_eq h4, blobI32, List.drop_drop, Nat.add_comm]

theorem Blob.skip_drop {blob : Blob} {off n : Nat} (h : off + n ≤ blob.length) :
    Blob.skip n (blob.drop off) = some (blob.drop (off + n)) := by
  have hn : n ≤ (blob.drop off).length := by rw [List.length_drop]; omega
  simp only [Blob.skip, hn, if_true, List.drop_drop, Nat.add_comm]

theorem byteCount_natCast {n : Nat} (h : n < 2147483648) : byteCount (n : Int) = some n := by
  have h' : (n : Int) < 2147483648 := by exact_mod_cast h
  simp [byteCount, h']

/-- The legacy branch once the header of the blob is read: `count` and `size`
are the two `i32` values; the bytes between them and the eight bytes after
them are skipped. -/
theorem deserializeLegacy_eq (INVALID_FOLDER : FolderID) (defaultPartition : PartitionHandle)
    (defaultId : FolderID) (s : EntityFolders) (rand : List FolderID) (blob : Blob)
    (entity_map : EntityMap) (additive : Bool) (count size : Nat)
    (hcount : blobI32 blob 0 = count) (hc12 : count * 12 < 2147483648)
    (hsize : blobI32 blob (4 + 12 * count) = size) (hs31 : size < 2147483648)
    (hlen : 4 + 12 * count + 4 + size + 8 ≤ blob.length)
    {folder : Nat} {fs fs' : List Folder} {rand1 : List FolderID} {ents : List Entity}
    (hmode : (if additive then
        (generateUniqueID (s.m_folders ++ [{ Folder.emplaced INVALID_FOLDER defaultPartition with
          id := defaultId }]) rand).bind (fun r =>
            ((s.m_folders ++ [{ Folder.emplaced INVALID_FOLDER defaultPartition with
              id := defaultId }])[s.m_folders.length]?).bind (fun N =>
              some (s.m_folders.length,
                (s.m_folders ++ [{ Folder.emplaced INVALID_FOLDER defaultPartition with
                  id := defaultId }]).set s.m_folders.length
                  { N with id := r.1, partition := s.m_world.active_partition, name := "root" },
                r.2)))
      else if s.m_folders.length = 1 then some (0, s.m_folders, rand) else none) =
        some (folder, fs, rand1))
    (hins : legacyInsert INVALID_FOLDER folder entity_map.m_map s.m_entities fs = some (ents, fs')) :
    deserializeLegacy INVALID_FOLDER defaultPartition defaultId s rand blob entity_map additive =
      some ({ s with m_entities := ents, m_folders := fs' },
        blob.drop (4 + 12 * count + 4 + size + 8), rand1) := by
  have h0 : Blob.readI32 blob = some ((count : Int), blob.drop 4) := by
    have := @Blob.readI32_drop blob 0 (by omega)
    simpa [hcount] using this
  have h1 : byteCount ((count : Int) * 12) = some (12 * count) := by
    have : ((count : Int) * 12) = ((12 * count : Nat) : Int) := by push_cast; ring
    rw [this]; exact byteCount_natCast (by omega)
  have h2 : Blob.skip (12 * count) (blob.drop 4) = some (blob.drop (4 + 12 * count)) :=
    Blob.skip_drop (by omega)
  have h3 : Blob.readI32 (blob.drop (4 + 12 * count)) =
      some ((size : Int), blob.drop (4 + 12 * count + 4)) := by
    have := @Blob.readI32_drop blob (4 + 12 * count) (by omega)
    simpa [hsize] using this
  have h4 : byteCount (size : Int) = some size := byteCount_natCast hs31
  have h5 : Blob.skip size (blob.drop (4 + 12 * count + 4)) =
      some (blob.drop (4 + 12 * count + 4 + size)) := Blob.skip_drop (by omega)
  have h6 : Blob.skip 8 (blob.drop (4 + 12 * count + 4 + size)) =
      some (blob.drop (4 + 12 * count + 4 + size + 8)) := Blob.skip_drop (by omega)
  unfold deserializeLegacy
  simp only [Option.bind_eq_bind, Option.bind_eq_some, Option.pure_def, Option.some.injEq,
    Prod.exists, Prod.mk.injEq]
  refine ⟨_, _, h0, _, h1, _, h2, _, _, h3, _, h4, _, h5, _, h6, folder, fs, rand1, ?_,
    ents, fs', hins, rfl, rfl, rfl⟩
  rw [← hmode]

/-- The legacy loop, as a change of the table: only the record at position
`folder` changes, and only in its `first_entity`. -/
theorem legacyInsert_table {INVALID_FOLDER : FolderID} {folder : Nat} (m : List EntityPtr)
    {ents : List Entity} {fs : List Folder} {T : Folder} (hnd : (fs.map (·.id)).Nodup)
    (hid : ∀ F ∈ fs, F.id ≠ INVALID_FOLDER) (hml : ∀ F ∈ fs, ∃ l, MemberList ents F l)
    (hT : fs[folder]? = some T) (hm : m.reduceOption.Nodup)
    (hun : ∀ e ∈ m.reduceOption, ∀ r, ents[e]? = some r →
      r.folder = INVALID_FOLDER ∧ r.prev = INVALID_ENTITY) :
    ∃ (ents' : List Entity) (fs' : List Folder) (T' : Folder),
      legacyInsert INVALID_FOLDER folder m ents fs = some (ents', fs') ∧
      fs' = fs.set folder T' ∧ T' = { T with first_entity := T'.first_entity } ∧
      (∀ l, MemberList ents T l → MemberList ents' T' (m.reduceOption.reverse ++ l)) ∧
      (∀ (k : Nat) (F : Folder) (l : List Nat), k ≠ folder → fs[k]? = some F →
        MemberList ents F l → MemberList ents' F l) := by
  have hlt : folder < fs.length := by
    by_contra hge
    rw [List.getElem?_eq_none (Nat.le_of_not_lt hge)] at hT
    exact Option.noConfusion hT
  obtain ⟨ents', fs', hrun, hlen, hspec⟩ := legacyInsert_spec m hnd hid hml hlt hm hun
  obtain ⟨lT, hlT⟩ := hml T (mem_of_getElem? hT)
  obtain ⟨T', hT', hsk, hmlT⟩ := hspec folder T lT hT hlT
  have hother : ∀ (k : Nat) (F : Folder) (l : List Nat), k ≠ folder → fs[k]? = some F →
      MemberList ents F l → fs'[k]? = some F ∧ MemberList ents' F l := by
    intro k F l hk hF hl
    obtain ⟨F', hF', hskF, hmlF⟩ := hspec k F l hF hl
    rw [if_neg hk] at hmlF
    have hfe : F'.first_entity = F.first_entity := by
      rw [Chain.head hmlF.1, Chain.head hl.1]
    have hFF : F' = F := by
      rw [hskF, hfe]
    rw [hFF] at hF' hmlF
    exact ⟨hF', hmlF⟩
  refine ⟨ents', fs', T', hrun, ?_, hsk, ?_, fun k F l hk hF hl => (hother k F l hk hF hl).2⟩
  · apply List.ext_getElem?
    intro k
    by_cases hk : k = folder
    · subst hk
      rw [hT', List.getElem?_set_self hlt]
    · rw [List.getElem?_set_ne (Ne.symm hk)]
      cases hF : fs[k]? with
      | none =>
        rw [List.getElem?_eq_none_iff] at hF ⊢
        omega
      | some F =>
        obtain ⟨l, hl⟩ := hml F (mem_of_getElem? hF)
        exact (hother k F l hk hF hl).1
  · intro l hl
    obtain ⟨T2, hT2, _, hml2⟩ := hspec folder T l hT hl
    rw [hT'] at hT2
    cases hT2
    simpa using hml2

theorem mem_unique {fs : List Folder} (hnd : (fs.map (·.id)).Nodup) {X Y : Folder}
    (hX : X ∈ fs) (hY : Y ∈ fs) (h : X.id = Y.id) : X = Y := by
  obtain ⟨j, hj⟩ := List.mem_iff_getElem?.1 hX
  obtain ⟨k, hk⟩ := List.mem_iff_getElem?.1 hY
  have := eq_of_id_eq hnd hj hk h
  subst this
  rw [hj] at hk
  exact Option.some.inj hk

theorem mem_destroyed {F G' : Folder} {fs : List Folder} :
    G' ∈ destroyed F fs ↔ ∃ G ∈ fs, G.id ≠ F.id ∧ G' = bypass F G := by
  unfold destroyed eraseItems
  simp only [List.mem_filter, List.mem_map, decide_eq_true_eq]
  constructor
  · rintro ⟨⟨G, hG, rfl⟩, hne⟩
    exact ⟨G, hG, hne, rfl⟩
  · rintro ⟨G, hG, hne, rfl⟩
    exact ⟨⟨G, hG, rfl⟩, hne⟩

theorem FChain.ne_invalid {INVALID_FOLDER : FolderID} {fs : List Folder} :
    ∀ {l : List FolderID} {p c : FolderID}, FChain INVALID_FOLDER fs p c l →
      ∀ x ∈ l, x ≠ INVALID_FOLDER
  | [], _, _, _, _, hx => absurd hx (List.not_mem_nil _)
  | _ :: _, _, _, ⟨_, hne, _, _, _, _, hrest⟩, x, hx => by
    rcases List.mem_cons.1 hx with rfl | hx
    · exact hne
    · exact FChain.ne_invalid hrest x hx

theorem FChain.head_eq {INVALID_FOLDER : FolderID} {fs : List Folder} {p c : FolderID}
    {l : List FolderID} (h : FChain INVALID_FOLDER fs p c l) :
    c = l.head?.getD INVALID_FOLDER := by
  cases l with
  | nil => exact h
  | cons e rest => exact h.1

/-- Records that are neither `F` nor one of its two neighbours keep their
links, so a chain made of them is still a chain. -/
theorem FChain.untouched {INVALID_FOLDER : FolderID} {fs : List Folder} {F : Folder} :
    ∀ {l : List FolderID} {p c : FolderID}, FChain INVALID_FOLDER fs p c l →
      (∀ x ∈ l, x ≠ F.id ∧ x ≠ F.prev ∧ x ≠ F.next) →
      FChain INVALID_FOLDER (destroyed F fs) p c l
  | [], _, _, h, _ => h
  | x :: rest, _, _, ⟨hc, hne, X, hX, hid, hp, hrest⟩, hl => by
    obtain ⟨h1, h2, h3⟩ := hl x (List.mem_cons_self _ _)
    refine ⟨hc, hne, bypass F X, mem_destroyed.2 ⟨X, hX, by rw [hid]; exact h1, rfl⟩, hid, ?_, ?_⟩
    · simp only [bypass, hid, h3, if_false, hp]
    · have : (bypass F X).next = X.next := by simp only [bypass, hid, h2, if_false]
      rw [this]
      exact FChain.untouched hrest (fun y hy => hl y (List.mem_cons_of_mem _ hy))

/-- The links of a record whose id is in a chain: `next` is the end of the
chain or a later id, `prev` is the `prev` of the chain for its head and an
earlier id otherwise. -/
theorem FChain.links {INVALID_FOLDER : FolderID} {fs : List Folder}
    (hnd : (fs.map (·.id)).Nodup) {X : Folder} (hX : X ∈ fs) :
    ∀ {l : List FolderID} {p c : FolderID}, FChain INVALID_FOLDER fs p c l → l.Nodup →
      X.id ∈ l →
      (X.next = INVALID_FOLDER ∨ (X.next ∈ l ∧ X.next ≠ X.id)) ∧
        (c = X.id → X.prev = p) ∧ (c ≠ X.id → X.prev ∈ l ∧ X.prev ≠ X.id)
  | [], _, _, _, _, hx => absurd hx (List.not_mem_nil _)
  | x :: rest, p, c, ⟨hc, hne, Y, hY, hid, hp, hrest⟩, hl, hx => by
    have hxr : x ∉ rest := (List.nodup_cons.1 hl).1
    by_cases hxX : x = X.id
    · have hYX : Y = X := mem_unique hnd hY hX (hid.trans hxX)
      subst hYX
      refine ⟨?_, fun _ => hp, fun h => absurd (hc.trans hxX) h⟩
      cases rest with
      | nil => exact Or.inl hrest
      | cons y r2 =>
        right
        rw [hrest.1]
        refine ⟨List.mem_cons_of_mem _ (List.mem_cons_self _ _), ?_⟩
        intro hy
        exact hxr (by rw [hxX, ← hy]; exact List.mem_cons_self _ _)
    · have hxm : X.id ∈ rest := by
        rcases List.mem_cons.1 hx with h | h
        · exact absurd h.symm hxX
        · exact h
      obtain ⟨h1, h2, h3⟩ := FChain.links hnd hX hrest (List.nodup_cons.1 hl).2 hxm
      refine ⟨?_, fun h => absurd (hc.symm.trans h) hxX, fun _ => ?_⟩
      · rcases h1 with h1 | ⟨h1, h1'⟩
        · exact Or.inl h1
        · exact Or.inr ⟨List.mem_cons_of_mem _ h1, h1'⟩
      · by_cases hn : Y.next = X.id
        · rw [h2 hn]
          exact ⟨List.mem_cons_self _ _, hxX⟩
        · exact ⟨List.mem_cons_of_mem _ (h3 hn).1, (h3 hn).2⟩

/-- The part of a chain after `F` is, once `F` is bypassed, a chain that
starts from the predecessor of `F`. -/
theorem FChain.skip {INVALID_FOLDER : FolderID} {fs : List Folder} {F : Folder}
    {rest : List FolderID} (h : FChain INVALID_FOLDER fs F.id F.next rest)
    (hF : F.id ∉ rest) (hp : F.prev ∉ rest) (hnd : rest.Nodup) :
    FChain INVALID_FOLDER (destroyed F fs) F.prev F.next rest := by
  cases rest with
  | nil => exact h
  | cons y r2 =>
    obtain ⟨hc, hne, Y, hY, hid, hpY, hrest⟩ := h
    have hyF : y ≠ F.id := fun h => hF (by rw [h]; exact List.mem_cons_self _ _)
    have hyp : y ≠ F.prev := fun h => hp (by rw [← h]; exact List.mem_cons_self _ _)
    refine ⟨hc, hne, bypass F Y, mem_destroyed.2 ⟨Y, hY, by rw [hid]; exact hyF, rfl⟩, hid, ?_, ?_⟩
    · simp only [bypass, hid, hc, if_true]
    · have : (bypass F Y).next = Y.next := by simp only [bypass, hid, hyp, if_false]
      rw [this]
      refine FChain.untouched hrest (fun z hz => ⟨?_, ?_, ?_⟩)
      · exact fun h => hF (by rw [← h]; exact List.mem_cons_of_mem _ hz)
      · exact fun h => hp (by rw [← h]; exact List.mem_cons_of_mem _ hz)
      · rw [hc]
        exact fun h => (List.nodup_cons.1 hnd).1 (by rw [← h]; exact hz)

/-- Bypassing `F` takes it out of the chain it is in and keeps the order of
the others. -/
theorem FChain.without {INVALID_FOLDER : FolderID} {fs : List Folder}
    (hnd : (fs.map (·.id)).Nodup) {F : Folder} (hF : F ∈ fs) :
    ∀ {l : List FolderID} {p c : FolderID}, FChain INVALID_FOLDER fs p c l → l.Nodup →
      p ∉ l → F.id ∈ l →
      FChain INVALID_FOLDER (destroyed F fs) p (if c = F.id then F.next else c) (l.erase F.id)
  | [], _, _, _, _, _, hx => absurd hx (List.not_mem_nil _)
  | x :: rest, p, c, h, hl, hpl, hx => by
    obtain ⟨hc, hne, Y, hY, hid, hp, hrest⟩ := h
    have hxr : x ∉ rest := (List.nodup_cons.1 hl).1
    have hrnd : rest.Nodup := (List.nodup_cons.1 hl).2
    by_cases hxF : x = F.id
    · have hYF : Y = F := mem_unique hnd hY hF (hid.trans hxF)
      subst hYF
      rw [if_pos (hc.trans hxF), hxF, List.erase_cons_head, ← hp]
      refine FChain.skip (by rw [hid]; exact hrest) (by rw [← hxF]; exact hxr) ?_ hrnd
      rw [hp]
      exact fun h => hpl (List.mem_cons_of_mem _ h)
    · have hxm : F.id ∈ rest := by
        rcases List.mem_cons.1 hx with h | h
        · exact absurd h.symm hxF
        · exact h
      have hrl := FChain.links hnd hF hrest hrnd hxm
      rw [if_neg (by rw [hc]; exact hxF), hc, List.erase_cons_tail (by simpa using hxF)]
      refine ⟨rfl, hne, bypass F Y, mem_destroyed.2 ⟨Y, hY, by rw [hid]; exact hxF, rfl⟩, hid,
        ?_, ?_⟩
      · have hxn : x ≠ F.next := by
          rcases hrl.1 with h | ⟨h, _⟩
          · rw [h]; exact hne
          · exact fun h' => hxr (by rw [h']; exact h)
        simp only [bypass, hid, hxn, if_false, hp]
      · have hnext : (bypass F Y).next = if Y.next = F.id then F.next else Y.next := by
          by_cases hn : Y.next = F.id
          · simp only [bypass, hid, hrl.2.1 hn, if_true, hn]
          · have : x ≠ F.prev := fun h' => hxr (by rw [h']; exact (hrl.2.2 hn).1)
            simp only [bypass, hid, this, if_false, hn]
        rw [hnext]
        exact FChain.without hnd hF hrest hrnd hxr hxm

/-- In a forest every folder with a parent is in the sibling list of that
parent. -/
theorem Forest.in_list {INVALID_FOLDER : FolderID} {fs : List Folder}
    (h : Forest INVALID_FOLDER fs) {G : Folder} (hG : G ∈ fs)
    (hp : G.parent ≠ INVALID_FOLDER) :
    ∃ P ∈ fs, ∃ l, P.id = G.parent ∧ SiblingList INVALID_FOLDER fs P l ∧ G.id ∈ l := by
  obtain ⟨P, hP, hid⟩ := h.2.2 G hG hp
  obtain ⟨l, hl⟩ := h.1.2 P hP
  exact ⟨P, hP, l, hid, hl, (hl.2.2 G.id).2 ⟨G, hG, rfl, hid.symm⟩⟩

/-- No folder of a forest has the sentinel id. -/
theorem Forest.no_sentinel {INVALID_FOLDER : FolderID} {fs : List Folder}
    (h : Forest INVALID_FOLDER fs) {G : Folder} (hG : G ∈ fs) : G.id ≠ INVALID_FOLDER := by
  intro hid
  by_cases hp : G.parent = INVALID_FOLDER
  · obtain ⟨l, hl⟩ := h.1.2 G hG
    exact FChain.ne_invalid hl.1 G.id ((hl.2.2 G.id).2 ⟨G, hG, rfl, hp.trans hid.symm⟩) hid
  · obtain ⟨P, _, l, _, hl, hmem⟩ := h.in_list hG hp
    exact FChain.ne_invalid hl.1 G.id hmem hid

/-- A folder without children has nobody naming it as parent. -/
theorem SiblingList.no_child {INVALID_FOLDER : FolderID} {fs : List Folder} {F : Folder}
    {l : List FolderID} (h : SiblingList INVALID_FOLDER fs F l)
    (hc : F.first_child = INVALID_FOLDER) {G : Folder} (hG : G ∈ fs) : G.parent ≠ F.id := by
  intro hp
  have hmem : G.id ∈ l := (h.2.2 G.id).2 ⟨G, hG, rfl, hp⟩
  have hch := h.1
  cases l with
  | nil => exact absurd hmem (List.not_mem_nil _)
  | cons x rest => exact hch.2.1 (hch.1.symm.trans hc)

/-- The neighbours of a folder in a sibling list are the sentinel or
children of the same parent. -/
theorem Forest.neighbours {INVALID_FOLDER : FolderID} {fs : List Folder}
    (h : Forest INVALID_FOLDER fs) {F : Folder} (hF : F ∈ fs)
    (hp : F.parent ≠ INVALID_FOLDER) :
    (F.next = INVALID_FOLDER ∨
      (F.next ≠ F.id ∧ ∃ Y ∈ fs, Y.id = F.next ∧ Y.parent = F.parent)) ∧
    (F.prev = INVALID_FOLDER ∨
      (F.prev ≠ F.id ∧ ∃ Y ∈ fs, Y.id = F.prev ∧ Y.parent = F.parent)) := by
  obtain ⟨P, _, l, hid, hl, hmem⟩ := h.in_list hF hp
  obtain ⟨h1, h2, h3⟩ := FChain.links h.1.1 hF hl.1 hl.2.1 hmem
  constructor
  · rcases h1 with h1 | ⟨h1, h1'⟩
    · exact Or.inl h1
    · obtain ⟨Y, hY, hYid, hYp⟩ := (hl.2.2 _).1 h1
      exact Or.inr ⟨h1', Y, hY, hYid, hYp.trans hid⟩
  · by_cases hc : P.first_child = F.id
    · exact Or.inl (h2 hc)
    · obtain ⟨h3, h3'⟩ := h3 hc
      obtain ⟨Y, hY, hYid, hYp⟩ := (hl.2.2 _).1 h3
      exact Or.inr ⟨h3', Y, hY, hYid, hYp.trans hid⟩

/-- After `destroyFolder` of `F` the sibling list of its parent is the old
list without `F`. -/
theorem SiblingList.of_parent {INVALID_FOLDER : FolderID} {fs : List Folder}
    (hnd : (fs.map (·.id)).Nodup) {F : Folder} (hF : F ∈ fs) {P : Folder}
    (hP : P.id = F.parent) {l : List FolderID} (h : SiblingList INVALID_FOLDER fs P l) :
    SiblingList INVALID_FOLDER (destroyed F fs) (bypass F P) (l.erase F.id) := by
  have hmem : F.id ∈ l := (h.2.2 F.id).2 ⟨F, hF, rfl, hP.symm⟩
  have hinv : INVALID_FOLDER ∉ l := fun hx => FChain.ne_invalid h.1 _ hx rfl
  refine ⟨?_, h.2.1.erase _, fun x => ?_⟩
  · have := FChain.without hnd hF h.1 h.2.1 hinv hmem
    have hfc : (bypass F P).first_child =
        if P.first_child = F.id then F.next else P.first_child := by
      simp only [bypass, hP, true_and]
    rw [hfc]
    exact this
  · rw [List.Nodup.mem_erase_iff h.2.1]
    constructor
    · rintro ⟨hne, hx⟩
      obtain ⟨X, hX, hid, hp⟩ := (h.2.2 x).1 hx
      exact ⟨bypass F X, mem_destroyed.2 ⟨X, hX, by rw [hid]; exact hne, rfl⟩, hid, hp⟩
    · rintro ⟨X', hX', hid, hp⟩
      obtain ⟨X, hX, hne, rfl⟩ := mem_destroyed.1 hX'
      exact ⟨by rw [← hid]; exact hne, (h.2.2 x).2 ⟨X, hX, hid, hp⟩⟩

/-- After `destroyFolder` of `F` the sibling lists of the folders other than
its parent are as before. -/
theorem SiblingList.of_other {INVALID_FOLDER : FolderID} {fs : List Folder}
    (hs : Forest INVALID_FOLDER fs) {F : Folder} (hF : F ∈ fs)
    (hp : F.parent ≠ INVALID_FOLDER) {G : Folder} (hG : G.id ≠ F.parent)
    {l : List FolderID} (h : SiblingList INVALID_FOLDER fs G l) :
    SiblingList INVALID_FOLDER (destroyed F fs) (bypass F G) l := by
  have hnd := hs.1.1
  obtain ⟨hnext, hprev⟩ := hs.neighbours hF hp
  have hne : ∀ x ∈ l, x ≠ F.id ∧ x ≠ F.prev ∧ x ≠ F.next := by
    intro x hx
    obtain ⟨X, hX, hid, hXp⟩ := (h.2.2 x).1 hx
    have hxi := FChain.ne_invalid h.1 x hx
    refine ⟨?_, ?_, ?_⟩
    · intro hxF
      have : X = F := mem_unique hnd hX hF (hid.trans hxF)
      exact hG (by rw [← hXp, this])
    · intro hxF
      rcases hprev with h0 | ⟨_, Y, hY, hYid, hYp⟩
      · exact hxi (hxF.trans h0)
      · have : X = Y := mem_unique hnd hX hY (hid.trans (hxF.trans hYid.symm))
        exact hG (by rw [← hXp, this, hYp])
    · intro hxF
      rcases hnext with h0 | ⟨_, Y, hY, hYid, hYp⟩
      · exact hxi (hxF.trans h0)
      · have : X = Y := mem_unique hnd hX hY (hid.trans (hxF.trans hYid.symm))
        exact hG (by rw [← hXp, this, hYp])
  refine ⟨?_, h.2.1, fun x => ?_⟩
  · have hfc : (bypass F G).first_child = G.first_child := by
      simp only [bypass, hG, false_and, if_false]
    rw [hfc]
    exact FChain.untouched h.1 hne
  · constructor
    · intro hx
      obtain ⟨X, hX, hid, hXp⟩ := (h.2.2 x).1 hx
      exact ⟨bypass F X, mem_destroyed.2 ⟨X, hX, by rw [hid]; exact (hne x hx).1, rfl⟩, hid, hXp⟩
    · rintro ⟨X', hX', hid, hXp⟩
      obtain ⟨X, hX, _, rfl⟩ := mem_destroyed.1 hX'
      exact (h.2.2 x).2 ⟨X, hX, hid, hXp⟩

theorem destroyed_ids (F : Folder) (fs : List Folder) :
    (destroyed F fs).map (·.id) = (fs.map (·.id)).filter (fun x => x ≠ F.id) := by
  unfold destroyed eraseItems
  induction fs with
  | nil => rfl
  | cons X fs ih =>
    simp at ih
    by_cases hX : X.id = F.id
    · simp [List.filter_cons, bypass, hX, ih]
    · simp [List.filter_cons, bypass, hX, ih]

/-- The forest is preserved by `destroyFolder` of a folder without
children. -/
theorem Forest.destroyed {INVALID_FOLDER : FolderID} {fs : List Folder}
    (hs : Forest INVALID_FOLDER fs) {F : Folder} (hF : F ∈ fs)
    (hc : F.first_child = INVALID_FOLDER) (hp : F.parent ≠ INVALID_FOLDER) :
    Forest INVALID_FOLDER (Lumix.destroyed F fs) := by
  have hnd := hs.1.1
  obtain ⟨hnext, hprev⟩ := hs.neighbours hF hp
  obtain ⟨lF, hlF⟩ := hs.1.2 F hF
  refine ⟨⟨?_, ?_⟩, ?_, ?_⟩
  · rw [destroyed_ids]
    exact hnd.filter _
  · intro G' hG'
    obtain ⟨G, hG, hne, rfl⟩ := mem_destroyed.1 hG'
    obtain ⟨l, hl⟩ := hs.1.2 G hG
    by_cases hGP : G.id = F.parent
    · exact ⟨_, SiblingList.of_parent hnd hF hGP hl⟩
    · exact ⟨_, SiblingList.of_other hs hF hp hGP hl⟩
  · intro G' hG' hroot
    obtain ⟨G, hG, hne, rfl⟩ := mem_destroyed.1 hG'
    have hroot' : G.parent = INVALID_FOLDER := hroot
    obtain ⟨h1, h2⟩ := hs.2.1 G hG hroot'
    have hGi := hs.no_sentinel hG
    have hn1 : G.id ≠ F.prev := by
      intro h
      rcases hprev with h0 | ⟨_, Y, hY, hYid, hYp⟩
      · exact hGi (h.trans h0)
      · have : G = Y := mem_unique hnd hG hY (h.trans hYid.symm)
        exact hp (by rw [← hYp, ← this, hroot'])
    have hn2 : G.id ≠ F.next := by
      intro h
      rcases hnext with h0 | ⟨_, Y, hY, hYid, hYp⟩
      · exact hGi (h.trans h0)
      · have : G = Y := mem_unique hnd hG hY (h.trans hYid.symm)
        exact hp (by rw [← hYp, ← this, hroot'])
    constructor
    · simp only [bypass, hn1, if_false, h1]
    · simp only [bypass, hn2, if_false, h2]
  · intro G' hG' hnroot
    obtain ⟨G, hG, hne, rfl⟩ := mem_destroyed.1 hG'
    have hnroot' : G.parent ≠ INVALID_FOLDER := hnroot
    obtain ⟨P, hP, hid⟩ := hs.2.2 G hG hnroot'
    refine ⟨bypass F P, mem_destroyed.2 ⟨P, hP, ?_, rfl⟩, hid⟩
    rw [hid]
    exact hlF.no_child hc hG

/-- In a forest no folder refers to an id that no folder of the table has. -/
theorem Forest.no_ref {INVALID_FOLDER : FolderID} {fs : List Folder}
    (hs : Forest INVALID_FOLDER fs) {f : FolderID} (hf : f ≠ INVALID_FOLDER)
    (habs : ∀ G ∈ fs, G.id ≠ f) {G : Folder} (hG : G ∈ fs) :
    G.first_child ≠ f ∧ G.next ≠ f ∧ G.prev ≠ f := by
  have hlist : ∀ (P : Folder) (l : List FolderID), SiblingList INVALID_FOLDER fs P l → f ∉ l := by
    intro P l hl hmem
    obtain ⟨X, hX, hid, _⟩ := (hl.2.2 f).1 hmem
    exact habs X hX hid
  refine ⟨?_, ?_⟩
  · obtain ⟨l, hl⟩ := hs.1.2 G hG
    intro hfc
    have hh := FChain.head_eq hl.1
    cases l with
    | nil => exact hf (hfc.symm.trans hh)
    | cons x rest =>
      exact hlist G _ hl (by rw [← hfc, hh]; exact List.mem_cons_self _ _)
  · by_cases hp : G.parent = INVALID_FOLDER
    · obtain ⟨h1, h2⟩ := hs.2.1 G hG hp
      exact ⟨fun h => hf (h.symm.trans h1), fun h => hf (h.symm.trans h2)⟩
    · obtain ⟨P, hP, l, hid, hl, hmem⟩ := hs.in_list hG hp
      obtain ⟨h1, h2, h3⟩ := FChain.links hs.1.1 hG hl.1 hl.2.1 hmem
      constructor
      · intro h
        rcases h1 with h1 | ⟨h1, _⟩
        · exact hf (h.symm.trans h1)
        · exact hlist P l hl (by rw [← h]; exact h1)
      · intro h
        by_cases hc : P.first_child = G.id
        · exact hf (h.symm.trans (h2 hc))
        · exact hlist P l hl (by rw [← h]; exact (h3 hc).1)

theorem getFolder_map (g : Folder → Folder) (hg : ∀ Y, (g Y).id = Y.id) (fs : List Folder)
    (id : FolderID) : getFolder (fs.map g) id = getFolder fs id := by
  induction fs with
  | nil => rfl
  | cons X fs ih => simp only [List.map_cons, getFolder, hg, ih]

theorem getFolder_index {fs : List Folder} (hnd : (fs.map (·.id)).Nodup) {X : Folder}
    (hX : X ∈ fs) : ∃ k, getFolder fs X.id = some k ∧ fs[k]? = some X := by
  obtain ⟨k, hk⟩ := getFolder_of_mem hX
  obtain ⟨Y, hY, hid⟩ := getFolder_some hk
  have : Y = X := mem_unique hnd (mem_of_getElem? hY) hX hid
  exact ⟨k, hk, by rw [← this]; exact hY⟩

theorem set_eq_map {fs : List Folder} (hnd : (fs.map (·.id)).Nodup) {k : Nat} {X : Folder}
    (hX : fs[k]? = some X) (u : Folder → Folder) :
    fs.set k (u X) = fs.map (fun Z => if Z.id = X.id then u Z else Z) := by
  apply List.ext_getElem?
  intro j
  rw [List.getElem?_set, List.getElem?_map]
  by_cases hj : k = j
  · subst hj
    have := (List.getElem?_eq_some.1 hX).1
    simp [this, hX]
  · rw [if_neg hj]
    cases hZ : fs[j]? with
    | none => rfl
    | some Z =>
      have : Z.id ≠ X.id := fun h => hj (eq_of_id_eq hnd hX hZ h.symm)
      simp [this]

/-- One link assignment of `destroyFolder` (line 110 or 111): the record with
id `a`, if `a` is not the sentinel, is changed by `u`. -/
theorem link_step {INVALID_FOLDER : FolderID} {t : List Folder}
    (hnd : (t.map (·.id)).Nodup) (hns : ∀ Y ∈ t, Y.id ≠ INVALID_FOLDER) {a : FolderID}
    (ha : ¬ a = INVALID_FOLDER → ∃ Y ∈ t, Y.id = a) (u : Folder → Folder) :
    (if ¬ a = INVALID_FOLDER then
      (getFolder t a).bind (fun q => (t[q]?).bind (fun Q => some (t.set q (u Q))))
    else some t) = some (t.map (fun Z => if Z.id = a then u Z else Z)) := by
  by_cases h : a = INVALID_FOLDER
  · rw [if_neg (not_not.2 h)]
    congr 1
    symm
    conv_rhs => rw [← List.map_id t]
    apply List.map_congr_left
    intro Z hZ
    have : Z.id ≠ a := by rw [h]; exact hns Z hZ
    simp [this]
  · rw [if_pos h]
    obtain ⟨Y, hY, hid⟩ := ha h
    obtain ⟨k, hk, hYk⟩ := getFolder_index hnd hY
    rw [hid] at hk
    rw [hk, Option.some_bind, hYk, Option.some_bind, set_eq_map hnd hYk, hid]

theorem map_ids {g : Folder → Folder} (hg : ∀ Z, (g Z).id = Z.id) (fs : List Folder) :
    (fs.map g).map (·.id) = fs.map (·.id) := by
  rw [List.map_map]
  exact List.map_congr_left (fun Z _ => hg Z)

/-- The three assignments of lines 109-111 and the removal of line 113, on a
forest: the table becomes `destroyed F`. -/
theorem destroyFolder_eq {INVALID_FOLDER : FolderID} {s : EntityFolders} {F : Folder}
    (hs : Forest INVALID_FOLDER s.m_folders) (hF : F ∈ s.m_folders)
    (he : F.first_entity = INVALID_ENTITY) (hc : F.first_child = INVALID_FOLDER)
    (hp : F.parent ≠ INVALID_FOLDER) :
    ∃ sel, destroyFolder INVALID_FOLDER s F.id =
      some { s with m_folders := destroyed F s.m_folders, m_selected_folder := sel } := by
  have hnd := hs.1.1
  have hns : ∀ Y ∈ s.m_folders, Y.id ≠ INVALID_FOLDER := fun Y hY => hs.no_sentinel hY
  obtain ⟨hnext, hprev⟩ := hs.neighbours hF hp
  have hFi := hs.no_sentinel hF
  obtain ⟨k, hk, hFk⟩ := getFolder_index hnd hF
  obtain ⟨P, hP, hPid⟩ := hs.2.2 F hF hp
  obtain ⟨p, hpk, hPp⟩ := getFolder_index hnd hP
  rw [hPid] at hpk
  obtain ⟨g1, hg1, h1⟩ : ∃ g1 : Folder → Folder,
      (∀ Z, g1 Z = { Z with first_child :=
        if Z.id = F.parent ∧ Z.first_child = F.id then F.next else Z.first_child }) ∧
      (if P.first_child = F.id then s.m_folders.set p { P with first_child := F.next }
        else s.m_folders) = s.m_folders.map g1 := by
    refine ⟨_, fun Z => rfl, ?_⟩
    by_cases hfc : P.first_child = F.id
    · rw [if_pos hfc, set_eq_map hnd hPp (fun Z => { Z with first_child := F.next })]
      apply List.map_congr_left
      intro Z hZ
      by_cases hZP : Z.id = P.id
      · have : Z = P := mem_unique hnd hZ hP hZP
        subst this
        simp [hPid, hfc]
      · have : Z.id ≠ F.parent := by rw [← hPid]; exact hZP
        simp [hZP, this]
    · rw [if_neg hfc]
      conv_lhs => rw [← List.map_id s.m_folders]
      apply List.map_congr_left
      intro Z hZ
      by_cases hZP : Z.id = P.id
      · have : Z = P := mem_unique hnd hZ hP hZP
        subst this
        simp [hfc]
      · have : Z.id ≠ F.parent := by rw [← hPid]; exact hZP
        simp [this]
  have hg1id : ∀ Z, (g1 Z).id = Z.id := fun Z => by rw [hg1]
  have hnd1 : ((s.m_folders.map g1).map (·.id)).Nodup := by rw [map_ids hg1id]; exact hnd
  have hns1 : ∀ Y ∈ s.m_folders.map g1, Y.id ≠ INVALID_FOLDER := by
    intro Y hY
    obtain ⟨Z, hZ, rfl⟩ := List.mem_map.1 hY
    rw [hg1id]
    exact hns Z hZ
  have hprev1 : ¬ F.prev = INVALID_FOLDER → ∃ Y ∈ s.m_folders.map g1, Y.id = F.prev := by
    intro h
    rcases hprev with h0 | ⟨_, Y, hY, hYid, _⟩
    · exact absurd h0 h
    · exact ⟨g1 Y, List.mem_map.2 ⟨Y, hY, rfl⟩, by rw [hg1id]; exact hYid⟩
  have h2 := link_step hnd1 hns1 hprev1 (fun Q => { Q with next := F.next })
  obtain ⟨g2, hg2, h2'⟩ : ∃ g2 : Folder → Folder,
      (∀ Z, g2 Z = if Z.id = F.prev then { Z with next := F.next } else Z) ∧
      (s.m_folders.map g1).map (fun Z => if Z.id = F.prev then { Z with next := F.next } else Z) =
        (s.m_folders.map g1).map g2 := ⟨_, fun Z => rfl, rfl⟩
  rw [h2'] at h2
  have hg2id : ∀ Z, (g2 Z).id = Z.id := fun Z => by rw [hg2]; split <;> rfl
  have hnd2 : (((s.m_folders.map g1).map g2).map (·.id)).Nodup := by rw [map_ids hg2id]; exact hnd1
  have hns2 : ∀ Y ∈ (s.m_folders.map g1).map g2, Y.id ≠ INVALID_FOLDER := by
    intro Y hY
    obtain ⟨Z, hZ, rfl⟩ := List.mem_map.1 hY
    rw [hg2id]
    exact hns1 Z hZ
  have hnext2 : ¬ F.next = INVALID_FOLDER → ∃ Y ∈ (s.m_folders.map g1).map g2, Y.id = F.next := by
    intro h
    rcases hnext with h0 | ⟨_, Y, hY, hYid, _⟩
    · exact absurd h0 h
    · exact ⟨g2 (g1 Y), List.mem_map.2 ⟨g1 Y, List.mem_map.2 ⟨Y, hY, rfl⟩, rfl⟩,
        by rw [hg2id, hg1id]; exact hYid⟩
  have h3 := link_step hnd2 hns2 hnext2 (fun N => { N with prev := F.prev })
  have hF1p : (g1 F).prev = F.prev := by rw [hg1]
  have hF1n : (g1 F).next = F.next := by rw [hg1]
  have hFprev : F.id ≠ F.prev := by
    rcases hprev with h0 | ⟨h0, _⟩
    · rw [h0]; exact hFi
    · exact fun h => h0 h.symm
  have hF2 : g2 (g1 F) = g1 F := by rw [hg2, hg1id, if_neg hFprev]
  have hfinal : ((s.m_folders.map g1).map g2).map
      (fun Z => if Z.id = F.next then { Z with prev := F.prev } else Z) =
        s.m_folders.map (bypass F) := by
    rw [List.map_map, List.map_map]
    apply List.map_congr_left
    intro Z _
    simp only [Function.comp, hg2, hg1, bypass]
    split_ifs <;> rfl
  rw [hfinal] at h3
  unfold destroyFolder
  simp only [Option.bind_eq_bind, Option.pure_def, hk, Option.some_bind, hFk, he, hc, hp, hpk, hPp,
    INVALID_ENTITY, Option.isSome_none, Bool.false_eq_true, if_false, ne_eq, not_true_eq_false]
  have hk1 : (s.m_folders.map g1)[k]? = some (g1 F) := by
    rw [List.getElem?_map, hFk]; rfl
  have hk2 : ((s.m_folders.map g1).map g2)[k]? = some (g1 F) := by
    rw [List.getElem?_map, hk1, Option.map_some', hF2]
  rw [h1]
  simp only [hk1, Option.some_bind, hF1p, hF1n]
  rw [h2]
  simp only [Option.some_bind, hk2, hF1p, hF1n]
  rw [h3]
  exact ⟨_, rfl⟩

theorem destroyed_length {fs : List Folder} (hnd : (fs.map (·.id)).Nodup) {F : Folder}
    (hF : F ∈ fs) : (destroyed F fs).length + 1 = fs.length := by
  have h1 : (destroyed F fs).length = ((fs.map (·.id)).erase F.id).length := by
    rw [List.Nodup.erase_eq_filter hnd, ← List.length_map (destroyed F fs) (·.id), destroyed_ids]
    congr 2
    funext x
    by_cases hx : x = F.id <;> simp [hx]
  have hmem : F.id ∈ fs.map (·.id) := List.mem_map.2 ⟨F, hF, rfl⟩
  have hpos : 0 < (fs.map (·.id)).length := List.length_pos_of_mem hmem
  rw [h1, List.length_erase_of_mem hmem]
  rw [List.length_map] at hpos ⊢
  omega

theorem siblingState_forest : Forest 0 siblingState.m_folders := by
  refine ⟨⟨by decide, ?_⟩, by decide, by decide⟩
  intro P hP
  simp only [siblingState, List.mem_cons, List.mem_singleton, List.not_mem_nil, or_false] at hP
  rcases hP with rfl | rfl | rfl | rfl
  · refine ⟨[7, 8, 9], ?_, by decide, ?_⟩
    · exact ⟨rfl, by decide, _, List.mem_cons_of_mem _ (List.mem_cons_of_mem _
        (List.mem_cons_of_mem _ (List.mem_cons_self _ _))), rfl, rfl,
        rfl, by decide, _, List.mem_cons_of_mem _ (List.mem_cons_of_mem _
          (List.mem_cons_self _ _)), rfl, rfl,
        rfl, by decide, _, List.mem_cons_of_mem _ (List.mem_cons_self _ _), rfl, rfl, rfl⟩
    · intro x
      simp only [siblingState, List.mem_cons, List.mem_singleton, List.not_mem_nil, or_false]
      constructor
      · intro hx
        rcases hx with rfl | rfl | rfl
        · exact ⟨_, Or.inr (Or.inr (Or.inr rfl)), rfl, rfl⟩
        · exact ⟨_, Or.inr (Or.inr (Or.inl rfl)), rfl, rfl⟩
        · exact ⟨_, Or.inr (Or.inl rfl), rfl, rfl⟩
      · rintro ⟨X, hX, rfl, hp⟩
        rcases hX with rfl | rfl | rfl | rfl
        · exact absurd hp (by decide)
        · exact Or.inr (Or.inr rfl)
        · exact Or.inr (Or.inl rfl)
        · exact Or.inl rfl
  · exact ⟨[], rfl, List.nodup_nil, fun x => by simp [siblingState]⟩
  · exact ⟨[], rfl, List.nodup_nil, fun x => by simp [siblingState]⟩
  · exact ⟨[], rfl, List.nodup_nil, fun x => by simp [siblingState]⟩

theorem getFolder_congr {fs fs' : List Folder} (h : fs'.map (·.id) = fs.map (·.id))
    (a : FolderID) : getFolder fs' a = getFolder fs a := by
  induction fs generalizing fs' with
  | nil =>
    cases fs' with
    | nil => rfl
    | cons X fs' => simp at h
  | cons Y fs ih =>
    cases fs' with
    | nil => simp at h
    | cons X fs' =>
      simp only [List.map_cons, List.cons.injEq] at h
      simp only [getFolder, h.1, ih h.2]

theorem getFolder_isSome_iff {fs : List Folder} {a : FolderID} :
    (getFolder fs a).isSome ↔ a ∈ fs.map (·.id) := by
  constructor
  · intro h
    obtain ⟨k, hk⟩ := Option.isSome_iff_exists.1 h
    obtain ⟨F, hF, hid⟩ := getFolder_some hk
    exact List.mem_map.2 ⟨F, mem_of_getElem? hF, hid⟩
  · intro h
    obtain ⟨F, hF, rfl⟩ := List.mem_map.1 h
    obtain ⟨k, hk⟩ := getFolder_of_mem hF
    rw [hk]; rfl

theorem map_set_same {α : Type} (g : Folder → α) {fs : List Folder} {k : Nat} {X : Folder}
    (Y : Folder) (hX : fs[k]? = some X) (hY : g Y = g X) : (fs.set k Y).map g = fs.map g := by
  apply List.ext_getElem?
  intro j
  rw [List.getElem?_map, List.getElem?_map, List.getElem?_set]
  by_cases hj : k = j
  · subst hj
    have := (List.getElem?_eq_some.1 hX).1
    simp [this, hX, hY]
  · simp [hj]

/-- A link assignment of `destroyFolder`, on any table: it completes when `a`
is the sentinel or the id of a folder; what `u` keeps of a record is kept in
the table, and every record is as before or changed by `u`. -/
theorem link_step_some {INVALID_FOLDER : FolderID} (t : List Folder) (a : FolderID)
    (u : Folder → Folder) (ha : a = INVALID_FOLDER ∨ a ∈ t.map (·.id)) :
    ∃ t', (if ¬ a = INVALID_FOLDER then
        (getFolder t a).bind (fun q => (t[q]?).bind (fun Q => some (t.set q (u Q))))
      else some t) = some t' ∧
      (∀ {α : Type} (g : Folder → α), (∀ Z, g (u Z) = g Z) → t'.map g = t.map g) ∧
      ∀ (k : Nat) (X : Folder), t[k]? = some X → t'[k]? = some X ∨ t'[k]? = some (u X) := by
  by_cases h : a = INVALID_FOLDER
  · exact ⟨t, by rw [if_neg (not_not.2 h)], fun _ _ => rfl, fun k X hX => Or.inl hX⟩
  · rcases ha with ha | ha
    · exact absurd ha h
    obtain ⟨q, hq⟩ := Option.isSome_iff_exists.1 (getFolder_isSome_iff.2 ha)
    obtain ⟨Q, hQ, _⟩ := getFolder_some hq
    refine ⟨t.set q (u Q), by rw [if_pos h, hq, Option.some_bind, hQ, Option.some_bind],
      fun g hg => map_set_same g _ hQ (hg Q), fun k X hX => ?_⟩
    rw [List.getElem?_set]
    by_cases hqk : q = k
    · subst hqk
      rw [hQ] at hX
      cases hX
      right
      simp [(List.getElem?_eq_some.1 hQ).1]
    · left
      simp [hqk, hX]

theorem link_step_none {INVALID_FOLDER : FolderID} (t : List Folder) (a : FolderID)
    (u : Folder → Folder) (h1 : ¬ a = INVALID_FOLDER) (h2 : a ∉ t.map (·.id)) :
    (if ¬ a = INVALID_FOLDER then
        (getFolder t a).bind (fun q => (t[q]?).bind (fun Q => some (t.set q (u Q))))
      else some t) = none := by
  rw [if_pos h1]
  cases hq : getFolder t a with
  | none => rfl
  | some q =>
    exact absurd (getFolder_isSome_iff.1 (by rw [hq]; rfl)) h2

set_option maxHeartbeats 1000000 in
/-- The conditions under which `destroyFolder` completes, for the record `F`
that `getFolder` finds. -/
theorem destroyFolder_char (INVALID_FOLDER : FolderID) (s : EntityFolders) (f : FolderID) :
    (∃ (k : Nat) (F : Folder) (fs3 : List Folder),
      getFolder s.m_folders f = some k ∧ s.m_folders[k]? = some F ∧
      Destroyable INVALID_FOLDER s.m_folders F ∧
      fs3.map (fun G => (G.id, G.parent)) = s.m_folders.map (fun G => (G.id, G.parent)) ∧
      destroyFolder INVALID_FOLDER s f = some { s with
        m_folders := eraseItems fs3 (fun g => g.id = f)
        m_selected_folder :=
          if s.m_selected_folder = f then
            (match eraseItems fs3 (fun g => g.id = f) with
              | [] => INVALID_FOLDER
              | g :: _ => g.id)
          else s.m_selected_folder }) ∨
    (destroyFolder INVALID_FOLDER s f = none ∧
      ¬ ∃ (k : Nat) (F : Folder), getFolder s.m_folders f = some k ∧ s.m_folders[k]? = some F ∧
        Destroyable INVALID_FOLDER s.m_folders F) := by
  cases hk : getFolder s.m_folders f with
  | none =>
    right
    exact ⟨by simp [destroyFolder, hk], by simp⟩
  | some k =>
    obtain ⟨F, hF, hFid⟩ := getFolder_some hk
    have hright : ¬ Destroyable INVALID_FOLDER s.m_folders F →
        ¬ ∃ (k' : Nat) (F' : Folder), some k = some k' ∧ s.m_folders[k']? = some F' ∧
          Destroyable INVALID_FOLDER s.m_folders F' := by
      rintro hD ⟨k', F', hk', hF', hD'⟩
      cases hk'
      rw [hF] at hF'
      cases hF'
      exact hD hD'
    by_cases he : F.first_entity = INVALID_ENTITY
    swap
    · right
      refine ⟨?_, hright (fun hD => he hD.1)⟩
      have : F.first_entity.isSome = true := by
        cases hfe : F.first_entity with
        | none => exact absurd hfe he
        | some e => rfl
      unfold destroyFolder
      simp only [Option.bind_eq_bind, Option.pure_def, hk, Option.some_bind, hF, this, if_true,
        Option.none_bind]
    by_cases hc : F.first_child = INVALID_FOLDER
    swap
    · right
      refine ⟨?_, hright (fun hD => hc hD.2.1)⟩
      unfold destroyFolder
      simp only [Option.bind_eq_bind, Option.pure_def, hk, Option.some_bind, hF, he, INVALID_ENTITY,
        Option.isSome_none, Bool.false_eq_true, if_false, hc, ne_eq, not_false_eq_true, if_true,
        Option.none_bind]
    by_cases hp : F.parent = INVALID_FOLDER
    · right
      refine ⟨?_, hright (fun hD => hD.2.2.1 hp)⟩
      unfold destroyFolder
      simp only [Option.bind_eq_bind, Option.pure_def, hk, Option.some_bind, hF, he, INVALID_ENTITY,
        Option.isSome_none, Bool.false_eq_true, if_false, hc, ne_eq, not_true_eq_false, hp, if_true,
        Option.none_bind]
    cases hpk : getFolder s.m_folders F.parent with
    | none =>
      right
      refine ⟨?_, hright (fun hD => ?_)⟩
      · unfold destroyFolder
        simp only [Option.bind_eq_bind, Option.pure_def, hk, Option.some_bind, hF, he,
          INVALID_ENTITY, Option.isSome_none, Bool.false_eq_true, if_false, hc, ne_eq,
          not_true_eq_false, hp, not_false_eq_true, hpk, Option.none_bind]
      · have := getFolder_isSome_iff.2 hD.2.2.2.1
        rw [hpk] at this
        exact absurd this (by simp)
    | some p =>
      obtain ⟨P, hP, hPid⟩ := getFolder_some hpk
      have hpar : F.parent ∈ s.m_folders.map (·.id) :=
        getFolder_isSome_iff.1 (by rw [hpk]; rfl)
      obtain ⟨fs1, hfs1⟩ : ∃ fs1, fs1 = (if P.first_child = f then
          s.m_folders.set p { P with first_child := F.next } else s.m_folders) := ⟨_, rfl⟩
      have h1g : ∀ {α : Type} (g : Folder → α), (∀ Z v, g { Z with first_child := v } = g Z) →
          fs1.map g = s.m_folders.map g := by
        intro α g hg
        rw [hfs1]
        split
        · exact map_set_same g _ hP (hg P _)
        · rfl
      have hF1 : ∃ F1, fs1[k]? = some F1 ∧ F1.prev = F.prev ∧ F1.next = F.next := by
        rw [hfs1]
        split
        · rw [List.getElem?_set]
          by_cases hpk' : p = k
          · subst hpk'
            have hPF : P = F := by
              rw [hP] at hF
              exact Option.some.inj hF
            exact ⟨{ P with first_child := F.next },
              by simp [(List.getElem?_eq_some.1 hP).1], by rw [hPF], by rw [hPF]⟩
          · exact ⟨F, by simp [hpk', hF], rfl, rfl⟩
        · exact ⟨F, hF, rfl, rfl⟩
      obtain ⟨F1, hF1k, hF1p, hF1n⟩ := hF1
      have hids1 : fs1.map (·.id) = s.m_folders.map (·.id) := h1g (·.id) (fun _ _ => rfl)
      obtain ⟨r, hr⟩ : ∃ r, r = destroyFolder INVALID_FOLDER s f := ⟨_, rfl⟩
      rw [← hr]
      unfold destroyFolder at hr
      simp only [Option.bind_eq_bind, Option.pure_def] at hr
      rw [hk, Option.some_bind, hF, Option.some_bind] at hr
      simp only [he, INVALID_ENTITY, Option.isSome_none, Bool.false_eq_true, if_false,
        Option.some_bind] at hr
      rw [if_neg (not_not.2 hc)] at hr
      rw [if_neg hp, hpk, Option.some_bind, hP, Option.some_bind, ← hfs1, hF1k,
        Option.some_bind] at hr
      by_cases h2 : F1.prev = INVALID_FOLDER ∨ F1.prev ∈ fs1.map (·.id)
      swap
      · right
        refine ⟨?_, hright (fun hD => h2 ?_)⟩
        · rw [link_step_none fs1 F1.prev _ (fun h => h2 (Or.inl h)) (fun h => h2 (Or.inr h))] at hr
          exact hr
        · rw [hF1p, hids1]
          exact hD.2.2.2.2.1
      obtain ⟨fs2, h2eq, h2g, h2k⟩ :=
        link_step_some fs1 F1.prev (fun Q => { Q with next := F1.next }) h2
      rw [h2eq, Option.some_bind] at hr
      have hF2 : ∃ F2, fs2[k]? = some F2 ∧ F2.prev = F.prev ∧ F2.next = F.next := by
        rcases h2k k F1 hF1k with h | h
        · exact ⟨F1, h, hF1p, hF1n⟩
        · exact ⟨_, h, hF1p, hF1n⟩
      obtain ⟨F2, hF2k, hF2p, hF2n⟩ := hF2
      have hids2 : fs2.map (·.id) = s.m_folders.map (·.id) :=
        (h2g (·.id) (fun _ => rfl)).trans hids1
      rw [hF2k, Option.some_bind] at hr
      by_cases h3 : F2.next = INVALID_FOLDER ∨ F2.next ∈ fs2.map (·.id)
      swap
      · right
        refine ⟨?_, hright (fun hD => h3 ?_)⟩
        · rw [link_step_none fs2 F2.next _ (fun h => h3 (Or.inl h)) (fun h => h3 (Or.inr h))] at hr
          exact hr
        · rw [hF2n, hids2]
          exact hD.2.2.2.2.2
      obtain ⟨fs3, h3eq, h3g, h3k⟩ :=
        link_step_some fs2 F2.next (fun N => { N with prev := F2.prev }) h3
      rw [h3eq, Option.some_bind] at hr
      left
      refine ⟨k, F, fs3, rfl, hF, ⟨he, hc, hp, hpar, ?_, ?_⟩, ?_, hr⟩
      · rw [← hF1p, ← hids1]
        exact h2
      · rw [← hF2n, ← hids2]
        exact h3
      · exact (h3g (fun G => (G.id, G.parent)) (fun _ => rfl)).trans
          ((h2g (fun G => (G.id, G.parent)) (fun _ => rfl)).trans
            (h1g (fun G => (G.id, G.parent)) (fun _ _ => rfl)))

/-- What a completed run of the scenario tells about its inputs, and its
final state. -/
theorem scenario_some {INVALID_FOLDER : FolderID} {defaultPartition : PartitionHandle}
    {w : World} {rand : List FolderID} {R F1 : FolderID} {S : EntityFolders}
    (h : scenario INVALID_FOLDER defaultPartition w rand = some (R, F1, S)) :
    R ≠ INVALID_FOLDER ∧ F1 ≠ INVALID_FOLDER ∧ F1 ≠ R ∧
      S = { m_entities := [⟨R, none, some 2⟩, ⟨F1, none, none⟩, ⟨R, some 0, none⟩]
            m_folders :=
              [⟨R, INVALID_FOLDER, F1, INVALID_FOLDER, INVALID_FOLDER, some 2, defaultPartition,
                "root"⟩,
               ⟨F1, R, INVALID_FOLDER, INVALID_FOLDER, INVALID_FOLDER, some 1, defaultPartition,
                "Folder"⟩]
            m_selected_folder := R
            m_ignore_new_entities := false
            m_world := w.setPartition 1 defaultPartition } := by
  have h0 := h
  unfold scenario at h0
  simp only [Option.bind_eq_bind, Option.bind_eq_some, Option.pure_def, Option.some.injEq,
    Prod.exists, Prod.mk.injEq] at h0
  obtain ⟨s0, rand1, hcon, s1, h1, s2, h2, s3, h3, F1', s4, rand2, hemp, s5, h5, hR, hF1, hS⟩ := h0
  subst hF1
  have hw : w.first_entity = none := by
    unfold construct at hcon
    cases hfe : w.first_entity with
    | none => rfl
    | some e => simp [hfe] at hcon
  obtain ⟨rand', hrand, hs0⟩ : ∃ rand', rand = R :: rand' ∧
      s0 = { m_entities := []
             m_folders := [{ Folder.emplaced INVALID_FOLDER defaultPartition with
               id := R, name := "root" }]
             m_selected_folder := R
             m_ignore_new_entities := false
             m_world := w } ∧ rand1 = rand' := by
    unfold construct at hcon
    rw [hw] at hcon
    cases rand with
    | nil => simp at hcon
    | cons a rest =>
      simp only [Option.isSome_none, Bool.false_eq_true, if_false, Option.some.injEq,
        Prod.mk.injEq] at hcon
      obtain ⟨rfl, rfl⟩ := hcon
      exact ⟨rest, by rw [← hR], by rw [← hR], rfl⟩
  obtain ⟨hs0, hr1⟩ := hs0
  subst hrand hr1
  have hRne : R ≠ INVALID_FOLDER := by
    intro hR0
    rw [hs0] at h1
    simp [onEntityCreated, moveToFolder, hR0] at h1
  have hF1ne : F1' ≠ INVALID_FOLDER := by
    intro hF0
    simp [moveToFolder, hF0] at h5
  have hids3 : s3.m_folders.map (·.id) = [R] := by
    have e1 : s1.m_folders.map (·.id) = s0.m_folders.map (·.id) := by
      rw [hs0] at h1 ⊢
      exact moveToFolder_ids h1
    have hsel1 : onEntityCreated INVALID_FOLDER s1 1 = some s2 := h2
    have e2 : s2.m_folders.map (·.id) = s1.m_folders.map (·.id) := by
      unfold onEntityCreated at hsel1
      split at hsel1
      · cases hsel1; rfl
      · exact moveToFolder_ids hsel1
    have e3 : s3.m_folders.map (·.id) = s2.m_folders.map (·.id) := by
      unfold onEntityCreated at h3
      split at h3
      · cases h3; rfl
      · exact moveToFolder_ids h3
    rw [e3, e2, e1, hs0]
    rfl
  have hgen := (emplaceFolder_ids hemp).2
  rw [if_pos rfl] at hgen
  have hgen' : generateUniqueID [{ Folder.emplaced INVALID_FOLDER defaultPartition with
      id := R, name := "root" }] rand1 = some (F1', rand2) :=
    (generateUniqueID_congr _ _ (by rw [hids3]; rfl) rand1).symm.trans hgen
  obtain ⟨hne, hrun⟩ := scenario_eq INVALID_FOLDER defaultPartition w R F1' rand1 rand2 hw hRne
    hgen' hF1ne
  rw [hrun] at h
  simp only [Option.some.injEq, Prod.mk.injEq, true_and] at h
  exact ⟨hRne, hF1ne, hne, h.symm⟩

/-- The scenario continued: entity 1 moved back to the root. -/
theorem scenario_back (INVALID_FOLDER : FolderID) (defaultPartition : PartitionHandle)
    (w : World) (R F1 : FolderID) (hR : R ≠ INVALID_FOLDER) (hF0 : F1 ≠ INVALID_FOLDER)
    (hne : F1 ≠ R) :
    moveToFolder INVALID_FOLDER
      { m_entities := [⟨R, none, some 2⟩, ⟨F1, none, none⟩, ⟨R, some 0, none⟩]
        m_folders :=
          [⟨R, INVALID_FOLDER, F1, INVALID_FOLDER, INVALID_FOLDER, some 2, defaultPartition,
            "root"⟩,
           ⟨F1, R, INVALID_FOLDER, INVALID_FOLDER, INVALID_FOLDER, some 1, defaultPartition,
            "Folder"⟩]
        m_selected_folder := R
        m_ignore_new_entities := false
        m_world := w } 1 R = some
      { m_entities := [⟨R, none, some 2⟩, ⟨R, some 2, none⟩, ⟨R, some 0, some 1⟩]
        m_folders :=
          [⟨R, INVALID_FOLDER, F1, INVALID_FOLDER, INVALID_FOLDER, some 1, defaultPartition,
            "root"⟩,
           ⟨F1, R, INVALID_FOLDER, INVALID_FOLDER, INVALID_FOLDER, none, defaultPartition,
            "Folder"⟩]
        m_selected_folder := R
        m_ignore_new_entities := false
        m_world := w.setPartition 1 defaultPartition } := by
  have hne' : ¬ R = F1 := fun h => hne h.symm
  simp [moveToFolder, grow, getFolder, detach, unlink, pushFront, setNext, setPrev, Entity.unset,
    INVALID_ENTITY, hR, hne, hne', hF0, World.setPartition]

theorem unlink_keys {ents ents1 : List Entity} {fs fs1 : List Folder} {src e : Nat}
    (h : unlink ents fs src e = some (ents1, fs1)) :
    fs1.map (fun G => (G.id, G.parent)) = fs.map (fun G => (G.id, G.parent)) := by
  obtain ⟨sf, r, hsf, _, rfl⟩ := unlink_some h
  split
  · exact map_set_same _ _ hsf rfl
  · rfl

theorem pushFront_keys {ents ents2 : List Entity} {fs fs2 : List Folder} {dst e : Nat}
    {f : FolderID} (h : pushFront ents fs dst e f = some (ents2, fs2)) :
    fs2.map (fun G => (G.id, G.parent)) = fs.map (fun G => (G.id, G.parent)) := by
  unfold pushFront at h
  cases hd : fs[dst]? with
  | none => simp [hd] at h
  | some d =>
    simp only [hd, Option.bind_eq_bind, Option.some_bind, Option.bind_eq_some, Option.pure_def,
      Option.some.injEq, Prod.mk.injEq] at h
    obtain ⟨_, _, _, _, _, rfl⟩ := h
    exact map_set_same _ _ hd rfl

theorem detach_keys {INVALID_FOLDER : FolderID} {ents ents1 : List Entity} {fs fs1 : List Folder}
    {w w1 : World} {e dst : Nat}
    (h : detach INVALID_FOLDER ents fs w e dst = some (ents1, fs1, w1)) :
    fs1.map (fun G => (G.id, G.parent)) = fs.map (fun G => (G.id, G.parent)) := by
  unfold detach at h
  cases hx : ents[e]? with
  | none => simp [hx] at h
  | some x =>
    simp only [hx, Option.bind_eq_bind, Option.some_bind] at h
    by_cases hxf : x.folder = INVALID_FOLDER
    · simp only [hxf, ne_eq, not_true_eq_false, if_false, Option.pure_def, Option.some.injEq,
        Prod.mk.injEq] at h
      rw [h.2.1]
    · simp only [ne_eq, hxf, not_false_eq_true, if_true, Option.bind_eq_some, Option.pure_def,
        Option.some.injEq, Prod.mk.injEq, Prod.exists] at h
      obtain ⟨src, _, e1, f1, hun, d, hd, rfl, rfl, rfl⟩ := h
      exact unlink_keys hun

/-- `moveToFolder` keeps the id and the parent of every folder record, and the
selection. -/
theorem moveToFolder_keys {INVALID_FOLDER : FolderID} {s s' : EntityFolders} {e : Nat}
    {f : FolderID} (h : moveToFolder INVALID_FOLDER s e f = some s') :
    s'.m_folders.map (fun G => (G.id, G.parent)) = s.m_folders.map (fun G => (G.id, G.parent)) ∧
      s'.m_selected_folder = s.m_selected_folder := by
  unfold moveToFolder at h
  by_cases hf : f = INVALID_FOLDER
  · simp [hf] at h
  simp only [hf, if_false, Option.bind_eq_bind, Option.some_bind, Option.bind_eq_some,
    Option.pure_def, Option.some.injEq, Prod.exists] at h
  obtain ⟨dst, hg, ents1, fs1, w1, hdet, ents2, fs2, hpf, rfl⟩ := h
  simp only
  rw [pushFront_keys hpf, detach_keys hdet]
  exact ⟨rfl, trivial⟩

theorem onEntityDestroyed_keys {INVALID_FOLDER : FolderID} {s s' : EntityFolders} {e : Nat}
    (h : onEntityDestroyed INVALID_FOLDER s e = some s') :
    s'.m_folders.map (fun G => (G.id, G.parent)) = s.m_folders.map (fun G => (G.id, G.parent)) ∧
      s'.m_selected_folder = s.m_selected_folder := by
  unfold onEntityDestroyed at h
  simp only [Option.bind_eq_bind, Option.bind_eq_some, Option.pure_def, Option.some.injEq,
    Prod.exists] at h
  obtain ⟨x, _, p, _, ents1, fs1, hun, _, _, rfl⟩ := h
  exact ⟨unlink_keys hun, rfl⟩

/-- `emplaceFolder` keeps the id and the parent of every folder record, and
the selection; the new record comes last. -/
theorem emplaceFolder_keys {INVALID_FOLDER : FolderID} {defaultPartition : PartitionHandle}
    {s s' : EntityFolders} {rand rand' : List FolderID} {folder parent id : FolderID}
    (h : emplaceFolder INVALID_FOLDER defaultPartition s rand folder parent = some (id, s', rand')) :
    s'.m_folders.map (fun G => (G.id, G.parent)) =
        s.m_folders.map (fun G => (G.id, G.parent)) ++ [(id, parent)] ∧
      s'.m_selected_folder = s.m_selected_folder := by
  unfold emplaceFolder at h
  by_cases hp : parent = INVALID_FOLDER
  · simp [hp] at h
  simp only [hp, if_false, Option.bind_eq_bind, Option.some_bind, Option.bind_eq_some,
    Option.pure_def, Option.some.injEq, Prod.exists, Prod.mk.injEq] at h
  obtain ⟨id', rand1, hgen, p, hgp, P, hP, fs2, hfs2, P2, hP2, rfl, rfl, rfl⟩ := h
  have hfs2k : fs2.map (fun G => (G.id, G.parent)) =
      s.m_folders.map (fun G => (G.id, G.parent)) ++ [(id', parent)] := by
    by_cases hc : P.first_child = INVALID_FOLDER
    · simp only [hc, ne_eq, not_true_eq_false, if_false, Option.some.injEq] at hfs2
      rw [← hfs2]; simp
    · simp only [ne_eq, hc, not_false_eq_true, if_true, Option.bind_eq_some,
        Option.some.injEq] at hfs2
      obtain ⟨N, hN, c, hc1, C, hC, rfl⟩ := hfs2
      refine (map_set_same (fun G => (G.id, G.parent)) { C with prev := id' } hC rfl).trans
        ((map_set_same (fun G => (G.id, G.parent)) { N with next := P.first_child } hN rfl).trans ?_)
      simp
  exact ⟨(map_set_same (fun G => (G.id, G.parent)) { P2 with first_child := id' } hP2 rfl).trans
    hfs2k, rfl⟩

/-- `destroyFolder`, when it completes, keeps the root at position 0, leaves
the selection alone when `f` is not selected, and otherwise selects the first
record of the new table, which is the root. -/
theorem destroyFolder_root {INVALID_FOLDER : FolderID} {s s' : EntityFolders} {f R : FolderID}
    (hroot : RootFirst INVALID_FOLDER R s.m_folders)
    (h : destroyFolder INVALID_FOLDER s f = some s') :
    RootFirst INVALID_FOLDER R s'.m_folders ∧
      s'.m_selected_folder = if s.m_selected_folder = f then R else s.m_selected_folder := by
  rcases destroyFolder_char INVALID_FOLDER s f with ⟨k, F, fs3, hk, hF, hD, hkeys, hrun⟩ | ⟨hn, _⟩
  swap
  · rw [hn] at h
    exact Option.noConfusion h
  rw [hrun] at h
  cases h
  unfold RootFirst at hroot
  cases hfs : s.m_folders with
  | nil => rw [hfs] at hroot; simp at hroot
  | cons X rest =>
    rw [hfs] at hroot hkeys hk hF
    simp only [List.map_cons, List.head?_cons, Option.some.injEq, Prod.mk.injEq] at hroot
    cases fs3 with
    | nil => simp at hkeys
    | cons X3 rest3 =>
      simp only [List.map_cons, List.cons.injEq, Prod.mk.injEq] at hkeys
      have hfR : ¬ X3.id = f := by
        intro hX3
        have hXf : X.id = f := hkeys.1.1.symm.trans hX3
        simp only [getFolder, hXf, if_true, Option.some.injEq] at hk
        subst hk
        simp only [List.getElem?_cons_zero, Option.some.injEq] at hF
        subst hF
        exact hD.2.2.1 hroot.2
      have herase : eraseItems (X3 :: rest3) (fun g => g.id = f) =
          X3 :: eraseItems rest3 (fun g => g.id = f) := by
        simp [eraseItems, List.filter_cons, hfR]
      simp only [herase]
      refine ⟨?_, ?_⟩
      · unfold RootFirst
        simp only [List.map_cons, List.head?_cons, Option.some.injEq, Prod.mk.injEq]
        exact ⟨hkeys.1.1.trans hroot.1, hkeys.1.2.trans hroot.2⟩
      · rw [hkeys.1.1.trans hroot.1]

theorem RootFirst.of_keys {INVALID_FOLDER R : FolderID} {fs fs' : List Folder}
    (h : RootFirst INVALID_FOLDER R fs)
    (hk : fs'.map (fun G => (G.id, G.parent)) = fs.map (fun G => (G.id, G.parent))) :
    RootFirst INVALID_FOLDER R fs' := by
  unfold RootFirst at h ⊢
  rw [hk]
  exact h

theorem RootFirst.of_append {INVALID_FOLDER R : FolderID} {fs fs' : List Folder}
    {x : FolderID × FolderID} (h : RootFirst INVALID_FOLDER R fs)
    (hk : fs'.map (fun G => (G.id, G.parent)) = fs.map (fun G => (G.id, G.parent)) ++ [x]) :
    RootFirst INVALID_FOLDER R fs' := by
  unfold RootFirst at h ⊢
  rw [hk]
  cases hfs : fs.map (fun G => (G.id, G.parent)) with
  | nil => rw [hfs] at h; simp at h
  | cons y ys => rw [hfs] at h; simpa using h

/-- The root made by the constructor stays at position 0 of the table under
every sequence of calls. -/
theorem runSteps_root {INVALID_FOLDER : FolderID} {defaultPartition : PartitionHandle}
    {R : FolderID} (ops : List Step) : ∀ {s s' : EntityFolders} {rand rand' : List FolderID},
      RootFirst INVALID_FOLDER R s.m_folders →
      runSteps INVALID_FOLDER defaultPartition ops (s, rand) = some (s', rand') →
      RootFirst INVALID_FOLDER R s'.m_folders := by
  induction ops with
  | nil =>
    intro s s' rand rand' hroot h
    simp only [runSteps, Option.some.injEq, Prod.mk.injEq] at h
    rw [← h.1]
    exact hroot
  | cons op ops ih =>
    intro s s' rand rand' hroot h
    cases op with
    | emplaceFolder folder parent =>
      simp only [runSteps, Option.bind_eq_some, Prod.exists] at h
      obtain ⟨id, s1, rand1, h1, h2⟩ := h
      exact ih (hroot.of_append (emplaceFolder_keys h1).1) h2
    | destroyFolder f =>
      simp only [runSteps, Option.bind_eq_some] at h
      obtain ⟨s1, h1, h2⟩ := h
      exact ih (destroyFolder_root hroot h1).1 h2
    | moveToFolder e f =>
      simp only [runSteps, Option.bind_eq_some] at h
      obtain ⟨s1, h1, h2⟩ := h
      exact ih (hroot.of_keys (moveToFolder_keys h1).1) h2
    | selectFolder f =>
      simp only [runSteps, Option.bind_eq_some] at h
      obtain ⟨s1, h1, h2⟩ := h
      have hfs : s1.m_folders = s.m_folders := by
        unfold selectFolder at h1
        simp only [Option.bind_eq_bind, Option.bind_eq_some, Option.pure_def,
          Option.some.injEq] at h1
        obtain ⟨k, _, F, _, rfl⟩ := h1
        rfl
      exact ih (by rw [hfs]; exact hroot) h2
    | onEntityCreated e =>
      simp only [runSteps, Option.bind_eq_some] at h
      obtain ⟨s1, h1, h2⟩ := h
      have hk : s1.m_folders.map (fun G => (G.id, G.parent)) =
          s.m_folders.map (fun G => (G.id, G.parent)) := by
        unfold onEntityCreated at h1
        split at h1
        · cases h1; rfl
        · exact (moveToFolder_keys h1).1
      exact ih (hroot.of_keys hk) h2
    | onEntityDestroyed e =>
      simp only [runSteps, Option.bind_eq_some] at h
      obtain ⟨s1, h1, h2⟩ := h
      exact ih (hroot.of_keys (onEntityDestroyed_keys h1).1) h2

theorem construct_root {INVALID_FOLDER : FolderID} {defaultPartition : PartitionHandle}
    {w : World} {rand rand0 : List FolderID} {s0 : EntityFolders}
    (h : construct INVALID_FOLDER defaultPartition w rand = some (s0, rand0)) :
    RootFirst INVALID_FOLDER s0.m_selected_folder s0.m_folders := by
  unfold construct at h
  split at h
  · exact Option.noConfusion h
  · cases rand with
    | nil => exact Option.noConfusion h
    | cons id rest =>
      simp only [Option.some.injEq, Prod.mk.injEq] at h
      rw [← h.1]
      rfl

/-- The entity loop of the current format leaves alone every record that
exists and is not the image of a source index. -/
theorem readEntities_keeps {INVALID_FOLDER : FolderID} {L : Layout} {entity_map : EntityMap}
    (n : Nat) : ∀ {i : Nat} {ents ents' : List Entity} {blob blob' : Blob},
      readEntities INVALID_FOLDER L entity_map n i ents blob = some (ents', blob') →
      ∀ (d : Nat) (x : Entity), ents[d]? = some x →
        (∀ k, k < n → entity_map.get (sourceRef (i + k)) ≠ some d) → ents'[d]? = some x := by
  induction n with
  | zero =>
    intro i ents ents' blob blob' h d x hx _
    simp only [readEntities, Option.some.injEq, Prod.mk.injEq] at h
    rw [← h.1]
    exact hx
  | succ n ih =>
    intro i ents ents' blob blob' h d x hx hd
    unfold readEntities at h
    simp only [Option.bind_eq_bind, Option.bind_eq_some, Prod.exists] at h
    obtain ⟨bytes, blob1, _, h⟩ := h
    have hrest : ∀ k, k < n → entity_map.get (sourceRef (i + 1 + k)) ≠ some d := by
      intro k hk
      have := hd (k + 1) (by omega)
      rwa [show i + (k + 1) = i + 1 + k by omega] at this
    cases he : entity_map.get (sourceRef i) with
    | none =>
      rw [he] at h
      exact ih h d x hx hrest
    | some e =>
      rw [he] at h
      have hed : e ≠ d := by
        intro hed
        have := hd 0 (Nat.succ_pos n)
        rw [Nat.add_zero, he, hed] at this
        exact this rfl
      refine ih h d x ?_ hrest
      rw [List.getElem?_set_ne hed]
      rw [grow_getElem?, if_pos (List.getElem?_eq_some.1 hx).1]
      exact hx

/-- What a completed current-format load is made of. -/
theorem deserializeCurrent_some {INVALID_FOLDER : FolderID} {L : Layout}
    {s s' : EntityFolders} {blob blob' : Blob} {entity_map : EntityMap} {additive : Bool}
    (h : deserializeCurrent INVALID_FOLDER L s blob entity_map additive = some (s', blob')) :
    ∃ (blob1 blob2 : Blob) (ents : List Entity) (fs : List Folder),
      Blob.readU32 blob = some (blobEntityCount blob, blob1) ∧
      readEntities INVALID_FOLDER L entity_map (blobEntityCount blob) 0 s.m_entities blob1 =
        some (ents, blob2) ∧
      s' = { s with m_entities := ents, m_folders := fs } := by
  unfold deserializeCurrent at h
  simp only [Option.bind_eq_bind, Option.bind_eq_some, Option.pure_def, Option.some.injEq,
    Prod.exists, Prod.mk.injEq] at h
  obtain ⟨count, blob1, hc, ents, blob2, hre, fc, blob3, _, h⟩ := h
  have hcount : count = blobEntityCount blob := by
    unfold Blob.readU32 at hc
    simp only [Option.bind_eq_bind, Option.bind_eq_some, Option.pure_def, Option.some.injEq,
      Prod.exists, Prod.mk.injEq] at hc
    obtain ⟨bytes, rest, hread, rfl, _⟩ := hc
    unfold Blob.read at hread
    split at hread
    · simp only [Option.some.injEq, Prod.mk.injEq] at hread
      rw [← hread.1]
      rfl
    · exact Option.noConfusion hread
  subst hcount
  by_cases hg : ¬ (if additive = true then s.m_folders else []).length <
      (fc + (if additive = true then s.m_folders else []).length) % 4294967296
  · rw [if_pos hg] at h
    exact Option.noConfusion h
  · rw [if_neg hg] at h
    simp only [Option.some_bind, Option.bind_eq_some, Option.some.injEq, Prod.exists,
      Prod.mk.injEq] at h
    obtain ⟨bytes, blob4, _, rfl, _⟩ := h
    exact ⟨blob1, blob2, ents, _, hc, hre, rfl⟩

/-- `deserialize` never assigns `m_selected_folder`. -/
theorem deserialize_selected {INVALID_FOLDER : FolderID} {defaultPartition : PartitionHandle}
    {defaultId : FolderID} {L : Layout} {NEW_ENTITY_FOLDERS : Nat} {s s' : EntityFolders}
    {rand rand' : List FolderID} {blob blob' : Blob} {entity_map : EntityMap} {additive : Bool}
    {version : Nat}
    (h : deserialize INVALID_FOLDER defaultPartition defaultId L NEW_ENTITY_FOLDERS s rand blob
      entity_map additive version = some (s', blob', rand')) :
    s'.m_selected_folder = s.m_selected_folder := by
  unfold deserialize at h
  split at h
  · unfold deserializeLegacy at h
    simp only [Option.bind_eq_bind, Option.bind_eq_some, Option.pure_def, Option.some.injEq,
      Prod.exists, Prod.mk.injEq] at h
    obtain ⟨count, blob1, _, n1, _, blob2, _, size, blob3, _, n2, _, blob4, _, blob5, _,
      folder, fs, rand1, _, ents, fs', _, rfl, _, _⟩ := h
    rfl
  · simp only [Option.map_eq_some', Prod.exists, Prod.mk.injEq] at h
    obtain ⟨s1, blob1, h, rfl, _, _⟩ := h
    obtain ⟨_, _, _, _, _, _, rfl⟩ := deserializeCurrent_some h
    rfl

/-- A current-format load leaves alone every linkage record that exists and
is not the image of a source index of the blob, also when it clears the
folder table. -/
theorem deserializeCurrent_keeps {INVALID_FOLDER : FolderID} {L : Layout}
    {s s' : EntityFolders} {blob blob' : Blob} {entity_map : EntityMap} {additive : Bool}
    (h : deserializeCurrent INVALID_FOLDER L s blob entity_map additive = some (s', blob'))
    (d : Nat) (x : Entity) (hx : s.m_entities[d]? = some x)
    (hd : ∀ i, i < blobEntityCount blob → entity_map.get (sourceRef i) ≠ some d) :
    s'.m_entities[d]? = some x := by
  obtain ⟨_, _, ents, _, _, hre, rfl⟩ := deserializeCurrent_some h
  exact readEntities_keeps _ hre d x hx (fun k hk => by
    rw [Nat.zero_add]
    exact hd k hk)

theorem mem_grafted {INVALID_FOLDER : FolderID} {defaultPartition : PartitionHandle}
    {id : FolderID} {P X' : Folder} {fs : List Folder} :
    X' ∈ grafted INVALID_FOLDER defaultPartition id P fs ↔
      (∃ X ∈ fs, X' = graft INVALID_FOLDER id P X) ∨
        X' = newFolder INVALID_FOLDER defaultPartition id P := by
  unfold grafted
  simp only [List.mem_append, List.mem_map, List.mem_singleton]
  constructor
  · rintro (⟨X, hX, rfl⟩ | h)
    · exact Or.inl ⟨X, hX, rfl⟩
    · exact Or.inr h
  · rintro (⟨X, hX, rfl⟩ | h)
    · exact Or.inl ⟨X, hX, rfl⟩
    · exact Or.inr h

/-- A chain that does not hold the former first child of the parent is a
chain of the new table. -/
theorem FChain.graft_keep {INVALID_FOLDER : FolderID} {defaultPartition : PartitionHandle}
    {id : FolderID} {P : Folder} {fs : List Folder} :
    ∀ {l : List FolderID} {p c : FolderID}, FChain INVALID_FOLDER fs p c l →
      (∀ x ∈ l, ¬ (P.first_child ≠ INVALID_FOLDER ∧ x = P.first_child)) →
      FChain INVALID_FOLDER (grafted INVALID_FOLDER defaultPartition id P fs) p c l
  | [], _, _, h, _ => h
  | x :: rest, _, _, ⟨hc, hne, X, hX, hid, hp, hrest⟩, hl => by
    have hx := hl x (List.mem_cons_self _ _)
    refine ⟨hc, hne, graft INVALID_FOLDER id P X, mem_grafted.2 (Or.inl ⟨X, hX, rfl⟩), hid, ?_, ?_⟩
    · have : (graft INVALID_FOLDER id P X).prev = X.prev := by
        unfold graft
        rw [hid]
        exact if_neg hx
      rw [this, hp]
    · exact FChain.graft_keep hrest (fun y hy => hl y (List.mem_cons_of_mem _ hy))

/-- The chain of the children of the parent, seen from the new folder: its
head now has the new folder as `prev`. -/
theorem FChain.graft_head {INVALID_FOLDER : FolderID} {defaultPartition : PartitionHandle}
    {id : FolderID} {P : Folder} {fs : List Folder} {l : List FolderID}
    (h : FChain INVALID_FOLDER fs INVALID_FOLDER P.first_child l) (hnd : l.Nodup) :
    FChain INVALID_FOLDER (grafted INVALID_FOLDER defaultPartition id P fs) id P.first_child l := by
  cases l with
  | nil => exact h
  | cons x rest =>
    obtain ⟨hc, hne, X, hX, hid, hp, hrest⟩ := h
    refine ⟨hc, hne, graft INVALID_FOLDER id P X, mem_grafted.2 (Or.inl ⟨X, hX, rfl⟩), hid, ?_, ?_⟩
    · unfold graft
      rw [hid]
      exact if_pos ⟨by rw [hc]; exact hne, hc.symm⟩
    · refine FChain.graft_keep hrest (fun y hy hcond => ?_)
      have : y = x := hcond.2.trans hc
      exact (List.nodup_cons.1 hnd).1 (this ▸ hy)

theorem grafted_ids (INVALID_FOLDER : FolderID) (defaultPartition : PartitionHandle)
    (id : FolderID) (P : Folder) (fs : List Folder) :
    (grafted INVALID_FOLDER defaultPartition id P fs).map (·.id) = fs.map (·.id) ++ [id] := by
  unfold grafted
  rw [List.map_append, @map_ids (graft INVALID_FOLDER id P) (fun Z => rfl) fs]
  rfl

/-- The sibling list of the parent after `emplaceFolder`: the new folder,
followed by the old list. -/
theorem SiblingList.grafted_parent {INVALID_FOLDER : FolderID}
    {defaultPartition : PartitionHandle} {id : FolderID} {P : Folder} {fs : List Folder}
    (hidne : id ≠ INVALID_FOLDER) (hid : id ∉ fs.map (·.id)) {l : List FolderID}
    (h : SiblingList INVALID_FOLDER fs P l) :
    SiblingList INVALID_FOLDER (grafted INVALID_FOLDER defaultPartition id P fs)
      (graft INVALID_FOLDER id P P) (id :: l) := by
  have hnotin : id ∉ l := by
    intro hmem
    obtain ⟨X, hX, hXid, _⟩ := (h.2.2 id).1 hmem
    exact hid (List.mem_map.2 ⟨X, hX, hXid⟩)
  refine ⟨?_, List.nodup_cons.2 ⟨hnotin, h.2.1⟩, fun x => ?_⟩
  · refine ⟨by simp [graft], hidne, newFolder INVALID_FOLDER defaultPartition id P,
      mem_grafted.2 (Or.inr rfl), rfl, rfl, ?_⟩
    exact FChain.graft_head h.1 h.2.1
  · constructor
    · intro hx
      rcases List.mem_cons.1 hx with rfl | hx
      · exact ⟨_, mem_grafted.2 (Or.inr rfl), rfl, rfl⟩
      · obtain ⟨X, hX, hXid, hXp⟩ := (h.2.2 x).1 hx
        exact ⟨_, mem_grafted.2 (Or.inl ⟨X, hX, rfl⟩), hXid, hXp⟩
    · rintro ⟨X', hX', hXid, hXp⟩
      rcases mem_grafted.1 hX' with ⟨X, hX, rfl⟩ | rfl
      · exact List.mem_cons_of_mem _ ((h.2.2 x).2 ⟨X, hX, hXid, hXp⟩)
      · rw [← hXid]
        exact List.mem_cons_self _ _

/-- The sibling list of a folder other than the parent is the same after
`emplaceFolder`. -/
theorem SiblingList.grafted_other {INVALID_FOLDER : FolderID}
    {defaultPartition : PartitionHandle} {id : FolderID} {P G : Folder} {fs : List Folder}
    (hs : Linked INVALID_FOLDER fs) (hP : P ∈ fs) (hGP : G.id ≠ P.id) {l : List FolderID}
    (h : SiblingList INVALID_FOLDER fs G l) :
    SiblingList INVALID_FOLDER (grafted INVALID_FOLDER defaultPartition id P fs)
      (graft INVALID_FOLDER id P G) l := by
  obtain ⟨lP, hlP⟩ := hs.2 P hP
  refine ⟨?_, h.2.1, fun x => ?_⟩
  · have hfc : (graft INVALID_FOLDER id P G).first_child = G.first_child := by
      simp [graft, hGP]
    rw [hfc]
    refine FChain.graft_keep h.1 (fun x hx hcond => ?_)
    obtain ⟨X, hX, hXid, hXp⟩ := (h.2.2 x).1 hx
    have hhead : P.first_child ∈ lP := by
      have hh := FChain.head_eq hlP.1
      cases lP with
      | nil => exact absurd hh hcond.1
      | cons y ys =>
        rw [hh]
        exact List.mem_cons_self _ _
    obtain ⟨C, hC, hCid, hCp⟩ := (hlP.2.2 _).1 hhead
    have : X = C := mem_unique hs.1 hX hC (hXid.trans (hcond.2.trans hCid.symm))
    exact hGP (by rw [← hXp, this, hCp])
  · constructor
    · intro hx
      obtain ⟨X, hX, hXid, hXp⟩ := (h.2.2 x).1 hx
      exact ⟨_, mem_grafted.2 (Or.inl ⟨X, hX, rfl⟩), hXid, hXp⟩
    · rintro ⟨X', hX', hXid, hXp⟩
      rcases mem_grafted.1 hX' with ⟨X, hX, rfl⟩ | rfl
      · exact (h.2.2 x).2 ⟨X, hX, hXid, hXp⟩
      · exact absurd hXp.symm hGP

/-- Sibling-list consistency is preserved by `emplaceFolder` of a new id,
other than the sentinel, that no folder names as its parent. -/
theorem Linked.emplaced {INVALID_FOLDER : FolderID} {defaultPartition : PartitionHandle}
    {id : FolderID} {P : Folder} {fs : List Folder} (hs : Linked INVALID_FOLDER fs)
    (hP : P ∈ fs) (hidne : id ≠ INVALID_FOLDER) (hid : id ∉ fs.map (·.id))
    (hnochild : ∀ G ∈ fs, G.parent ≠ id) :
    Linked INVALID_FOLDER (Lumix.grafted INVALID_FOLDER defaultPartition id P fs) := by
  refine ⟨?_, ?_⟩
  · rw [grafted_ids]
    refine List.nodup_append.2 ⟨hs.1, List.nodup_singleton _, ?_⟩
    intro a h1 h2
    rw [List.mem_singleton] at h2
    exact hid (h2 ▸ h1)
  · intro G' hG'
    rcases mem_grafted.1 hG' with ⟨G, hG, rfl⟩ | rfl
    · obtain ⟨l, hl⟩ := hs.2 G hG
      by_cases hGP : G.id = P.id
      · have : G = P := mem_unique hs.1 hG hP hGP
        subst this
        exact ⟨_, SiblingList.grafted_parent hidne hid hl⟩
      · exact ⟨_, SiblingList.grafted_other hs hP hGP hl⟩
    · refine ⟨[], rfl, List.nodup_nil, fun x => ⟨fun h => absurd h (List.not_mem_nil _), ?_⟩⟩
      rintro ⟨X', hX', _, hXp⟩
      rcases mem_grafted.1 hX' with ⟨X, hX, rfl⟩ | rfl
      · exact absurd hXp (hnochild X hX)
      · exact (hid (List.mem_map.2 ⟨P, hP, hXp⟩)).elim

/-- The forest is preserved by `emplaceFolder` of a new id other than the
sentinel. -/
theorem Forest.with_new {INVALID_FOLDER : FolderID} {defaultPartition : PartitionHandle}
    {id : FolderID} {P : Folder} {fs : List Folder} (hs : Forest INVALID_FOLDER fs)
    (hP : P ∈ fs) (hidne : id ≠ INVALID_FOLDER) (hid : id ∉ fs.map (·.id)) :
    Forest INVALID_FOLDER (Lumix.grafted INVALID_FOLDER defaultPartition id P fs) := by
  have hnochild : ∀ G ∈ fs, G.parent ≠ id := by
    intro G hG hGp
    obtain ⟨Q, hQ, hQid⟩ := hs.2.2 G hG (by rw [hGp]; exact hidne)
    exact hid (List.mem_map.2 ⟨Q, hQ, hQid.trans hGp⟩)
  obtain ⟨lP, hlP⟩ := hs.1.2 P hP
  refine ⟨hs.1.emplaced hP hidne hid hnochild, ?_, ?_⟩
  · intro G' hG' hroot
    rcases mem_grafted.1 hG' with ⟨G, hG, rfl⟩ | rfl
    · have hroot' : G.parent = INVALID_FOLDER := hroot
      obtain ⟨h1, h2⟩ := hs.2.1 G hG hroot'
      refine ⟨h1, ?_⟩
      have : ¬ (P.first_child ≠ INVALID_FOLDER ∧ G.id = P.first_child) := by
        rintro ⟨hne, hGc⟩
        have hhead : P.first_child ∈ lP := by
          have hh := FChain.head_eq hlP.1
          cases lP with
          | nil => exact absurd hh hne
          | cons y ys =>
            rw [hh]
            exact List.mem_cons_self _ _
        obtain ⟨C, hC, hCid, hCp⟩ := (hlP.2.2 _).1 hhead
        have hGC : G = C := mem_unique hs.1.1 hG hC (hGc.trans hCid.symm)
        exact hs.no_sentinel hP (by rw [← hCp, ← hGC, hroot'])
      simp only [graft, this, if_false, h2]
    · exact absurd hroot (hs.no_sentinel hP)
  · intro G' hG' hnroot
    rcases mem_grafted.1 hG' with ⟨G, hG, rfl⟩ | rfl
    · have hnroot' : G.parent ≠ INVALID_FOLDER := hnroot
      obtain ⟨Q, hQ, hQid⟩ := hs.2.2 G hG hnroot'
      exact ⟨_, mem_grafted.2 (Or.inl ⟨Q, hQ, rfl⟩), hQid⟩
    · exact ⟨_, mem_grafted.2 (Or.inl ⟨P, hP, rfl⟩), rfl⟩

theorem getFolder_append_left {fs : List Folder} {a : FolderID} {k : Nat}
    (h : getFolder fs a = some k) (l : List Folder) : getFolder (fs ++ l) a = some k := by
  induction fs generalizing k with
  | nil => simp [getFolder] at h
  | cons X fs ih =>
    unfold getFolder at h
    rw [List.cons_append]
    unfold getFolder
    split
    · rename_i hX
      rw [if_pos hX] at h
      exact h
    · rename_i hX
      rw [if_neg hX] at h
      simp only [Option.map_eq_some'] at h
      obtain ⟨j, hj, rfl⟩ := h
      rw [ih hj]
      rfl

theorem set_append_lt {α : Type} (l l' : List α) {k : Nat} (hk : k < l.length) (a : α) :
    (l ++ l').set k a = l.set k a ++ l' := by
  induction l generalizing k with
  | nil => simp at hk
  | cons x l ih =>
    cases k with
    | zero => rfl
    | succ k =>
      simp only [List.cons_append, List.set_cons_succ, List.cons.injEq, true_and]
      exact ih (by simpa using hk)

/-- The assignments of `emplaceFolder`, on a table with distinct ids in which
the `first_child` of the parent is the sentinel or the id of a folder: the
table becomes `grafted`. -/
theorem emplaceFolder_eq {INVALID_FOLDER : FolderID} {defaultPartition : PartitionHandle}
    {s : EntityFolders} {rand rand' : List FolderID} {folder id : FolderID} {P : Folder}
    (hnd : (s.m_folders.map (·.id)).Nodup) (hP : P ∈ s.m_folders)
    (hPne : P.id ≠ INVALID_FOLDER)
    (hchild : P.first_child ≠ INVALID_FOLDER → P.first_child ∈ s.m_folders.map (·.id))
    (hsel : (if folder = INVALID_FOLDER then generateUniqueID s.m_folders rand
      else some (folder, rand)) = some (id, rand')) :
    emplaceFolder INVALID_FOLDER defaultPartition s rand folder P.id =
      some (id, { s with m_folders := grafted INVALID_FOLDER defaultPartition id P s.m_folders },
        rand') := by
  obtain ⟨p, hp, hPp⟩ := getFolder_index hnd hP
  have hplt : p < s.m_folders.length := (List.getElem?_eq_some.1 hPp).1
  unfold emplaceFolder
  simp only [Option.bind_eq_bind, Option.pure_def, hPne, if_false, Option.some_bind]
  rw [hsel]
  simp only [Option.some_bind]
  rw [getFolder_append_left hp, Option.some_bind, List.getElem?_append_left hplt, hPp,
    Option.some_bind]
  obtain ⟨N0, hN0⟩ : ∃ N0 : Folder, N0 = { Folder.emplaced INVALID_FOLDER defaultPartition with
      id := id, name := "Folder", parent := P.id } := ⟨_, rfl⟩
  rw [← hN0]
  by_cases hc : P.first_child = INVALID_FOLDER
  · rw [if_neg (not_not.2 hc), Option.some_bind, List.getElem?_append_left hplt, hPp,
      Option.some_bind]
    have htab : (s.m_folders ++ [N0]).set p { P with first_child := id } =
        grafted INVALID_FOLDER defaultPartition id P s.m_folders := by
      rw [set_append_lt _ _ hplt, set_eq_map hnd hPp (fun Z => { Z with first_child := id })]
      unfold grafted
      congr 1
      · apply List.map_congr_left
        intro Z _
        by_cases hZ : Z.id = P.id
        · simp [graft, hZ, hc]
        · simp [graft, hZ, hc]
      · rw [hN0]
        unfold newFolder
        rw [hc]
        rfl
    rw [htab]
  · obtain ⟨C, hC, hCid⟩ := List.mem_map.1 (hchild hc)
    obtain ⟨c, hcg, hCc⟩ := getFolder_index hnd hC
    have hclt : c < s.m_folders.length := (List.getElem?_eq_some.1 hCc).1
    rw [hCid] at hcg
    have hN1 : { N0 with next := P.first_child } =
        newFolder INVALID_FOLDER defaultPartition id P := by
      rw [hN0]
      rfl
    have ht1 : s.m_folders.set c { C with prev := id } =
        s.m_folders.map (fun Z => if Z.id = C.id then { Z with prev := id } else Z) :=
      set_eq_map hnd hCc (fun Z => { Z with prev := id })
    obtain ⟨g1, hg1⟩ : ∃ g1 : Folder → Folder,
        g1 = fun Z => if Z.id = C.id then { Z with prev := id } else Z := ⟨_, rfl⟩
    rw [← hg1] at ht1
    have hg1id : ∀ Z, (g1 Z).id = Z.id := by
      intro Z
      rw [hg1]
      dsimp only
      split <;> rfl
    have hnd1 : ((s.m_folders.map g1).map (·.id)).Nodup := by
      rw [map_ids hg1id]
      exact hnd
    have hP1 : (s.m_folders.map g1)[p]? = some (g1 P) := by
      rw [List.getElem?_map, hPp]
      rfl
    have ht2 : (s.m_folders.map g1).set p { g1 P with first_child := id } =
        (s.m_folders.map g1).map
          (fun Z => if Z.id = (g1 P).id then { Z with first_child := id } else Z) :=
      set_eq_map hnd1 hP1 (fun Z => { Z with first_child := id })
    have hfinal : (s.m_folders.map g1).map
        (fun Z => if Z.id = (g1 P).id then { Z with first_child := id } else Z) =
          s.m_folders.map (graft INVALID_FOLDER id P) := by
      rw [List.map_map]
      apply List.map_congr_left
      intro Z _
      simp only [Function.comp, hg1id, hg1, graft, hCid, hc, ne_eq, not_false_eq_true, true_and]
      split_ifs <;> rfl
    rw [if_pos hc, List.getElem?_concat_length, Option.some_bind, set_append_last, hN1,
      getFolder_append_left hcg, Option.some_bind, List.getElem?_append_left hclt, hCc,
      Option.some_bind, Option.some_bind, set_append_lt _ _ hclt, ht1,
      List.getElem?_append_left (by rw [List.length_map]; exact hplt), hP1, Option.some_bind,
      set_append_lt _ _ (by rw [List.length_map]; exact hplt), ht2, hfinal]
    rfl


/-- A folder whose `first_child` is the sentinel has an empty sibling list. -/
theorem SiblingList.nil_of_no_child {INVALID_FOLDER : FolderID} {fs : List Folder} {F : Folder}
    {l : List FolderID} (h : SiblingList INVALID_FOLDER fs F l)
    (hc : F.first_child = INVALID_FOLDER) : l = [] := by
  have hch := h.1
  cases l with
  | nil => rfl
  | cons x rest => exact absurd (hch.1.symm.trans hc) hch.2.1

end Lemmas

/-! ## The claims -/

/-- C1 (amended). Call a state consistent when it is well-formed as the claim
says (folder ids pairwise distinct; every folder's chain from `first_entity`
along `next` is finite, repeats no entity, holds exactly the entities whose
record names the folder, starts with `prev == INVALID` and has every later
`prev` equal to the predecessor) and moreover no folder has the id
`INVALID_FOLDER` and every linkage record names `INVALID_FOLDER` or a folder
of the table. The manager constructed from a random id other than
`INVALID_FOLDER` is consistent; on a consistent state `moveToFolder(e, f)`
with `f` in the table and `onEntityDestroyed(e)` with `e` assigned to a folder
complete and give a consistent state; so does every sequence of such calls. -/
theorem C1_membership_invariant (INVALID_FOLDER : FolderID) (defaultPartition : PartitionHandle) :
    (∀ (w : World) (id : FolderID) (rest : List FolderID), w.first_entity = none →
      id ≠ INVALID_FOLDER →
      ∃ s, construct INVALID_FOLDER defaultPartition w (id :: rest) = some (s, rest) ∧
        Consistent INVALID_FOLDER s) ∧
    (∀ (s : EntityFolders) (e : EntityRef) (f : FolderID), Consistent INVALID_FOLDER s →
      (∃ F ∈ s.m_folders, F.id = f) →
      ∃ s', moveToFolder INVALID_FOLDER s e f = some s' ∧ Consistent INVALID_FOLDER s') ∧
    (∀ (s : EntityFolders) (e : EntityRef) (x : Entity), Consistent INVALID_FOLDER s →
      s.m_entities[e]? = some x → x.folder ≠ INVALID_FOLDER →
      ∃ s', onEntityDestroyed INVALID_FOLDER s e = some s' ∧ Consistent INVALID_FOLDER s') ∧
    (∀ (calls : List Call) (s s' : EntityFolders), Consistent INVALID_FOLDER s →
      runCalls INVALID_FOLDER calls s = some s' → Consistent INVALID_FOLDER s') :=
  ⟨fun w id rest hw hid => construct_consistent INVALID_FOLDER defaultPartition w id rest hw hid,
   fun _ e _ hs hf => moveToFolder_consistent hs e hf,
   fun _ _ _ hs hx hxf => onEntityDestroyed_consistent hs hx hxf,
   fun calls _ _ hs h => runCalls_consistent calls hs h⟩

/-- C1 as stated fails, whatever the value of `INVALID_FOLDER`. First: a state
that is well-formed in the sense of the claim, with one folder and one entity
whose record names a folder that is not in the table; `moveToFolder` of that
entity into the folder of the table stops in `getFolder`'s assertion. Second:
a well-formed state with a folder whose id is `INVALID_FOLDER`;
`moveToFolder(1, f)` completes, growing the linkage array by an unset record
for entity 0, which names that folder without being in its list. -/
theorem C1_counterexample :
    (¬ ∃ INVALID_FOLDER : FolderID, ∀ (s : EntityFolders) (e : EntityRef) (f : FolderID),
      WellFormed s → (∃ F ∈ s.m_folders, F.id = f) →
      ∃ s', moveToFolder INVALID_FOLDER s e f = some s' ∧ WellFormed s') ∧
    (¬ ∃ INVALID_FOLDER : FolderID, ∀ (s s' : EntityFolders) (e : EntityRef) (f : FolderID),
      WellFormed s → (∃ F ∈ s.m_folders, F.id = f) →
      moveToFolder INVALID_FOLDER s e f = some s' → WellFormed s') := by
  constructor
  · rintro ⟨INV, h⟩
    have hwf : WellFormed
        { m_entities := [⟨INV + 2, none, none⟩]
          m_folders := [{ Folder.emplaced INV 0 with id := INV + 1 }]
          m_selected_folder := INV + 1
          m_ignore_new_entities := false
          m_world := ⟨none, 0, []⟩ } := by
      refine ⟨by simp, fun F hF => ?_⟩
      simp only [List.mem_singleton] at hF
      subst hF
      refine ⟨[], rfl, List.nodup_nil, fun i => ?_⟩
      cases i <;> simp
    obtain ⟨s', hs', _⟩ := h _ 0 (INV + 1) hwf ⟨_, List.mem_singleton.2 rfl, rfl⟩
    simp [moveToFolder, grow, getFolder, detach] at hs'
  · rintro ⟨INV, h⟩
    have hwf : WellFormed
        { m_entities := []
          m_folders := [{ Folder.emplaced INV 0 with id := INV },
            { Folder.emplaced INV 0 with id := INV + 1 }]
          m_selected_folder := INV + 1
          m_ignore_new_entities := false
          m_world := ⟨none, 0, []⟩ } := by
      refine ⟨by simp, fun F hF => ?_⟩
      exact ⟨[], by
        simp only [List.mem_cons, List.mem_singleton, List.not_mem_nil, or_false] at hF
        rcases hF with rfl | rfl <;> rfl, List.nodup_nil, fun i => by simp⟩
    have hmv : moveToFolder INV
        { m_entities := []
          m_folders := [{ Folder.emplaced INV 0 with id := INV },
            { Folder.emplaced INV 0 with id := INV + 1 }]
          m_selected_folder := INV + 1
          m_ignore_new_entities := false
          m_world := ⟨none, 0, []⟩ } 1 (INV + 1) =
        some
          { m_entities := [⟨INV, none, none⟩, ⟨INV + 1, none, none⟩]
            m_folders := [{ Folder.emplaced INV 0 with id := INV },
              { Folder.emplaced INV 0 with id := INV + 1, first_entity := some 1 }]
            m_selected_folder := INV + 1
            m_ignore_new_entities := false
            m_world := ⟨none, 0, []⟩ } := by
      simp [moveToFolder, grow, getFolder, detach, pushFront, Entity.unset, Folder.emplaced,
        INVALID_ENTITY, List.replicate]
    obtain ⟨_, hall⟩ := h _ _ 1 (INV + 1) hwf ⟨_, List.mem_cons_of_mem _ (List.mem_singleton.2 rfl), rfl⟩ hmv
    obtain ⟨l, hc, _, hm⟩ := hall { Folder.emplaced INV 0 with id := INV } (List.mem_cons_self _ _)
    cases l with
    | nil =>
      have := (hm 0).2 ⟨⟨INV, none, none⟩, rfl, rfl⟩
      cases this
    | cons a l => exact absurd hc.1 (by simp [Folder.emplaced, INVALID_ENTITY])

/-- Witness for C1: the construction from the random id 5, a move of entity 1
of the example state into folder 7, and the destruction of entity 1, with
sentinel 0. -/
theorem C1_membership_invariant_witness :
    (∃ s, construct 0 0 ⟨none, 0, []⟩ [5] = some (s, []) ∧ Consistent 0 s) ∧
    (∃ s', moveToFolder 0 exampleState 1 7 = some s' ∧ Consistent 0 s') ∧
    (∃ s', onEntityDestroyed 0 exampleState 1 = some s' ∧ Consistent 0 s') :=
  ⟨(C1_membership_invariant 0 0).1 ⟨none, 0, []⟩ 5 [] rfl (by decide),
   (C1_membership_invariant 0 0).2.1 exampleState 1 7 exampleState_consistent
     ⟨_, List.mem_cons_of_mem _ (List.mem_singleton.2 rfl), rfl⟩,
   (C1_membership_invariant 0 0).2.2.1 exampleState 1 ⟨5, some 0, some 2⟩
     exampleState_consistent rfl (by decide)⟩

/-- C2 (amended): on a consistent state (well-formed, no folder with the
sentinel id, every record naming the sentinel or a folder of the table),
`moveToFolder(e, f)` with `f` in the table completes and afterwards:
`getFolder(e) == f`; the `first_entity` of `f` is `e`; `getNextEntity(e)` is
the head of the old list of `f` without `e` (INVALID when that is empty); the
folder at every position keeps all its fields but `first_entity`, and its
list is its old list without `e`, in unchanged order, with `e` put in front
for `f`; a folder other than `f` whose list did not hold `e` keeps its record
and its list. In the scenario of the spec, for every random stream whose
first value `R` and whose generated id `F1` are not the sentinel, the
scenario completes with `getFolder(e1) == F1`, the list of `R` equal to
`[e2, e0]` and the list of `F1` equal to `[e1]`. -/
theorem C2_moveToFolder_post (INVALID_FOLDER : FolderID) (defaultPartition : PartitionHandle) :
    (∀ (s : EntityFolders) (e : EntityRef) (f : FolderID), Consistent INVALID_FOLDER s →
      (∃ F ∈ s.m_folders, F.id = f) →
      ∃ s' : EntityFolders, moveToFolder INVALID_FOLDER s e f = some s' ∧
        getFolderOfEntity s' e = some f ∧
        (∀ F' ∈ s'.m_folders, F'.id = f → F'.first_entity = some e) ∧
        (∀ F ∈ s.m_folders, F.id = f → ∀ l, MemberList s.m_entities F l →
          getNextEntity s' e = some (l.erase e).head?) ∧
        (∀ (k : Nat) (F : Folder) (l : List Nat), s.m_folders[k]? = some F →
          MemberList s.m_entities F l →
          ∃ F', s'.m_folders[k]? = some F' ∧ F' = { F with first_entity := F'.first_entity } ∧
            MemberList s'.m_entities F' (if F.id = f then e :: l.erase e else l.erase e)) ∧
        (∀ (k : Nat) (F : Folder) (l : List Nat), s.m_folders[k]? = some F →
          MemberList s.m_entities F l → F.id ≠ f → e ∉ l →
          s'.m_folders[k]? = some F ∧ MemberList s'.m_entities F l)) ∧
    (∀ (w : World) (R F1 : FolderID) (rand rand' : List FolderID), w.first_entity = none →
      R ≠ INVALID_FOLDER →
      generateUniqueID [{ Folder.emplaced INVALID_FOLDER defaultPartition with
        id := R, name := "root" }] rand = some (F1, rand') →
      F1 ≠ INVALID_FOLDER →
      ∃ s5 : EntityFolders, scenario INVALID_FOLDER defaultPartition w (R :: rand) = some (R, F1, s5) ∧
        getFolderOfEntity s5 1 = some F1 ∧
        (∃ F ∈ s5.m_folders, F.id = R ∧ MemberList s5.m_entities F [2, 0]) ∧
        (∃ F ∈ s5.m_folders, F.id = F1 ∧ MemberList s5.m_entities F [1])) := by
  constructor
  · intro s e f hs hf
    obtain ⟨s', x, D, dst, hmv, hx, hD, hDid, _, _, _, _, hflen, ⟨nxt, hnew⟩, hfold, hlists⟩ :=
      moveToFolder_spec hs e hf
    have hfirst : ∀ (k : Nat) (F : Folder), s.m_folders[k]? = some F → F.id = f →
        ∃ F' l, s'.m_folders[k]? = some F' ∧ F'.first_entity = some e ∧
          MemberList s.m_entities F l ∧ nxt = (l.erase e).head? := by
      intro k F hF hid
      obtain ⟨l, hl⟩ := hs.1.2 F (mem_of_getElem? hF)
      obtain ⟨F', h1, _, hc, _, _⟩ := hlists k F l hF hl
      rw [if_pos hid] at hc
      obtain ⟨hh, r, hr, _, hrest⟩ := hc
      rw [hnew] at hr; cases hr
      exact ⟨F', l, h1, hh, hl, hrest.head⟩
    refine ⟨s', hmv, by simp [getFolderOfEntity, hnew], ?_, ?_, hlists, ?_⟩
    · intro F' hF' hid
      obtain ⟨k, hk⟩ := List.mem_iff_getElem?.1 hF'
      have hkl : k < s.m_folders.length := by
        have := (List.getElem?_eq_some.1 hk).1; omega
      obtain ⟨l, hl⟩ := hs.1.2 _ (List.getElem_mem hkl)
      obtain ⟨F'', h1, h2, _⟩ := hlists k _ l (List.getElem?_eq_getElem hkl) hl
      rw [hk] at h1; cases h1
      have hid' : (s.m_folders[k]).id = f := by rw [← hid, h2]
      obtain ⟨F2, _, h3, h4, _⟩ := hfirst k _ (List.getElem?_eq_getElem hkl) hid'
      rw [hk] at h3; cases h3
      exact h4
    · intro F hF hid l hl
      obtain ⟨k, hk⟩ := List.mem_iff_getElem?.1 hF
      obtain ⟨_, l', _, _, hl', hn⟩ := hfirst k F hk hid
      have : l = l' := Chain.unique hl.1 hl'.1
      subst this
      simp [getNextEntity, hnew, hn]
    · intro k F l hF hl hid he
      obtain ⟨F', h1, h2, hm⟩ := hlists k F l hF hl
      rw [if_neg hid, List.erase_of_not_mem he] at hm
      have hfe : F'.first_entity = F.first_entity := by rw [hm.1.head, hl.1.head]
      have : F' = F := by rw [h2, hfe]
      subst this
      exact ⟨h1, hm⟩
  · intro w R F1 rand rand' hw hR hgen hF1
    obtain ⟨hne, hsc⟩ := scenario_eq INVALID_FOLDER defaultPartition w R F1 rand rand' hw hR hgen hF1
    have hne' : ¬ R = F1 := fun h => hne h.symm
    refine ⟨_, hsc, rfl, ⟨_, List.mem_cons_self _ _, rfl, ?_⟩,
      ⟨_, List.mem_cons_of_mem _ (List.mem_singleton.2 rfl), rfl, ?_⟩⟩
    · refine ⟨⟨rfl, _, rfl, rfl, rfl, _, rfl, rfl, rfl⟩, by decide, fun i => ?_⟩
      rcases i with _ | _ | _ | i <;> simp [hne]
    · refine ⟨⟨rfl, _, rfl, rfl, rfl⟩, by decide, fun i => ?_⟩
      rcases i with _ | _ | _ | i <;> simp [hne']

/-- C2 as stated fails, whatever the value of `INVALID_FOLDER`. First: on a
state that is well-formed in the sense of the claim but holds an entity whose
record names a folder that is not in the table, `moveToFolder` stops in an
assertion, so that no state with `getFolder(e) == f` results. Second: on a
well-formed state with a folder `A` whose id is `INVALID_FOLDER` and whose
list is `[0, 1]`, `moveToFolder(0, f)` into another folder completes without
unlinking entity 0, and `A` (which is not `f`) no longer has the list `[1]`. -/
theorem C2_counterexample :
    (¬ ∃ INVALID_FOLDER : FolderID, ∀ (s : EntityFolders) (e : EntityRef) (f : FolderID),
      WellFormed s → (∃ F ∈ s.m_folders, F.id = f) →
      ∃ s', moveToFolder INVALID_FOLDER s e f = some s' ∧ getFolderOfEntity s' e = some f) ∧
    (¬ ∃ INVALID_FOLDER : FolderID, ∀ (s s' : EntityFolders) (e : EntityRef) (f : FolderID),
      WellFormed s → (∃ F ∈ s.m_folders, F.id = f) →
      moveToFolder INVALID_FOLDER s e f = some s' →
      ∀ (k : Nat) (F : Folder) (l : List Nat), s.m_folders[k]? = some F →
        MemberList s.m_entities F l → F.id ≠ f →
        ∃ F', s'.m_folders[k]? = some F' ∧ MemberList s'.m_entities F' (l.erase e)) := by
  constructor
  · rintro ⟨INV, h⟩
    have hwf : WellFormed
        { m_entities := [⟨INV + 3, none, none⟩]
          m_folders := [{ Folder.emplaced INV 0 with id := INV + 1 }]
          m_selected_folder := INV + 1
          m_ignore_new_entities := false
          m_world := ⟨none, 0, []⟩ } := by
      refine ⟨by simp, fun F hF => ?_⟩
      simp only [List.mem_singleton] at hF
      subst hF
      refine ⟨[], rfl, List.nodup_nil, fun i => ?_⟩
      cases i <;> simp
    obtain ⟨s', hs', _⟩ := h _ 0 (INV + 1) hwf ⟨_, List.mem_singleton.2 rfl, rfl⟩
    simp [moveToFolder, grow, getFolder, detach] at hs'
  · rintro ⟨INV, h⟩
    have hwf : WellFormed
        { m_entities := [⟨INV, some 1, none⟩, ⟨INV, none, some 0⟩, ⟨INV + 1, none, none⟩]
          m_folders := [{ Folder.emplaced INV 0 with id := INV, first_entity := some 0 },
            { Folder.emplaced INV 0 with id := INV + 1, first_entity := some 2 }]
          m_selected_folder := INV + 1
          m_ignore_new_entities := false
          m_world := ⟨none, 0, []⟩ } := by
      refine ⟨by simp, fun F hF => ?_⟩
      simp only [List.mem_cons, List.mem_singleton, List.not_mem_nil, or_false] at hF
      rcases hF with rfl | rfl
      · refine ⟨[0, 1], ⟨rfl, _, rfl, rfl, rfl, _, rfl, rfl, rfl⟩, by decide, fun i => ?_⟩
        rcases i with _ | _ | _ | i <;> simp
      · refine ⟨[2], ⟨rfl, _, rfl, rfl, rfl⟩, by decide, fun i => ?_⟩
        rcases i with _ | _ | _ | i <;> simp
    have hmv : moveToFolder INV
        { m_entities := [⟨INV, some 1, none⟩, ⟨INV, none, some 0⟩, ⟨INV + 1, none, none⟩]
          m_folders := [{ Folder.emplaced INV 0 with id := INV, first_entity := some 0 },
            { Folder.emplaced INV 0 with id := INV + 1, first_entity := some 2 }]
          m_selected_folder := INV + 1
          m_ignore_new_entities := false
          m_world := ⟨none, 0, []⟩ } 0 (INV + 1) =
        some
          { m_entities := [⟨INV + 1, some 2, none⟩, ⟨INV, none, some 0⟩, ⟨INV + 1, none, some 0⟩]
            m_folders := [{ Folder.emplaced INV 0 with id := INV, first_entity := some 0 },
              { Folder.emplaced INV 0 with id := INV + 1, first_entity := some 0 }]
            m_selected_folder := INV + 1
            m_ignore_new_entities := false
            m_world := ⟨none, 0, []⟩ } := by
      simp [moveToFolder, grow, getFolder, detach, pushFront, Entity.unset, Folder.emplaced,
        INVALID_ENTITY, setPrev]
    obtain ⟨F', hF', hc, _⟩ := h _ _ 0 (INV + 1) hwf
      ⟨_, List.mem_cons_of_mem _ (List.mem_singleton.2 rfl), rfl⟩ hmv 0
      { Folder.emplaced INV 0 with id := INV, first_entity := some 0 } [0, 1] rfl
      ⟨⟨rfl, _, rfl, rfl, rfl, _, rfl, rfl, rfl⟩, by decide, fun i => by
        rcases i with _ | _ | _ | i <;> simp⟩ (by simp)
    simp only [List.getElem?_cons_zero, Option.some.injEq] at hF'
    subst hF'
    exact absurd hc.1 (by simp)

/-- Witness for C2: entity 1 of the example state moved into folder 7, and the
scenario with the random values 5, 5, 7 and sentinel 0. -/
theorem C2_moveToFolder_post_witness :
    (∃ s', moveToFolder 0 exampleState 1 7 = some s' ∧ getFolderOfEntity s' 1 = some 7 ∧
      getNextEntity s' 1 = some none) ∧
    (∃ s5, scenario 0 0 ⟨none, 0, []⟩ [5, 5, 7] = some (5, 7, s5) ∧
      getFolderOfEntity s5 1 = some 7) := by
  obtain ⟨s', h1, h2, _, h4, _⟩ := (C2_moveToFolder_post 0 0).1 exampleState 1 7
    exampleState_consistent ⟨_, List.mem_cons_of_mem _ (List.mem_singleton.2 rfl), rfl⟩
  obtain ⟨s5, h5, h6, _⟩ := (C2_moveToFolder_post 0 0).2 ⟨none, 0, []⟩ 5 7 [5, 7] [] rfl
    (by decide) (by decide) (by decide)
  refine ⟨⟨s', h1, h2, ?_⟩, ⟨s5, h5, h6⟩⟩
  exact h4 _ (List.mem_cons_of_mem _ (List.mem_singleton.2 rfl)) rfl []
    ⟨rfl, by decide, fun i => by rcases i with _ | _ | _ | i <;> simp [exampleState]⟩

/-- C6 (amended): a completed `moveToFolder(e, f)` issues exactly one
`setPartition(e, partition of f)` request when `e` already belongs to a
folder, whether or not the partitions of the two folders differ (also when
`e` stays in its folder), and issues no request when `e` has no folder yet;
nothing else of the world changes. On a consistent state with `f` in the
table the call completes. -/
theorem C6_setPartition_request (INVALID_FOLDER : FolderID) :
    (∀ (s s' : EntityFolders) (e : EntityRef) (f : FolderID),
      moveToFolder INVALID_FOLDER s e f = some s' →
      ∃ (dst : Nat) (D : Folder), getFolder s.m_folders f = some dst ∧
        s.m_folders[dst]? = some D ∧ D.id = f ∧
        ((∃ g, getFolderOfEntity s e = some g ∧ g ≠ INVALID_FOLDER) →
          s'.m_world = { s.m_world with
            set_partition_calls := s.m_world.set_partition_calls ++ [(e, D.partition)] }) ∧
        ((¬ ∃ g, getFolderOfEntity s e = some g ∧ g ≠ INVALID_FOLDER) →
          s'.m_world = s.m_world)) ∧
    (∀ (s : EntityFolders) (e : EntityRef) (f : FolderID), Consistent INVALID_FOLDER s →
      (∃ F ∈ s.m_folders, F.id = f) → ∃ s', moveToFolder INVALID_FOLDER s e f = some s') := by
  constructor
  · intro s s' e f h
    obtain ⟨dst, D, x, hg, hD, hDid, hx, hw⟩ := moveToFolder_world h
    have hiff : (∃ g, getFolderOfEntity s e = some g ∧ g ≠ INVALID_FOLDER) ↔
        x.folder ≠ INVALID_FOLDER := by
      rw [grow_getElem?] at hx
      unfold getFolderOfEntity
      by_cases he : e < s.m_entities.length
      · simp only [he, if_true] at hx
        simp [hx]
      · simp only [he, if_false, le_refl, if_true, Option.some.injEq] at hx
        subst hx
        simp [List.getElem?_eq_none (Nat.le_of_not_lt he), Entity.unset]
    refine ⟨dst, D, hg, hD, hDid, fun hh => ?_, fun hh => ?_⟩
    · rw [hw, if_pos (hiff.1 hh)]; rfl
    · rw [hw, if_neg (mt hiff.2 hh)]
  · intro s e f hs hf
    obtain ⟨s', hmv, _⟩ := moveToFolder_consistent hs e hf
    exact ⟨s', hmv⟩

/-- C6 as stated fails, whatever the value of `INVALID_FOLDER`: in a consistent
state with one folder holding entity 0, `moveToFolder(0, f)` into that same
folder (source and destination partition equal) issues a `setPartition`
request. -/
theorem C6_counterexample :
    ¬ ∃ INVALID_FOLDER : FolderID, ∀ (s s' : EntityFolders) (e : EntityRef) (f : FolderID),
      Consistent INVALID_FOLDER s → moveToFolder INVALID_FOLDER s e f = some s' →
      ∀ (x : Entity) (G D : Folder), s.m_entities[e]? = some x → G ∈ s.m_folders →
        G.id = x.folder → D ∈ s.m_folders → D.id = f → G.partition = D.partition →
        s'.m_world.set_partition_calls = s.m_world.set_partition_calls := by
  rintro ⟨INV, h⟩
  have hc : Consistent INV
      { m_entities := [⟨INV + 1, none, none⟩]
        m_folders := [{ Folder.emplaced INV 0 with id := INV + 1, first_entity := some 0 }]
        m_selected_folder := INV + 1
        m_ignore_new_entities := false
        m_world := ⟨none, 0, []⟩ } := by
    refine ⟨⟨by simp, fun F hF => ?_⟩, fun F hF => ?_, fun r hr => ?_⟩
    · simp only [List.mem_singleton] at hF
      subst hF
      refine ⟨[0], ⟨rfl, _, rfl, rfl, rfl⟩, by decide, fun i => ?_⟩
      rcases i with _ | i <;> simp
    · simp only [List.mem_singleton] at hF
      subst hF
      simp
    · simp only [List.mem_singleton] at hr
      subst hr
      exact Or.inr ⟨_, List.mem_singleton.2 rfl, rfl⟩
  have hmv : moveToFolder INV
      { m_entities := [⟨INV + 1, none, none⟩]
        m_folders := [{ Folder.emplaced INV 0 with id := INV + 1, first_entity := some 0 }]
        m_selected_folder := INV + 1
        m_ignore_new_entities := false
        m_world := ⟨none, 0, []⟩ } 0 (INV + 1) =
      some
        { m_entities := [⟨INV + 1, none, none⟩]
          m_folders := [{ Folder.emplaced INV 0 with id := INV + 1, first_entity := some 0 }]
          m_selected_folder := INV + 1
          m_ignore_new_entities := false
          m_world := ⟨none, 0, [(0, 0)]⟩ } := by
    simp [moveToFolder, grow, getFolder, detach, pushFront, unlink, Entity.unset, Folder.emplaced,
      INVALID_ENTITY, World.setPartition]
  have := h _ _ 0 (INV + 1) hc hmv ⟨INV + 1, none, none⟩ _ _ rfl (List.mem_singleton.2 rfl) rfl
    (List.mem_singleton.2 rfl) rfl rfl
  simp at this

/-- Witness for C6: moving entity 1 of the example state from folder 5 into
folder 7, both of partition 0, issues the request `setPartition(1, 0)`. -/
theorem C6_setPartition_request_witness :
    ∃ s', moveToFolder 0 exampleState 1 7 = some s' ∧
      s'.m_world.set_partition_calls = [(1, 0)] := by
  refine ⟨exampleMoved, by decide, ?_⟩
  obtain ⟨dst, D, hg, hD, _, h1, _⟩ :=
    (C6_setPartition_request 0).1 exampleState exampleMoved 1 7 (by decide)
  have hdst : dst = 1 := by
    have : getFolder exampleState.m_folders 7 = some 1 := by decide
    rw [this] at hg; exact (Option.some.inj hg).symm
  subst hdst
  have hD' : D.partition = 0 := by
    have : exampleState.m_folders[1]? = some D := hD
    simp [exampleState] at this
    rw [← this]
  rw [h1 ⟨5, by decide, by decide⟩, hD']
  rfl

/-- C8. `generateUniqueID` returns the first listed random value that is the id
of no folder of the table, and it returns as soon as the stream holds such a
value; a completed `emplaceFolder(AUTO, parent)` appends a folder whose id is
none of the ids of the table, so that from a table with pairwise distinct ids
any number of repeated calls keeps all ids pairwise distinct. -/
theorem C8_collision_free_ids (INVALID_FOLDER : FolderID) (defaultPartition : PartitionHandle) :
    (∀ (fs : List Folder) (rand rest : List FolderID) (id : FolderID),
      generateUniqueID fs rand = some (id, rest) →
      (∀ F ∈ fs, F.id ≠ id) ∧
        ∃ pre, rand = pre ++ id :: rest ∧ ∀ x ∈ pre, ∃ F ∈ fs, F.id = x) ∧
    (∀ (fs : List Folder) (rand : List FolderID) (x : FolderID), x ∈ rand →
      (∀ F ∈ fs, F.id ≠ x) → ∃ id rest, generateUniqueID fs rand = some (id, rest)) ∧
    (∀ (s s' : EntityFolders) (rand rand' : List FolderID) (parent id : FolderID),
      (s.m_folders.map (·.id)).Nodup →
      emplaceFolder INVALID_FOLDER defaultPartition s rand INVALID_FOLDER parent =
        some (id, s', rand') →
      id ∉ s.m_folders.map (·.id) ∧ s'.m_folders.map (·.id) = s.m_folders.map (·.id) ++ [id] ∧
        (s'.m_folders.map (·.id)).Nodup) ∧
    (∀ (parents : List FolderID) (s s' : EntityFolders) (rand rand' : List FolderID)
      (ids : List FolderID), (s.m_folders.map (·.id)).Nodup →
      emplaceAuto INVALID_FOLDER defaultPartition parents s rand = some (ids, s', rand') →
      s'.m_folders.map (·.id) = s.m_folders.map (·.id) ++ ids ∧
        (s'.m_folders.map (·.id)).Nodup) :=
  ⟨fun _ _ _ _ h => generateUniqueID_first h,
   fun _ _ _ hx hf => generateUniqueID_returns hx hf,
   fun _ _ _ _ _ _ hnd h => emplaceFolder_nodup hnd h,
   fun parents _ _ _ _ _ hnd h => emplaceAuto_nodup parents hnd h⟩

/-- Witness for C8: three automatic folders added to the example state from a
random stream that repeats ids of the table. -/
theorem C8_collision_free_ids_witness :
    ∃ ids s' rand', emplaceAuto 0 0 [5, 7, 5] exampleState [5, 7, 9, 7, 11, 12, 13] =
        some (ids, s', rand') ∧ ids = [9, 11, 12] ∧
      s'.m_folders.map (·.id) = [5, 7] ++ ids ∧ (s'.m_folders.map (·.id)).Nodup := by
  have hsome : (emplaceAuto 0 0 [5, 7, 5] exampleState [5, 7, 9, 7, 11, 12, 13]).isSome = true := by
    decide
  obtain ⟨⟨ids, s', rand'⟩, h⟩ := Option.isSome_iff_exists.1 hsome
  have hids : (emplaceAuto 0 0 [5, 7, 5] exampleState [5, 7, 9, 7, 11, 12, 13]).map (·.1) =
      some [9, 11, 12] := by decide
  rw [h] at hids
  obtain ⟨h1, h2⟩ := (C8_collision_free_ids 0 0).2.2.2 [5, 7, 5] exampleState s' _ rand' ids
    (by decide) h
  exact ⟨ids, s', rand', h, Option.some.inj hids, h1, h2⟩

/-- C7 (amended). Provided the random source does not output `INVALID_FOLDER`
among the values consumed: the root folder created by the constructor, every
id returned by `generateUniqueID` and by `emplaceFolder` (automatic, or a
requested id, which is not the sentinel because the sentinel asks for an
automatic one) and the folder created by an additive legacy `deserialize` have
an id different from `INVALID_FOLDER`; and these operations, the legacy
`deserialize`, `moveToFolder`, `onEntityDestroyed`, `destroyFolder` and
`destroyPartitionFolders` keep a table without a sentinel id free of one. -/
theorem C7_ids_not_sentinel (INVALID_FOLDER : FolderID) (defaultPartition : PartitionHandle)
    (defaultId : FolderID) :
    (∀ (w : World) (id : FolderID) (rest rest' : List FolderID) (s : EntityFolders),
      id ≠ INVALID_FOLDER →
      construct INVALID_FOLDER defaultPartition w (id :: rest) = some (s, rest') →
      NoSentinel INVALID_FOLDER s) ∧
    (∀ (fs : List Folder) (rand rest : List FolderID) (id : FolderID),
      (∀ x ∈ rand, x ≠ INVALID_FOLDER) → generateUniqueID fs rand = some (id, rest) →
      id ≠ INVALID_FOLDER ∧ ∀ x ∈ rest, x ≠ INVALID_FOLDER) ∧
    (∀ (s s' : EntityFolders) (rand rand' : List FolderID) (folder parent id : FolderID),
      (∀ x ∈ rand, x ≠ INVALID_FOLDER) → NoSentinel INVALID_FOLDER s →
      emplaceFolder INVALID_FOLDER defaultPartition s rand folder parent = some (id, s', rand') →
      id ≠ INVALID_FOLDER ∧ NoSentinel INVALID_FOLDER s' ∧ ∀ x ∈ rand', x ≠ INVALID_FOLDER) ∧
    (∀ (s s' : EntityFolders) (rand rand' : List FolderID) (blob blob' : Blob)
      (entity_map : EntityMap) (additive : Bool),
      (∀ x ∈ rand, x ≠ INVALID_FOLDER) → NoSentinel INVALID_FOLDER s →
      deserializeLegacy INVALID_FOLDER defaultPartition defaultId s rand blob entity_map additive =
        some (s', blob', rand') →
      NoSentinel INVALID_FOLDER s' ∧ ∀ x ∈ rand', x ≠ INVALID_FOLDER) ∧
    (∀ (s s' : EntityFolders) (e : EntityRef) (f : FolderID), NoSentinel INVALID_FOLDER s →
      moveToFolder INVALID_FOLDER s e f = some s' → NoSentinel INVALID_FOLDER s') ∧
    (∀ (s s' : EntityFolders) (e : EntityRef), NoSentinel INVALID_FOLDER s →
      onEntityDestroyed INVALID_FOLDER s e = some s' → NoSentinel INVALID_FOLDER s') ∧
    (∀ (s s' : EntityFolders) (f : FolderID), NoSentinel INVALID_FOLDER s →
      destroyFolder INVALID_FOLDER s f = some s' → NoSentinel INVALID_FOLDER s') ∧
    (∀ (s : EntityFolders) (p : PartitionHandle), NoSentinel INVALID_FOLDER s →
      NoSentinel INVALID_FOLDER (destroyPartitionFolders s p)) := by
  have hgen : ∀ (fs : List Folder) (rand rest : List FolderID) (id : FolderID),
      (∀ x ∈ rand, x ≠ INVALID_FOLDER) → generateUniqueID fs rand = some (id, rest) →
      id ≠ INVALID_FOLDER ∧ ∀ x ∈ rest, x ≠ INVALID_FOLDER := by
    intro fs rand rest id hr h
    obtain ⟨h1, h2⟩ := generateUniqueID_mem h
    exact ⟨hr id h1, fun x hx => hr x (h2 x hx)⟩
  refine ⟨?_, hgen, ?_, ?_, ?_, ?_, ?_, ?_⟩
  · intro w id rest rest' s hid h
    unfold construct at h
    split at h
    · cases h
    · simp only [Option.some.injEq, Prod.mk.injEq] at h
      obtain ⟨rfl, _⟩ := h
      intro F hF
      simp only [List.mem_singleton] at hF
      subst hF
      exact hid
  · intro s s' rand rand' folder parent id hr hs h
    obtain ⟨hids, hcase⟩ := emplaceFolder_ids h
    have hid : id ≠ INVALID_FOLDER ∧ ∀ x ∈ rand', x ≠ INVALID_FOLDER := by
      split at hcase
      · exact hgen _ _ _ _ hr hcase
      · rename_i hf
        obtain ⟨rfl, rfl⟩ := hcase
        exact ⟨hf, hr⟩
    refine ⟨hid.1, ?_, hid.2⟩
    intro F' hF' hF'id
    have : F'.id ∈ s.m_folders.map (·.id) ++ [id] := hids ▸ List.mem_map.2 ⟨F', hF', rfl⟩
    rcases List.mem_append.1 this with h1 | h1
    · obtain ⟨F, hF, hFid⟩ := List.mem_map.1 h1
      exact hs F hF (hFid.trans hF'id)
    · rw [List.mem_singleton] at h1
      exact hid.1 (h1.symm.trans hF'id)
  · intro s s' rand rand' blob blob' entity_map additive hr hs h
    have hids := deserializeLegacy_ids h
    cases additive with
    | true =>
      simp only [if_true] at hids
      obtain ⟨id, hg, hids⟩ := hids
      obtain ⟨hid, hrest⟩ := hgen _ _ _ _ hr hg
      refine ⟨?_, hrest⟩
      intro F' hF' hF'id
      have : F'.id ∈ s.m_folders.map (·.id) ++ [id] := hids ▸ List.mem_map.2 ⟨F', hF', rfl⟩
      rcases List.mem_append.1 this with h1 | h1
      · obtain ⟨F, hF, hFid⟩ := List.mem_map.1 h1
        exact hs F hF (hFid.trans hF'id)
      · rw [List.mem_singleton] at h1
        exact hid (h1.symm.trans hF'id)
    | false =>
      simp only [Bool.false_eq_true, if_false] at hids
      obtain ⟨hids, rfl⟩ := hids
      exact ⟨hs.of_ids (fun x hx => hids ▸ hx), hr⟩
  · intro s s' e f hs h
    exact hs.of_ids (fun x hx => moveToFolder_ids h ▸ hx)
  · intro s s' e hs h
    exact hs.of_ids (fun x hx => onEntityDestroyed_ids h ▸ hx)
  · intro s s' f hs h
    obtain ⟨fs3, h1, h2⟩ := destroyFolder_ids h
    refine hs.of_ids (fun x hx => ?_)
    rw [h2] at hx
    obtain ⟨F, hF, rfl⟩ := List.mem_map.1 hx
    rw [← h1]
    exact List.mem_map.2 ⟨F, (List.mem_filter.1 hF).1, rfl⟩
  · intro s p hs F hF
    exact hs F (List.mem_filter.1 hF).1

/-- C7 as stated fails, whatever the value of `INVALID_FOLDER`: the constructor
takes the id of the root folder from the random source unchecked, so that on
the output `INVALID_FOLDER` the root folder has the sentinel id. -/
theorem C7_counterexample :
    ¬ ∃ INVALID_FOLDER : FolderID, ∀ (defaultPartition : PartitionHandle) (w : World)
      (rand rest : List FolderID) (s : EntityFolders),
      construct INVALID_FOLDER defaultPartition w rand = some (s, rest) →
      ∀ F ∈ s.m_folders, F.id ≠ INVALID_FOLDER := by
  rintro ⟨INV, h⟩
  exact h 0 ⟨none, 0, []⟩ [INV] [] _ rfl _ (List.mem_singleton.2 rfl) rfl

/-- Witness for C7, with sentinel 0: the root made from the random value 5 and
a folder added to the example state from the random values 5, 9. -/
theorem C7_ids_not_sentinel_witness :
    (∀ s rest, construct 0 0 ⟨none, 0, []⟩ [5] = some (s, rest) → NoSentinel 0 s) ∧
    (∀ id s' rand', emplaceFolder 0 0 exampleState [5, 9] 0 5 = some (id, s', rand') →
      id ≠ 0 ∧ NoSentinel 0 s') :=
  ⟨fun s rest h => (C7_ids_not_sentinel 0 0 0).1 ⟨none, 0, []⟩ 5 [] rest s (by decide) h,
   fun id s' rand' h =>
    let r := (C7_ids_not_sentinel 0 0 0).2.2.1 exampleState s' [5, 9] rand' 0 5 id (by decide)
      exampleState_consistent.2.1 h
    ⟨r.1, r.2.1⟩⟩

/-- C5, the code at a failing input. `cloneTo` remaps `next` and `prev` through
the map, so that they are INVALID or values of the map, but it copies the
folder records verbatim, `first_entity` included. Cloning partition 0 of the
example state with the map `2 ↦ 0, 0 ↦ 1` (source entity 1 omitted) leaves
the copied root folder with `first_entity == 2`, which is no value of the map
and no index of the destination's linkage array. -/
theorem C5_cloneTo_first_entity :
    (∀ (INVALID_FOLDER : FolderID) (s dst dst' : EntityFolders) (p : PartitionHandle)
      (entity_map : List (EntityPtr × EntityPtr)),
      cloneTo INVALID_FOLDER s dst p entity_map = some dst' →
      dst'.m_folders = dst.m_folders ++ s.m_folders.filter (fun f => f.partition = p) ∧
      ∀ r ∈ dst'.m_entities,
        (r.next = INVALID_ENTITY ∨ r.next ∈ entity_map.map (·.2)) ∧
        (r.prev = INVALID_ENTITY ∨ r.prev ∈ entity_map.map (·.2))) ∧
    (cloneTo 0 exampleState cloneDst 0 [(some 2, some 0), (some 0, some 1)] = some cloneResult ∧
      (∃ F ∈ cloneResult.m_folders, F.id = 5 ∧ F.partition = 0 ∧ F.first_entity = some 2) ∧
      some 2 ∉ [(some 2, some 0), (some 0, some 1)].map (·.2) ∧
      cloneResult.m_entities[2]? = none) := by
  constructor
  · intro INVALID_FOLDER s dst dst' p entity_map h
    unfold cloneTo at h
    simp only [Option.bind_eq_bind, Option.bind_eq_some, Option.pure_def, Option.some.injEq] at h
    obtain ⟨ents, hents, rfl⟩ := h
    refine ⟨rfl, ?_⟩
    refine cloneEntities_refs (P := fun x => x = INVALID_ENTITY ∨ x ∈ entity_map.map (·.2))
      (Or.inl rfl) (fun x => ?_) entity_map (fun r hr => by cases hr) hents
    by_cases hx : x.isSome = true
    · simp only [hx, if_true]
      cases hl : List.lookup x entity_map with
      | none => exact Or.inl rfl
      | some v => exact Or.inr (List.mem_map.2 ⟨(x, v), lookup_mem hl, rfl⟩)
    · left
      simp only [hx, if_false, Bool.false_eq_true]
      cases x with
      | none => rfl
      | some _ => simp at hx
  · exact ⟨by decide, ⟨_, List.mem_cons_of_mem _ (List.mem_cons_self _ _), rfl, rfl, rfl⟩,
      by decide, by decide⟩

/-- C9 (amended). With a version newer than the cutoff, a blob that holds the
bytes of its layout and at least one folder record (and whose folder count
does not make the new table size wrap), for every prior state and entity map,
`deserialize` completes, consumes exactly the bytes of the layout, touches
neither the selection nor the world, and: the folder table is the prior table
(additive) or the empty table (otherwise) followed by the folder records of
the blob in blob order, `first_entity` replaced by its image under the map and
all other fields verbatim; for every source index `i` below the entity count
whose image `d` is valid and is not the image of a later index below the count,
linkage record `d` is the `i`-th record of the blob with `next` and `prev`
replaced by their images (INVALID when unmapped) and `folder` verbatim; a
linkage record that is the image of no index keeps its prior content, or is
unset when the array had to grow over it (records whose image is invalid are
consumed and change nothing). -/
theorem C9_current_format (INVALID_FOLDER : FolderID) (defaultPartition : PartitionHandle)
    (defaultId : FolderID) (L : Layout) (NEW_ENTITY_FOLDERS : Nat) (s : EntityFolders)
    (rand : List FolderID) (blob : Blob) (entity_map : EntityMap) (additive : Bool)
    (version : Nat) (hversion : NEW_ENTITY_FOLDERS < version)
    (hsize : blobSize L blob ≤ blob.length)
    (hidx : (if additive then s.m_folders else []).length <
      (blobFolderCount L blob + (if additive then s.m_folders else []).length) % 4294967296) :
    ∃ s' : EntityFolders,
      deserialize INVALID_FOLDER defaultPartition defaultId L NEW_ENTITY_FOLDERS s rand blob
        entity_map additive version = some (s', blob.drop (blobSize L blob), rand) ∧
      s'.m_selected_folder = s.m_selected_folder ∧ s'.m_world = s.m_world ∧
      s'.m_ignore_new_entities = s.m_ignore_new_entities ∧
      s'.m_folders = (if additive then s.m_folders else []) ++
        (List.range (blobFolderCount L blob)).map (fun j =>
          { blobFolder L blob j with
            first_entity := entity_map.get (blobFolder L blob j).first_entity }) ∧
      (∀ (i d : Nat), i < blobEntityCount blob → entity_map.get (sourceRef i) = some d →
        (∀ j, i < j → j < blobEntityCount blob → entity_map.get (sourceRef j) ≠ some d) →
        s'.m_entities[d]? = some
          { folder := (blobEntity L blob i).folder
            next := entity_map.get (blobEntity L blob i).next
            prev := entity_map.get (blobEntity L blob i).prev }) ∧
      (∀ d : Nat, (∀ i, i < blobEntityCount blob → entity_map.get (sourceRef i) ≠ some d) →
        s'.m_entities[d]? = s.m_entities[d]? ∨
          (s.m_entities[d]? = none ∧ s'.m_entities[d]? = some (Entity.unset INVALID_FOLDER))) := by
  obtain ⟨ents', hrun, ha, hb⟩ :=
    deserializeCurrent_spec INVALID_FOLDER L s blob entity_map additive hsize hidx
  refine ⟨{ s with
      m_entities := ents'
      m_folders := (if additive then s.m_folders else []) ++
        (List.range (blobFolderCount L blob)).map (fun j =>
          { blobFolder L blob j with
            first_entity := entity_map.get (blobFolder L blob j).first_entity }) },
    ?_, rfl, rfl, rfl, rfl, ha, hb⟩
  unfold deserialize
  rw [if_neg (Nat.not_le.2 hversion), hrun]
  rfl

/-- C9 as stated fails, whatever the value of `INVALID_FOLDER`: with the map
that sends the source indices 0 and 1 both to entity 0, the second record of
the blob overwrites the first, so that linkage record 0 does not hold the
record of source index 0. -/
theorem C9_counterexample :
    ¬ ∃ INVALID_FOLDER : FolderID, ∀ (L : Layout) (s s' : EntityFolders) (blob blob' : Blob)
      (entity_map : EntityMap) (additive : Bool),
      deserializeCurrent INVALID_FOLDER L s blob entity_map additive = some (s', blob') →
      ∀ (i d : Nat), i < blobEntityCount blob → entity_map.get (sourceRef i) = some d →
        s'.m_entities[d]? = some
          { folder := (blobEntity L blob i).folder
            next := entity_map.get (blobEntity L blob i).next
            prev := entity_map.get (blobEntity L blob i).prev } := by
  rintro ⟨INV, h⟩
  have hrun : deserializeCurrent INV exampleLayout blankState twoRecordBlob
      ⟨[some 0, some 0]⟩ false =
      some ({ blankState with
        m_entities := [⟨7, none, none⟩]
        m_folders := [⟨9, 0, 0, 0, 0, none, 0, "root"⟩] }, []) := rfl
  have := h _ _ _ _ _ _ _ hrun 0 0 (by decide) rfl
  revert this
  decide

/-- Witness for C9: the blob of two records read into the blank state with the
identity map. -/
theorem C9_current_format_witness :
    ∃ s' : EntityFolders,
      deserialize 0 0 0 exampleLayout 3 blankState [] twoRecordBlob ⟨[some 0, some 1]⟩ false 4 =
        some (s', [], []) ∧
      s'.m_folders = [⟨9, 0, 0, 0, 0, none, 0, "root"⟩] ∧
      s'.m_entities[1]? = some ⟨7, none, none⟩ := by
  obtain ⟨s', h1, _, _, _, h2, h3, _⟩ := C9_current_format 0 0 0 exampleLayout 3 blankState []
    twoRecordBlob ⟨[some 0, some 1]⟩ false 4 (by decide) (by decide) (by decide)
  have hcount : blobEntityCount twoRecordBlob = 2 := by decide
  exact ⟨s', h1, h2, h3 1 1 (by decide) (by decide) (fun j hj1 hj2 => by omega)⟩

/-- C3 (amended). Let `S` be a consistent state (well-formed, no folder with
the sentinel id, every record naming the sentinel or a folder of the table) in
which every record without a folder is unset, with at least one folder and
array sizes within `u32` (entities within `i32`), and let the layout
reproduce the records of `S`. If `entity_map` is the identity on every entity
index that has a folder in `S` and the identity or absent on every other
index of the array, then `deserialize` of `serialize(S)`, non-additive and
with a current-format version, applied to a freshly constructed `M`, completes,
consumes the whole blob and yields a folder table equal to the table of `S`
record for record, for every mapped entity the record it has in `S` (folder,
next, prev), and for every folder the member list it has in `S`. -/
theorem C3_round_trip (INVALID_FOLDER : FolderID) (defaultPartition : PartitionHandle)
    (defaultId : FolderID) (L : Layout) (NEW_ENTITY_FOLDERS : Nat) (S M : EntityFolders)
    (w : World) (rand rand' : List FolderID) (entity_map : EntityMap) (version : Nat)
    (hversion : NEW_ENTITY_FOLDERS < version)
    (hM : construct INVALID_FOLDER defaultPartition w rand = some (M, rand'))
    (hS : Tidy INVALID_FOLDER S) (hne : S.m_folders ≠ [])
    (hlenE : S.m_entities.length < 2147483648) (hlenF : S.m_folders.length < 4294967296)
    (hE : ∀ r ∈ S.m_entities, (L.encodeEntity r).length = L.entitySize ∧
      L.decodeEntity (L.encodeEntity r) = r)
    (hF : ∀ F ∈ S.m_folders, (L.encodeFolder F).length = L.folderSize ∧
      L.decodeFolder (L.encodeFolder F) = F)
    (hmap : ∀ (i : Nat) (x : Entity), S.m_entities[i]? = some x →
      entity_map.get (some i) = some i ∨
        (entity_map.get (some i) = none ∧ x = Entity.unset INVALID_FOLDER)) :
    ∃ s' : EntityFolders,
      deserialize INVALID_FOLDER defaultPartition defaultId L NEW_ENTITY_FOLDERS M rand'
        (serialize L S []) entity_map false version = some (s', [], rand') ∧
      s'.m_folders = S.m_folders ∧
      (∀ (i : Nat) (x : Entity), S.m_entities[i]? = some x → entity_map.get (some i) = some i →
        s'.m_entities[i]? = some x) ∧
      (∀ F ∈ S.m_folders, ∀ l, MemberList S.m_entities F l → MemberList s'.m_entities F l) := by
  obtain ⟨s', hrun, _, h1, h2, h3⟩ :=
    round_trip (construct_entities hM) hS hne hlenE hlenF hE hF hmap
  refine ⟨s', ?_, h1, h2, h3⟩
  unfold deserialize
  rw [if_neg (Nat.not_le.2 hversion), hrun]
  rfl

/-- C3 as stated fails, whatever the value of `INVALID_FOLDER`: `S` has the
root folder with entity 0 and an unset record for entity 1; the map is the
identity on index 0, the only one with a non-default record, and sends index
1 to entity 0 as well. The unset record, read second, overwrites linkage
record 0, so that the mapped entity 0 has lost its folder. -/
theorem C3_counterexample :
    ¬ ∃ INVALID_FOLDER : FolderID, ∀ (L : Layout) (S M s' : EntityFolders) (blob' : Blob)
      (entity_map : EntityMap), WellFormed S → M.m_entities = [] →
      (∀ r ∈ S.m_entities, (L.encodeEntity r).length = L.entitySize ∧
        L.decodeEntity (L.encodeEntity r) = r) →
      (∀ F ∈ S.m_folders, (L.encodeFolder F).length = L.folderSize ∧
        L.decodeFolder (L.encodeFolder F) = F) →
      (∀ (i : Nat) (x : Entity), S.m_entities[i]? = some x → x ≠ Entity.unset INVALID_FOLDER →
        entity_map.get (some i) = some i) →
      deserializeCurrent INVALID_FOLDER L M (serialize L S []) entity_map false =
        some (s', blob') →
      ∀ (i : Nat) (x : Entity), S.m_entities[i]? = some x → entity_map.get (some i) = some i →
        s'.m_entities[i]? = some x := by
  rintro ⟨INV, h⟩
  have hwf : WellFormed
      { m_entities := [⟨INV + 1, none, none⟩, ⟨INV, none, none⟩]
        m_folders := [⟨INV + 1, INV, INV, INV, INV, some 0, 0, "root"⟩]
        m_selected_folder := INV + 1
        m_ignore_new_entities := false
        m_world := ⟨none, 0, []⟩ } := by
    refine ⟨by simp, fun F hF => ?_⟩
    simp only [List.mem_singleton] at hF
    subst hF
    refine ⟨[0], ⟨rfl, _, rfl, rfl, rfl⟩, by decide, fun i => ?_⟩
    rcases i with _ | _ | i <;> simp
  have hrun : deserializeCurrent INV exampleLayout
      { m_entities := []
        m_folders := []
        m_selected_folder := 0
        m_ignore_new_entities := false
        m_world := ⟨none, 0, []⟩ }
      (serialize exampleLayout
        { m_entities := [⟨INV + 1, none, none⟩, ⟨INV, none, none⟩]
          m_folders := [⟨INV + 1, INV, INV, INV, INV, some 0, 0, "root"⟩]
          m_selected_folder := INV + 1
          m_ignore_new_entities := false
          m_world := ⟨none, 0, []⟩ } []) ⟨[some 0, some 0]⟩ false =
      some ({ m_entities := [⟨INV, none, none⟩]
              m_folders := [⟨INV + 1, INV, INV, INV, INV, some 0, 0, "root"⟩]
              m_selected_folder := 0
              m_ignore_new_entities := false
              m_world := ⟨none, 0, []⟩ }, []) := by
    simp [deserializeCurrent, serialize, exampleLayout, Blob.readU32, Blob.read, encodeU32,
      decodeLE, readEntities, EntityMap.get, sourceRef, grow, chunks, Entity.unset, INVALID_ENTITY]
  have := h exampleLayout _ _ _ _ _ hwf rfl
    (by
      intro r hr
      simp only [List.mem_cons, List.mem_singleton, List.not_mem_nil, or_false] at hr
      rcases hr with rfl | rfl <;> exact ⟨rfl, rfl⟩)
    (by
      intro F hF
      simp only [List.mem_singleton] at hF
      subst hF
      exact ⟨rfl, rfl⟩)
    (by
      intro i x hx hne
      rcases i with _ | _ | i
      · rfl
      · simp only [List.getElem?_cons_succ, List.getElem?_cons_zero, Option.some.injEq] at hx
        exact absurd hx.symm hne
      · simp at hx)
    hrun 0 ⟨INV + 1, none, none⟩ rfl rfl
  simp at this

/-- Witness for C3: the example state written in the example layout and read
back, with the identity map, by a manager constructed from the random id 3. -/
theorem C3_round_trip_witness :
    ∃ s' : EntityFolders,
      deserialize 0 0 0 exampleLayout 3 cloneDst [] (serialize exampleLayout exampleState [])
        ⟨[some 0, some 1, some 2]⟩ false 4 = some (s', [], []) ∧
      s'.m_folders = exampleState.m_folders ∧
      s'.m_entities[1]? = some ⟨5, some 0, some 2⟩ := by
  obtain ⟨s', h1, h2, h3, _⟩ := C3_round_trip 0 1 0 exampleLayout 3 exampleState cloneDst
    ⟨none, 1, []⟩ [3] [] ⟨[some 0, some 1, some 2]⟩ 4 (by decide) (by decide) exampleState_tidy
    (by decide) (by decide) (by decide) (by decide) (by decide)
    (by
      intro i x hx
      rcases i with _ | _ | _ | i
      · exact Or.inl rfl
      · exact Or.inl rfl
      · exact Or.inl rfl
      · simp [exampleState] at hx)
  exact ⟨s', h1, h2, h3 1 _ rfl rfl⟩

/-- C10 (amended). Legacy-format deserialize. Let the version be at most
`NEW_ENTITY_FOLDERS`, the prior state consistent (well-formed, no folder with
the sentinel id, every record naming the sentinel or a folder of the table),
the valid entries of `entity_map` pairwise distinct, each naming an entity
whose linkage record is absent or has no folder and `prev == INVALID` (its
`next` may hold anything), and the blob hold the two `i32` values
`count ≥ 0` and `size ≥ 0` (with `12 * count` within `i32`) and at least
`4 + 12 * count + 4 + size + 8` bytes; when additive let `generateUniqueID`
return an id other than the sentinel, when non-additive let the table have
exactly one folder. Then the call completes and consumes exactly
`4 + 12 * count + 4 + size + 8` bytes; any other blob with the same two values
gives the same state; the target folder `T` is a newly appended folder named
"root" with a fresh id and the active partition of the world when additive,
and the single existing folder otherwise; in the new table `T` differs at most
in `first_entity` and no other record is changed; every valid entity of the
map has `getFolder(e) == T.id`; the member list of `T` is the valid entries of
the map, last inserted first, followed by the previous members of `T`; and the
member lists of the other folders are as before. -/
theorem C10_legacy_format (INVALID_FOLDER : FolderID) (defaultPartition : PartitionHandle)
    (defaultId : FolderID) (L : Layout) (NEW_ENTITY_FOLDERS : Nat) (s : EntityFolders)
    (rand : List FolderID) (blob : Blob) (entity_map : EntityMap) (additive : Bool)
    (version count size : Nat)
    (hversion : version ≤ NEW_ENTITY_FOLDERS)
    (hs : Consistent INVALID_FOLDER s)
    (hdistinct : entity_map.m_map.reduceOption.Nodup)
    (hunset : ∀ e ∈ entity_map.m_map.reduceOption, ∀ r, s.m_entities[e]? = some r →
      r.folder = INVALID_FOLDER ∧ r.prev = INVALID_ENTITY)
    (hcount : blobI32 blob 0 = count) (hc12 : count * 12 < 2147483648)
    (hsize : blobI32 blob (4 + 12 * count) = size) (hs31 : size < 2147483648)
    (hlen : 4 + 12 * count + 4 + size + 8 ≤ blob.length)
    (hmode : if additive then
        ∃ id rand1, generateUniqueID (s.m_folders ++
          [{ Folder.emplaced INVALID_FOLDER defaultPartition with id := defaultId }]) rand =
            some (id, rand1) ∧ id ≠ INVALID_FOLDER
      else s.m_folders.length = 1) :
    ∃ (s' : EntityFolders) (rand1 : List FolderID) (T T' : Folder),
      deserialize INVALID_FOLDER defaultPartition defaultId L NEW_ENTITY_FOLDERS s rand blob
        entity_map additive version =
          some (s', blob.drop (4 + 12 * count + 4 + size + 8), rand1) ∧
      (∀ blob2 : Blob, blobI32 blob2 0 = count → blobI32 blob2 (4 + 12 * count) = size →
        4 + 12 * count + 4 + size + 8 ≤ blob2.length →
        deserialize INVALID_FOLDER defaultPartition defaultId L NEW_ENTITY_FOLDERS s rand blob2
          entity_map additive version =
            some (s', blob2.drop (4 + 12 * count + 4 + size + 8), rand1)) ∧
      (if additive then
        (∃ id, generateUniqueID (s.m_folders ++
            [{ Folder.emplaced INVALID_FOLDER defaultPartition with id := defaultId }]) rand =
              some (id, rand1) ∧
          T = { Folder.emplaced INVALID_FOLDER defaultPartition with
                id := id, partition := s.m_world.active_partition, name := "root" }) ∧
          T.id ∉ s.m_folders.map (·.id) ∧ MemberList s.m_entities T [] ∧
          s'.m_folders = s.m_folders ++ [T']
      else s.m_folders = [T] ∧ s'.m_folders = [T'] ∧ rand1 = rand) ∧
      T' = { T with first_entity := T'.first_entity } ∧
      (∀ e ∈ entity_map.m_map.reduceOption, getFolderOfEntity s' e = some T.id) ∧
      (∀ l, MemberList s.m_entities T l →
        MemberList s'.m_entities T' (entity_map.m_map.reduceOption.reverse ++ l)) ∧
      (∀ F ∈ s.m_folders, F.id ≠ T.id → ∀ l, MemberList s.m_entities F l →
        MemberList s'.m_entities F l) := by
  have key : ∀ (folder : Nat) (fs : List Folder) (rand1 : List FolderID) (T : Folder),
      (if additive then
        (generateUniqueID (s.m_folders ++ [{ Folder.emplaced INVALID_FOLDER defaultPartition with
          id := defaultId }]) rand).bind (fun r =>
            ((s.m_folders ++ [{ Folder.emplaced INVALID_FOLDER defaultPartition with
              id := defaultId }])[s.m_folders.length]?).bind (fun N =>
              some (s.m_folders.length,
                (s.m_folders ++ [{ Folder.emplaced INVALID_FOLDER defaultPartition with
                  id := defaultId }]).set s.m_folders.length
                  { N with id := r.1, partition := s.m_world.active_partition, name := "root" },
                r.2)))
      else if s.m_folders.length = 1 then some (0, s.m_folders, rand) else none) =
        some (folder, fs, rand1) →
      (fs.map (·.id)).Nodup → (∀ F ∈ fs, F.id ≠ INVALID_FOLDER) →
      (∀ F ∈ fs, ∃ l, MemberList s.m_entities F l) → fs[folder]? = some T →
      (∀ F ∈ s.m_folders, F.id ≠ T.id → ∃ k, k ≠ folder ∧ fs[k]? = some F) →
      ∃ (s' : EntityFolders) (T' : Folder),
        deserialize INVALID_FOLDER defaultPartition defaultId L NEW_ENTITY_FOLDERS s rand blob
          entity_map additive version =
            some (s', blob.drop (4 + 12 * count + 4 + size + 8), rand1) ∧
        (∀ blob2 : Blob, blobI32 blob2 0 = count → blobI32 blob2 (4 + 12 * count) = size →
          4 + 12 * count + 4 + size + 8 ≤ blob2.length →
          deserialize INVALID_FOLDER defaultPartition defaultId L NEW_ENTITY_FOLDERS s rand blob2
            entity_map additive version =
              some (s', blob2.drop (4 + 12 * count + 4 + size + 8), rand1)) ∧
        s'.m_folders = fs.set folder T' ∧
        T' = { T with first_entity := T'.first_entity } ∧
        (∀ e ∈ entity_map.m_map.reduceOption, getFolderOfEntity s' e = some T.id) ∧
        (∀ l, MemberList s.m_entities T l →
          MemberList s'.m_entities T' (entity_map.m_map.reduceOption.reverse ++ l)) ∧
        (∀ F ∈ s.m_folders, F.id ≠ T.id → ∀ l, MemberList s.m_entities F l →
          MemberList s'.m_entities F l) := by
    intro folder fs rand1 T hm hnd hid hml hT hother
    obtain ⟨ents', fs', T', hins, hfs', hsk, hTl, hrest⟩ :=
      legacyInsert_table entity_map.m_map hnd hid hml hT hdistinct hunset
    refine ⟨{ s with m_entities := ents', m_folders := fs' }, T', ?_, ?_, hfs', hsk, ?_, hTl, ?_⟩
    · unfold deserialize
      rw [if_pos hversion]
      exact deserializeLegacy_eq INVALID_FOLDER defaultPartition defaultId s rand blob entity_map
        additive count size hcount hc12 hsize hs31 hlen hm hins
    · intro blob2 h1 h2 h3
      unfold deserialize
      rw [if_pos hversion]
      exact deserializeLegacy_eq INVALID_FOLDER defaultPartition defaultId s rand blob2 entity_map
        additive count size h1 hc12 h2 hs31 h3 hm hins
    · intro e he
      obtain ⟨l, hl⟩ := hml T (mem_of_getElem? hT)
      obtain ⟨r, hr, hrf⟩ := ((hTl l hl).2.2 e).1
        (List.mem_append_left _ (List.mem_reverse.2 he))
      rw [hsk] at hrf
      simp only [getFolderOfEntity, hr, Option.map_some']
      exact congrArg some hrf
    · intro F hF hne l hl
      obtain ⟨k, hk, hFk⟩ := hother F hF hne
      exact hrest k F l hk hFk hl
  cases additive with
  | true =>
    simp only [if_true] at hmode key ⊢
    obtain ⟨id, rand1, hgen, hidne⟩ := hmode
    have hfresh : id ∉ s.m_folders.map (·.id) := by
      have := generateUniqueID_not_mem hgen
      intro hmem
      exact this (by simp only [List.map_append, List.mem_append]; exact Or.inl hmem)
    have hT0 : MemberList s.m_entities
        { Folder.emplaced INVALID_FOLDER defaultPartition with
          id := id, partition := s.m_world.active_partition, name := "root" } [] := by
      refine ⟨rfl, List.nodup_nil, fun i => ⟨fun h => absurd h (List.not_mem_nil _), ?_⟩⟩
      rintro ⟨r, hr, hrf⟩
      rcases hs.2.2 r (mem_of_getElem? hr) with h | ⟨F, hF, hFid⟩
      · exact absurd (hrf.symm.trans h) hidne
      · exact absurd (List.mem_map.2 ⟨F, hF, hFid.trans hrf⟩) hfresh
    obtain ⟨s', T', h1, h2, h3, h4, h5, h6, h7⟩ := key s.m_folders.length
      (s.m_folders ++ [{ Folder.emplaced INVALID_FOLDER defaultPartition with
        id := id, partition := s.m_world.active_partition, name := "root" }]) rand1
      { Folder.emplaced INVALID_FOLDER defaultPartition with
        id := id, partition := s.m_world.active_partition, name := "root" }
      (by
        have hgen2 := hgen
        simp only [Folder.emplaced] at hgen2
        simp [hgen2, set_append_last, Folder.emplaced])
      (by
        rw [List.map_append, List.nodup_append]
        refine ⟨hs.1.1, by simp, ?_⟩
        intro a ha hb
        simp only [List.map_cons, List.map_nil, List.mem_singleton] at hb
        subst hb
        exact hfresh ha)
      (by
        intro F hF
        rcases List.mem_append.1 hF with h | h
        · exact hs.2.1 F h
        · simp only [List.mem_singleton] at h
          subst h
          exact hidne)
      (by
        intro F hF
        rcases List.mem_append.1 hF with h | h
        · exact hs.1.2 F h
        · simp only [List.mem_singleton] at h
          subst h
          exact ⟨[], hT0⟩)
      (by simp)
      (by
        intro F hF _
        obtain ⟨k, hk, hFk⟩ := List.getElem_of_mem hF
        refine ⟨k, Nat.ne_of_lt hk, ?_⟩
        rw [List.getElem?_append_left hk, List.getElem?_eq_getElem hk, hFk])
    refine ⟨s', rand1, _, T', h1, h2, ⟨⟨id, hgen, rfl⟩, hfresh, hT0, ?_⟩, h4, h5, h6, h7⟩
    rw [h3, set_append_last]
  | false =>
    simp only [Bool.false_eq_true, if_false] at hmode key ⊢
    obtain ⟨T, hT⟩ : ∃ T, s.m_folders = [T] := List.length_eq_one.1 hmode
    obtain ⟨s', T', h1, h2, h3, h4, h5, h6, h7⟩ := key 0 s.m_folders rand T
      (by simp [hmode]) hs.1.1 hs.2.1 hs.1.2 (by simp [hT])
      (by
        intro F hF hne
        rw [hT, List.mem_singleton] at hF
        exact absurd (congrArg Folder.id hF) hne)
    refine ⟨s', rand, T, T', h1, h2, ⟨hT, ?_, rfl⟩, h4, h5, h6, h7⟩
    rw [h3, hT]
    rfl

/-- C10 as stated fails, whatever the value of `INVALID_FOLDER`: the single
root folder is empty and entity 0 has no folder, but its record carries a
`prev` (as the records made by `cloneTo` do, which sets `next` and `prev` and
no folder). The legacy loop assigns `folder` and `next` only, so entity 0,
the head of the list of the root afterwards, keeps that `prev`, and the root
has no correctly linked member list. -/
theorem C10_counterexample :
    ¬ ∃ INVALID_FOLDER : FolderID, ∀ (defaultPartition : PartitionHandle) (defaultId : FolderID)
      (s s' : EntityFolders) (rand rand1 : List FolderID) (blob blob1 : Blob)
      (entity_map : EntityMap), WellFormed s → entity_map.m_map.reduceOption.Nodup →
      (∀ e ∈ entity_map.m_map.reduceOption, ∀ r, s.m_entities[e]? = some r →
        r.folder = INVALID_FOLDER) →
      deserializeLegacy INVALID_FOLDER defaultPartition defaultId s rand blob entity_map false =
        some (s', blob1, rand1) →
      ∀ T ∈ s'.m_folders, ∃ l, MemberList s'.m_entities T l := by
  rintro ⟨INV, h⟩
  have hwf : WellFormed
      { m_entities := [⟨INV, none, some 1⟩]
        m_folders := [⟨INV + 1, INV, INV, INV, INV, none, 0, "root"⟩]
        m_selected_folder := INV + 1
        m_ignore_new_entities := false
        m_world := ⟨none, 0, []⟩ } := by
    refine ⟨by simp, fun F hF => ?_⟩
    simp only [List.mem_singleton] at hF
    subst hF
    refine ⟨[], rfl, List.nodup_nil, fun i => ?_⟩
    rcases i with _ | i <;> simp
  have hrun : deserializeLegacy INV 0 0
      { m_entities := [⟨INV, none, some 1⟩]
        m_folders := [⟨INV + 1, INV, INV, INV, INV, none, 0, "root"⟩]
        m_selected_folder := INV + 1
        m_ignore_new_entities := false
        m_world := ⟨none, 0, []⟩ } []
      [0, 0, 0, 0, 0, 0, 0, 0, 0, 0, 0, 0, 0, 0, 0, 0] ⟨[some 0]⟩ false =
      some ({ m_entities := [⟨INV + 1, none, some 1⟩]
              m_folders := [⟨INV + 1, INV, INV, INV, INV, some 0, 0, "root"⟩]
              m_selected_folder := INV + 1
              m_ignore_new_entities := false
              m_world := ⟨none, 0, []⟩ }, [], []) := by
    refine deserializeLegacy_eq INV 0 0 _ [] _ ⟨[some 0]⟩ false 0 0 (by decide) (by decide)
      (by decide) (by decide) (by decide) rfl ?_
    simp [legacyInsert, grow, setPrev]
  obtain ⟨l, hl, -, -⟩ := h 0 0 _ _ _ _ _ _ _ hwf (by simp [List.reduceOption])
    (by
      intro e he r hr
      simp [List.reduceOption] at he
      subst he
      simp at hr
      subst hr
      rfl)
    hrun _ (List.mem_singleton.2 rfl)
  have hhead := Chain.head hl
  cases l with
  | nil => simp at hhead
  | cons e rest =>
    obtain ⟨he, r, hr, hp, -⟩ := hl
    simp at he
    subst he
    simp at hr
    subst hr
    simp [INVALID_ENTITY] at hp

/-- Witness for C10: the legacy blob read additively into the example state,
with the random ids 5 (taken) and 8 and the map entries 4 and 3; and read
non-additively into a state whose entity 0 has no folder, no `prev` and a
stale `next`, which becomes the one member of the root. -/
theorem C10_legacy_format_witness :
    (∃ s' : EntityFolders,
      deserialize 0 0 0 exampleLayout 3 exampleState [5, 8] legacyBlob
        ⟨[some 4, none, some 3]⟩ true 3 = some (s', [42], []) ∧
      getFolderOfEntity s' 3 = some 8) ∧
    (∃ (s' : EntityFolders) (T' : Folder),
      deserialize 0 0 0 exampleLayout 3
        { m_entities := [⟨0, some 1, none⟩, ⟨0, none, none⟩]
          m_folders := [⟨5, 0, 0, 0, 0, none, 0, "root"⟩]
          m_selected_folder := 5
          m_ignore_new_entities := false
          m_world := ⟨none, 0, []⟩ } [] legacyBlob ⟨[some 0]⟩ false 3 = some (s', [42], []) ∧
      s'.m_folders = [T'] ∧ getFolderOfEntity s' 0 = some 5 ∧
      MemberList s'.m_entities T' [0]) := by
  constructor
  · obtain ⟨s', rand1, T, T', h1, _, h3, _, h5, _⟩ := C10_legacy_format 0 0 0 exampleLayout 3
      exampleState [5, 8] legacyBlob ⟨[some 4, none, some 3]⟩ true 3 1 2 (by decide)
      exampleState_consistent (by decide) (by decide) (by decide) (by decide) (by decide)
      (by decide) (by decide) ⟨8, [], by decide, by decide⟩
    simp only [if_true] at h3
    obtain ⟨⟨id, hgen, hT⟩, _⟩ := h3
    have hg : generateUniqueID (exampleState.m_folders ++
        [{ Folder.emplaced 0 0 with id := 0 }]) [5, 8] = some (8, []) := by decide
    rw [hg] at hgen
    cases hgen
    subst hT
    have hd : legacyBlob.drop (4 + 12 * 1 + 4 + 2 + 8) = [42] := by decide
    rw [hd] at h1
    exact ⟨s', h1, h5 3 (by decide)⟩
  · have hml : MemberList [⟨0, some 1, none⟩, ⟨0, none, none⟩]
        ⟨5, 0, 0, 0, 0, none, 0, "root"⟩ [] := by
      refine ⟨rfl, List.nodup_nil, fun i => ?_⟩
      rcases i with _ | _ | i <;> simp
    have hcons : Consistent 0
        { m_entities := [⟨0, some 1, none⟩, ⟨0, none, none⟩]
          m_folders := [⟨5, 0, 0, 0, 0, none, 0, "root"⟩]
          m_selected_folder := 5
          m_ignore_new_entities := false
          m_world := ⟨none, 0, []⟩ } := by
      refine ⟨⟨by simp, fun F hF => ?_⟩, by simp, by simp⟩
      simp only [List.mem_singleton] at hF
      subst hF
      exact ⟨[], hml⟩
    obtain ⟨s', rand1, T, T', h1, _, h3, _, h5, h6, _⟩ := C10_legacy_format 0 0 0 exampleLayout 3
      _ [] legacyBlob ⟨[some 0]⟩ false 3 1 2 (by decide) hcons (by decide) (by decide)
      (by decide) (by decide) (by decide) (by decide) (by decide) rfl
    simp only [Bool.false_eq_true, if_false] at h3
    obtain ⟨hT, hT', hr⟩ := h3
    simp only [List.cons.injEq, and_true] at hT
    subst hT hr
    have hd : legacyBlob.drop (4 + 12 * 1 + 4 + 2 + 8) = [42] := by decide
    rw [hd] at h1
    exact ⟨s', T', h1, hT', h5 0 (by decide), h6 [] hml⟩

/-- C4 (amended). Postcondition of `destroyFolder`. Let the folder ids be
distinct and the sibling lists consistently doubly linked (the `first_child`
of each folder heads a `prev`/`next` chain of exactly its children), let
moreover every folder without a parent have `next == prev == INVALID_FOLDER`
and the parent of every other folder be in the table, and let `f` be in the
table with no entities, no children and a parent. Then `destroyFolder(f)`
completes; no record with id `f` remains; no remaining folder has
`first_child`, `next` or `prev` equal to `f`; the sibling list of the parent of
`f` is the old list with `f` deleted, in unchanged order; the table has exactly
one record fewer; and the table is again such a forest. -/
theorem C4_destroyFolder_post (INVALID_FOLDER : FolderID) (s : EntityFolders) (f : FolderID)
    (F : Folder) (hs : Forest INVALID_FOLDER s.m_folders) (hF : F ∈ s.m_folders)
    (hid : F.id = f) (hentities : F.first_entity = INVALID_ENTITY)
    (hchildren : F.first_child = INVALID_FOLDER) (hparent : F.parent ≠ INVALID_FOLDER) :
    ∃ s' : EntityFolders, destroyFolder INVALID_FOLDER s f = some s' ∧
      (∀ G ∈ s'.m_folders, G.id ≠ f) ∧
      (∀ G ∈ s'.m_folders, G.first_child ≠ f ∧ G.next ≠ f ∧ G.prev ≠ f) ∧
      (∀ P ∈ s.m_folders, P.id = F.parent → ∀ l, SiblingList INVALID_FOLDER s.m_folders P l →
        ∃ P' ∈ s'.m_folders, P'.id = P.id ∧
          SiblingList INVALID_FOLDER s'.m_folders P' (l.erase f)) ∧
      s'.m_folders.length + 1 = s.m_folders.length ∧
      Forest INVALID_FOLDER s'.m_folders := by
  subst hid
  obtain ⟨sel, hrun⟩ := destroyFolder_eq hs hF hentities hchildren hparent
  have hforest := hs.destroyed hF hchildren hparent
  have habs : ∀ G ∈ destroyed F s.m_folders, G.id ≠ F.id := by
    intro G hG
    obtain ⟨X, _, hne, rfl⟩ := mem_destroyed.1 hG
    exact hne
  obtain ⟨lF, hlF⟩ := hs.1.2 F hF
  refine ⟨_, hrun, habs, fun G hG => hforest.no_ref (hs.no_sentinel hF) habs hG, ?_,
    destroyed_length hs.1.1 hF, hforest⟩
  intro P hP hPid l hl
  refine ⟨bypass F P, mem_destroyed.2 ⟨P, hP, ?_, rfl⟩, rfl, SiblingList.of_parent hs.1.1 hF hPid hl⟩
  rw [hPid]
  exact hlF.no_child hchildren hF

/-- C4 as stated fails, whatever the value of `INVALID_FOLDER`: the ids are
distinct and the `first_child` of each folder heads the chain of exactly its
children (the root has the one child `f`, which has none), but the root
record carries `next == f`. `destroyFolder(f)` resets `first_child` of the
root and leaves its `next`, which still names `f`. -/
theorem C4_counterexample :
    ¬ ∃ INVALID_FOLDER : FolderID, ∀ (s s' : EntityFolders) (f : FolderID) (F : Folder),
      Linked INVALID_FOLDER s.m_folders → F ∈ s.m_folders → F.id = f →
      F.first_entity = INVALID_ENTITY → F.first_child = INVALID_FOLDER →
      F.parent ≠ INVALID_FOLDER → (∃ P ∈ s.m_folders, P.id = F.parent) →
      destroyFolder INVALID_FOLDER s f = some s' →
      ∀ G ∈ s'.m_folders, G.first_child ≠ f ∧ G.next ≠ f ∧ G.prev ≠ f := by
  rintro ⟨INV, h⟩
  have hlinked : Linked INV
      [⟨INV + 1, INV, INV + 2, INV, INV + 2, none, 0, "root"⟩,
       ⟨INV + 2, INV + 1, INV, INV, INV, none, 0, "Folder"⟩] := by
    refine ⟨by simp, ?_⟩
    intro P hP
    simp only [List.mem_cons, List.mem_singleton, List.not_mem_nil, or_false] at hP
    rcases hP with rfl | rfl
    · refine ⟨[INV + 2], ⟨rfl, by simp, _, List.mem_cons_of_mem _ (List.mem_cons_self _ _),
        rfl, rfl, rfl⟩, by simp, fun x => ?_⟩
      simp [eq_comm]
    · exact ⟨[], rfl, List.nodup_nil, fun x => by simp⟩
  have hrun : destroyFolder INV
      { m_entities := []
        m_folders := [⟨INV + 1, INV, INV + 2, INV, INV + 2, none, 0, "root"⟩,
          ⟨INV + 2, INV + 1, INV, INV, INV, none, 0, "Folder"⟩]
        m_selected_folder := INV + 1
        m_ignore_new_entities := false
        m_world := ⟨none, 0, []⟩ } (INV + 2) =
      some { m_entities := []
             m_folders := [⟨INV + 1, INV, INV, INV, INV + 2, none, 0, "root"⟩]
             m_selected_folder := INV + 1
             m_ignore_new_entities := false
             m_world := ⟨none, 0, []⟩ } := by
    simp [destroyFolder, getFolder, eraseItems]
  have := h _ _ _ ⟨INV + 2, INV + 1, INV, INV, INV, none, 0, "Folder"⟩ hlinked
    (List.mem_cons_of_mem _ (List.mem_cons_self _ _)) rfl rfl rfl (by simp)
    ⟨_, List.mem_cons_self _ _, rfl⟩ hrun _ (List.mem_cons_self _ _)
  exact this.2.1 rfl

/-- Witness for C4: the middle one of the three children of the root is
destroyed. -/
theorem C4_destroyFolder_post_witness :
    ∃ s' : EntityFolders, destroyFolder 0 siblingState 8 = some s' ∧
      (∀ G ∈ s'.m_folders, G.id ≠ 8) ∧
      s'.m_folders.length + 1 = siblingState.m_folders.length := by
  obtain ⟨s', h1, h2, _, _, h5, _⟩ := C4_destroyFolder_post 0 siblingState 8
    ⟨8, 5, 0, 7, 9, none, 0, "Folder"⟩ siblingState_forest (by decide) rfl rfl rfl (by decide)
  exact ⟨s', h1, h2, h5⟩

/-- C12 (amended). Precondition of `destroyFolder`, for every state and
folder id `f`, with `F` the record that `getFolder(f)` finds. The call stops
in a fatal assertion whenever `F` still has a member entity or a child folder.
It completes exactly when `f` is in the table and `F` has no entities, no
children, a parent other than `INVALID_FOLDER` that is in the table, and a
`prev` and a `next` that each are `INVALID_FOLDER` or the id of a folder of the
table. In the scenario of the spec `destroyFolder(F1)` fails while entity 1 is
still in `F1`, and completes after entity 1 is moved back to `R`. -/
theorem C12_destroyFolder_precondition (INVALID_FOLDER : FolderID)
    (defaultPartition : PartitionHandle) (s : EntityFolders) (f : FolderID) :
    (∀ (k : Nat) (F : Folder), getFolder s.m_folders f = some k → s.m_folders[k]? = some F →
      F.first_entity ≠ INVALID_ENTITY ∨ F.first_child ≠ INVALID_FOLDER →
      destroyFolder INVALID_FOLDER s f = none) ∧
    ((∃ s', destroyFolder INVALID_FOLDER s f = some s') ↔
      ∃ (k : Nat) (F : Folder), getFolder s.m_folders f = some k ∧ s.m_folders[k]? = some F ∧
        F.first_entity = INVALID_ENTITY ∧ F.first_child = INVALID_FOLDER ∧
        F.parent ≠ INVALID_FOLDER ∧ F.parent ∈ s.m_folders.map (·.id) ∧
        (F.prev = INVALID_FOLDER ∨ F.prev ∈ s.m_folders.map (·.id)) ∧
        (F.next = INVALID_FOLDER ∨ F.next ∈ s.m_folders.map (·.id))) ∧
    (∀ (w : World) (rand : List FolderID) (R F1 : FolderID) (S : EntityFolders),
      scenario INVALID_FOLDER defaultPartition w rand = some (R, F1, S) →
      destroyFolder INVALID_FOLDER S F1 = none ∧
        ∃ S2 S3, moveToFolder INVALID_FOLDER S 1 R = some S2 ∧
          destroyFolder INVALID_FOLDER S2 F1 = some S3) := by
  have hiff : ∀ (t : EntityFolders) (g : FolderID),
      (∃ t', destroyFolder INVALID_FOLDER t g = some t') ↔
        ∃ (k : Nat) (F : Folder), getFolder t.m_folders g = some k ∧ t.m_folders[k]? = some F ∧
          Destroyable INVALID_FOLDER t.m_folders F := by
    intro t g
    rcases destroyFolder_char INVALID_FOLDER t g with ⟨k, F, fs3, hk, hF, hD, _, hrun⟩ | ⟨hn, hno⟩
    · exact ⟨fun _ => ⟨k, F, hk, hF, hD⟩, fun _ => ⟨_, hrun⟩⟩
    · constructor
      · rintro ⟨t', ht'⟩
        rw [hn] at ht'
        exact Option.noConfusion ht'
      · exact fun h => absurd h hno
  refine ⟨?_, hiff s f, ?_⟩
  · intro k F hk hF hbad
    cases hrun : destroyFolder INVALID_FOLDER s f with
    | none => rfl
    | some s' =>
      obtain ⟨k', F', hk', hF', hD⟩ := (hiff s f).1 ⟨s', hrun⟩
      rw [hk] at hk'
      cases hk'
      rw [hF] at hF'
      cases hF'
      rcases hbad with hb | hb
      · exact absurd hD.1 hb
      · exact absurd hD.2.1 hb
  · intro w rand R F1 S hsc
    obtain ⟨hR, hF1, hne, rfl⟩ := scenario_some hsc
    have hne' : ¬ R = F1 := fun h => hne h.symm
    refine ⟨?_, ?_⟩
    · cases hrun : destroyFolder INVALID_FOLDER _ F1 with
      | none => rfl
      | some s' =>
        obtain ⟨k, F, hk, hF, hD⟩ := (hiff _ F1).1 ⟨s', hrun⟩
        simp only [getFolder, hne', if_false, if_true, Option.map_some', Option.some.injEq] at hk
        subst hk
        simp only [List.getElem?_cons_succ, List.getElem?_cons_zero, Option.some.injEq] at hF
        subst hF
        exact absurd hD.1 (by simp [INVALID_ENTITY])
    · have hD : ∃ S3, destroyFolder INVALID_FOLDER
          { m_entities := [⟨R, none, some 2⟩, ⟨R, some 2, none⟩, ⟨R, some 0, some 1⟩]
            m_folders :=
              [⟨R, INVALID_FOLDER, F1, INVALID_FOLDER, INVALID_FOLDER, some 1, defaultPartition,
                "root"⟩,
               ⟨F1, R, INVALID_FOLDER, INVALID_FOLDER, INVALID_FOLDER, none, defaultPartition,
                "Folder"⟩]
            m_selected_folder := R
            m_ignore_new_entities := false
            m_world := (w.setPartition 1 defaultPartition).setPartition 1 defaultPartition } F1 =
              some S3 := by
        refine (hiff _ F1).2 ⟨1, _, by simp [getFolder, hne'], rfl, rfl, rfl, hR, ?_,
          Or.inl rfl, Or.inl rfl⟩
        simp
      obtain ⟨S3, hS3⟩ := hD
      exact ⟨_, S3, scenario_back INVALID_FOLDER defaultPartition _ R F1 hR hF1 hne, hS3⟩

/-- C12 as stated fails, whatever the value of `INVALID_FOLDER`: the folder `f`
is in the table, has no entities and no children, and its parent is the root,
which is in the table; but its `prev` names a folder that is not in the table,
and `destroyFolder(f)` stops in the assertion of `getFolder(f.prev)`. -/
theorem C12_counterexample :
    ¬ ∃ INVALID_FOLDER : FolderID, ∀ (s : EntityFolders) (f : FolderID) (k : Nat) (F : Folder),
      getFolder s.m_folders f = some k → s.m_folders[k]? = some F →
      F.first_entity = INVALID_ENTITY → F.first_child = INVALID_FOLDER →
      F.parent ≠ INVALID_FOLDER → F.parent ∈ s.m_folders.map (·.id) →
      ∃ s', destroyFolder INVALID_FOLDER s f = some s' := by
  rintro ⟨INV, h⟩
  obtain ⟨st, hst⟩ : ∃ st : EntityFolders, st =
      { m_entities := []
        m_folders := [⟨INV + 1, INV, INV + 2, INV, INV, none, 0, "root"⟩,
          ⟨INV + 2, INV + 1, INV, INV + 3, INV, none, 0, "Folder"⟩]
        m_selected_folder := INV + 1
        m_ignore_new_entities := false
        m_world := ⟨none, 0, []⟩ } := ⟨_, rfl⟩
  have hget : getFolder st.m_folders (INV + 2) = some 1 := by
    rw [hst]
    simp [getFolder]
  have hrec : st.m_folders[1]? =
      some ⟨INV + 2, INV + 1, INV, INV + 3, INV, none, 0, "Folder"⟩ := by
    rw [hst]
    rfl
  obtain ⟨s', hs'⟩ := h st (INV + 2) 1 _ hget hrec rfl rfl (by simp) (by rw [hst]; simp)
  rcases destroyFolder_char INV st (INV + 2) with ⟨k, F, fs3, hk, hF, hD, _, _⟩ | ⟨hn, _⟩
  · rw [hget] at hk
    cases hk
    rw [hrec] at hF
    cases hF
    have := hD.2.2.2.2.1
    rw [hst] at this
    simp at this
  · rw [hn] at hs'
    exact Option.noConfusion hs'

/-- C13. Selection fallback of `destroyFolder`. Whenever `destroyFolder(f)`
completes, `f` was in the table and the ids of the table afterwards are the
ids before without `f`, in the same order, so no record with id `f` remains;
if `f` was not the selected folder the selection is unchanged; if it was, the
selection afterwards is the id of the first record of the new table, a folder
other than `f` that was in the table before and remains, or `INVALID_FOLDER`
when the table became empty. And in every state reached from construction by
calls of `emplaceFolder`, `destroyFolder`, `moveToFolder`, `selectFolder` and
the two entity notifications, the root `R` is at position 0 of the table
before and after the call, is not the folder destroyed, and destroying the
selected folder makes the selection equal to `R`. -/
theorem C13_selection_fallback (INVALID_FOLDER : FolderID)
    (defaultPartition : PartitionHandle) :
    (∀ (s s' : EntityFolders) (f : FolderID), destroyFolder INVALID_FOLDER s f = some s' →
      f ∈ s.m_folders.map (·.id) ∧
      s'.m_folders.map (·.id) = (s.m_folders.map (·.id)).filter (fun x => x ≠ f) ∧
      (∀ G ∈ s'.m_folders, G.id ≠ f) ∧
      (s.m_selected_folder ≠ f → s'.m_selected_folder = s.m_selected_folder) ∧
      (s.m_selected_folder = f →
        s'.m_selected_folder = (s'.m_folders.head?.map (·.id)).getD INVALID_FOLDER ∧
        (s'.m_folders = [] → s'.m_selected_folder = INVALID_FOLDER) ∧
        (∀ (X : Folder) (rest : List Folder), s'.m_folders = X :: rest →
          s'.m_selected_folder = X.id ∧ X ∈ s'.m_folders ∧ X.id ≠ f ∧
            X.id ∈ s.m_folders.map (·.id)))) ∧
    (∀ (w : World) (rand rand0 rand1 : List FolderID) (ops : List Step)
      (s0 s s' : EntityFolders) (f : FolderID),
      construct INVALID_FOLDER defaultPartition w rand = some (s0, rand0) →
      runSteps INVALID_FOLDER defaultPartition ops (s0, rand0) = some (s, rand1) →
      s.m_selected_folder = f → destroyFolder INVALID_FOLDER s f = some s' →
      RootFirst INVALID_FOLDER s0.m_selected_folder s.m_folders ∧
        RootFirst INVALID_FOLDER s0.m_selected_folder s'.m_folders ∧
        s0.m_selected_folder ≠ f ∧
        s'.m_selected_folder = s0.m_selected_folder) := by
  refine ⟨?_, ?_⟩
  · intro s s' f h
    obtain ⟨fs0, hids0, hfs0⟩ := destroyFolder_ids h
    have hids : s'.m_folders.map (·.id) = (s.m_folders.map (·.id)).filter (fun x => x ≠ f) := by
      rw [hfs0, ← hids0, List.filter_map]
      rfl
    have hgone : ∀ G ∈ s'.m_folders, G.id ≠ f := by
      intro G hG
      rw [hfs0] at hG
      simpa using (List.mem_filter.1 hG).2
    rcases destroyFolder_char INVALID_FOLDER s f with ⟨k, F, fs3, hk, _, _, _, hrun⟩ | ⟨hn, _⟩
    swap
    · rw [hn] at h
      exact Option.noConfusion h
    have hmem : f ∈ s.m_folders.map (·.id) := getFolder_isSome_iff.1 (by rw [hk]; rfl)
    rw [hrun] at h
    cases h
    refine ⟨hmem, hids, hgone, fun hne => by simp only [if_neg hne], fun heq => ⟨?_, fun hnil => ?_,
      fun X rest hX => ?_⟩⟩
    · simp only [if_pos heq]
      cases eraseItems fs3 (fun g => g.id = f) <;> rfl
    · simp only at hnil
      simp only [if_pos heq, hnil]
    · simp only at hX
      have hXm : X ∈ ({ s with
          m_folders := eraseItems fs3 (fun g => g.id = f)
          m_selected_folder :=
            if s.m_selected_folder = f then
              (match eraseItems fs3 (fun g => g.id = f) with
                | [] => INVALID_FOLDER
                | g :: _ => g.id)
            else s.m_selected_folder } : EntityFolders).m_folders := by
        simp only [hX]; exact List.mem_cons_self _ _
      have hXid := List.mem_map_of_mem (·.id) hXm
      rw [hids] at hXid
      refine ⟨by simp only [if_pos heq, hX], hXm, hgone X hXm, (List.mem_filter.1 hXid).1⟩
  · intro w rand rand0 rand1 ops s0 s s' f hcon hrun hsel hd
    have hroot := runSteps_root ops (construct_root hcon) hrun
    have hroot' := destroyFolder_root hroot hd
    refine ⟨hroot, hroot'.1, ?_, ?_⟩
    · intro hR
      obtain ⟨fs0, hids0, hfs0⟩ := destroyFolder_ids hd
      have h1 := hroot'.1
      unfold RootFirst at h1
      cases hfs : s'.m_folders with
      | nil => rw [hfs] at h1; simp at h1
      | cons X rest =>
        rw [hfs] at h1
        simp at h1
        have hXm : X ∈ s'.m_folders := by rw [hfs]; exact List.mem_cons_self _ _
        rw [hfs0] at hXm
        have := (List.mem_filter.1 hXm).2
        simp at this
        exact this (h1.1.trans hR)
    · rw [hroot'.2, if_pos hsel]

/-- Witness for C13: after construction with root 5, a folder 7 is added under
the root and selected; destroying it leaves the table with the root alone and
selects the root again. -/
theorem C13_selection_fallback_witness :
    ∃ s s' : EntityFolders,
      runSteps 0 0 [Step.emplaceFolder 0 5, Step.selectFolder 7]
        ({ m_entities := []
           m_folders := [⟨5, 0, 0, 0, 0, none, 0, "root"⟩]
           m_selected_folder := 5
           m_ignore_new_entities := false
           m_world := ⟨none, 0, []⟩ }, [7]) = some (s, []) ∧
      s.m_folders.map (·.id) = [5, 7] ∧
      s.m_selected_folder = 7 ∧ destroyFolder 0 s 7 = some s' ∧
      s'.m_folders.map (·.id) = [5] ∧ s'.m_selected_folder = 5 := by
  have hrun : runSteps 0 0 [Step.emplaceFolder 0 5, Step.selectFolder 7]
      ({ m_entities := []
         m_folders := [⟨5, 0, 0, 0, 0, none, 0, "root"⟩]
         m_selected_folder := 5
         m_ignore_new_entities := false
         m_world := ⟨none, 0, []⟩ }, [7]) = some
      ({ m_entities := []
         m_folders := [⟨5, 0, 7, 0, 0, none, 0, "root"⟩, ⟨7, 5, 0, 0, 0, none, 0, "Folder"⟩]
         m_selected_folder := 7
         m_ignore_new_entities := false
         m_world := ⟨none, 0, []⟩ }, []) := by decide
  have hd : destroyFolder 0
      { m_entities := []
        m_folders := [⟨5, 0, 7, 0, 0, none, 0, "root"⟩, ⟨7, 5, 0, 0, 0, none, 0, "Folder"⟩]
        m_selected_folder := 7
        m_ignore_new_entities := false
        m_world := ⟨none, 0, []⟩ } 7 = some
      { m_entities := []
        m_folders := [⟨5, 0, 0, 0, 0, none, 0, "root"⟩]
        m_selected_folder := 5
        m_ignore_new_entities := false
        m_world := ⟨none, 0, []⟩ } := by decide
  exact ⟨_, _, hrun, rfl, rfl, hd, ((C13_selection_fallback 0 0).1 _ _ 7 hd).2.1,
    ((C13_selection_fallback 0 0).2 ⟨none, 0, []⟩ [5, 7] [7] [] _ _ _ _ 7 (by decide) hrun rfl
      hd).2.2.2⟩

/-- C14. The operations that remove or replace folders in bulk leave the
selection and the linkage of the entities alone. `destroyPartitionFolders`
changes neither `m_selected_folder` nor any linkage record; `deserialize`, in
both formats, additive or not, leaves `m_selected_folder` as it was; a
non-additive current-format load, which clears the folder table, keeps every
linkage record that is not the image of a source index of the blob. Hence
states are reached in which the selected id, or the folder id of an entity,
names no folder of the table and the next lookup stops in `ASSERT(false)`:
after construction, `destroyPartitionFolders` on the partition of the root
empties the table and `onEntityCreated` fails; after the scenario of the
spec, the same call leaves entity 1 in the folder `F1` that is gone, and
`onEntityDestroyed(1)` fails; and a non-additive load of a blob with the one
folder 9 into the example state, reached from construction, leaves the
selection 5 and the folder 5 of entity 2 without a record. -/
theorem C14_bulk_operations_frame (INVALID_FOLDER : FolderID)
    (defaultPartition : PartitionHandle) (defaultId : FolderID) (L : Layout)
    (NEW_ENTITY_FOLDERS : Nat) :
    (∀ (s : EntityFolders) (p : PartitionHandle),
      (destroyPartitionFolders s p).m_selected_folder = s.m_selected_folder ∧
      (destroyPartitionFolders s p).m_entities = s.m_entities) ∧
    (∀ (s s' : EntityFolders) (rand rand' : List FolderID) (blob blob' : Blob)
      (entity_map : EntityMap) (additive : Bool) (version : Nat),
      deserialize INVALID_FOLDER defaultPartition defaultId L NEW_ENTITY_FOLDERS s rand blob
        entity_map additive version = some (s', blob', rand') →
      s'.m_selected_folder = s.m_selected_folder) ∧
    (∀ (s s' : EntityFolders) (rand rand' : List FolderID) (blob blob' : Blob)
      (entity_map : EntityMap) (version : Nat), NEW_ENTITY_FOLDERS < version →
      deserialize INVALID_FOLDER defaultPartition defaultId L NEW_ENTITY_FOLDERS s rand blob
        entity_map false version = some (s', blob', rand') →
      ∀ (d : Nat) (x : Entity), s.m_entities[d]? = some x →
        (∀ i, i < blobEntityCount blob → entity_map.get (sourceRef i) ≠ some d) →
        s'.m_entities[d]? = some x) ∧
    (∀ (w : World) (rand rand0 : List FolderID) (s0 : EntityFolders) (e : EntityRef),
      construct INVALID_FOLDER defaultPartition w rand = some (s0, rand0) →
      (destroyPartitionFolders s0 defaultPartition).m_folders = [] ∧
      (destroyPartitionFolders s0 defaultPartition).m_selected_folder = s0.m_selected_folder ∧
      getFolder (destroyPartitionFolders s0 defaultPartition).m_folders s0.m_selected_folder =
        none ∧
      onEntityCreated INVALID_FOLDER (destroyPartitionFolders s0 defaultPartition) e = none) ∧
    (∀ (w : World) (rand : List FolderID) (R F1 : FolderID) (S : EntityFolders),
      scenario INVALID_FOLDER defaultPartition w rand = some (R, F1, S) →
      (destroyPartitionFolders S defaultPartition).m_folders = [] ∧
      getFolderOfEntity (destroyPartitionFolders S defaultPartition) 1 = some F1 ∧
      getFolder (destroyPartitionFolders S defaultPartition).m_folders F1 = none ∧
      onEntityDestroyed INVALID_FOLDER (destroyPartitionFolders S defaultPartition) 1 = none) ∧
    ((construct 0 0 ⟨none, 0, []⟩ [5, 7]).bind
        (runSteps 0 0 [Step.onEntityCreated 0, Step.onEntityCreated 1, Step.onEntityCreated 2,
          Step.emplaceFolder 0 5]) = some (exampleState, []) ∧
      (deserialize 0 0 0 exampleLayout 3 exampleState [] twoRecordBlob ⟨[some 0, some 1]⟩
          false 4).map
        (fun r => (r.1.m_selected_folder, getFolder r.1.m_folders 5, getFolderOfEntity r.1 2,
          onEntityCreated 0 r.1 3)) = some (5, none, some 5, none)) := by
  refine ⟨fun s p => ⟨rfl, rfl⟩, ?_, ?_, ?_, ?_, ?_⟩
  · intro s s' rand rand' blob blob' entity_map additive version h
    exact deserialize_selected h
  · intro s s' rand rand' blob blob' entity_map version hv h d x hx hd
    unfold deserialize at h
    rw [if_neg (Nat.not_le.2 hv)] at h
    simp only [Option.map_eq_some', Prod.exists, Prod.mk.injEq] at h
    obtain ⟨s1, blob1, h, rfl, _, _⟩ := h
    exact deserializeCurrent_keeps h d x hx hd
  · intro w rand rand0 s0 e h
    unfold construct at h
    split at h
    · exact Option.noConfusion h
    · cases rand with
      | nil => exact Option.noConfusion h
      | cons id rest =>
        simp only [Option.some.injEq, Prod.mk.injEq] at h
        obtain ⟨rfl, _⟩ := h
        have hfs : (destroyPartitionFolders
            { m_entities := []
              m_folders := [{ Folder.emplaced INVALID_FOLDER defaultPartition with
                id := id, name := "root" }]
              m_selected_folder := id
              m_ignore_new_entities := false
              m_world := w } defaultPartition).m_folders = [] := by
          simp [destroyPartitionFolders, eraseItems, Folder.emplaced]
        refine ⟨hfs, rfl, by rw [hfs]; rfl, ?_⟩
        unfold onEntityCreated moveToFolder
        rw [hfs]
        by_cases hid : id = INVALID_FOLDER
        · simp [destroyPartitionFolders, hid]
        · simp [destroyPartitionFolders, hid, getFolder]
  · intro w rand R F1 S h
    obtain ⟨hR, hF1, hne, rfl⟩ := scenario_some h
    have hfs : (destroyPartitionFolders
        { m_entities := [⟨R, none, some 2⟩, ⟨F1, none, none⟩, ⟨R, some 0, none⟩]
          m_folders :=
            [⟨R, INVALID_FOLDER, F1, INVALID_FOLDER, INVALID_FOLDER, some 2, defaultPartition,
              "root"⟩,
             ⟨F1, R, INVALID_FOLDER, INVALID_FOLDER, INVALID_FOLDER, some 1, defaultPartition,
              "Folder"⟩]
          m_selected_folder := R
          m_ignore_new_entities := false
          m_world := w.setPartition 1 defaultPartition } defaultPartition).m_folders = [] := by
      simp [destroyPartitionFolders, eraseItems]
    refine ⟨hfs, rfl, by rw [hfs]; rfl, ?_⟩
    unfold onEntityDestroyed
    rw [hfs]
    simp [destroyPartitionFolders, getFolder]
  · exact ⟨by decide, by decide⟩

/-- C11 (amended). Postcondition of `emplaceFolder`. Let the folder ids be
distinct and the sibling lists consistently doubly linked, let `parent` be the
id, other than `INVALID_FOLDER`, of the folder record `P` of the table, and let
the new id (the requested one when it is not in the table, or with AUTO the one
that `generateUniqueID` returns) differ from `INVALID_FOLDER` and be the parent
of no folder of the table. Then `emplaceFolder` returns the new id, which is
not in the old table; the table grows by exactly one record, the last one,
with that id, `parent`, the name "Folder", no entities, no children and
`prev == INVALID_FOLDER`, whose `next` is the former `first_child` of the
parent; the parent gets the new id as `first_child`, that former first child
gets it as `prev`, and no other field of a folder of the table changes; the
child list of the parent is the old list with the new folder prepended; the
sibling lists are again consistently doubly linked, and a forest stays a
forest. -/
theorem C11_emplaceFolder_post (INVALID_FOLDER : FolderID) (defaultPartition : PartitionHandle)
    (s : EntityFolders) (rand : List FolderID) (folder parent : FolderID) (P : Folder)
    (hs : Linked INVALID_FOLDER s.m_folders) (hP : P ∈ s.m_folders) (hPid : P.id = parent)
    (hparent : parent ≠ INVALID_FOLDER)
    (hreq : if folder = INVALID_FOLDER then
        ∃ id rand', generateUniqueID s.m_folders rand = some (id, rand') ∧
          id ≠ INVALID_FOLDER ∧ ∀ G ∈ s.m_folders, G.parent ≠ id
      else folder ∉ s.m_folders.map (·.id) ∧ ∀ G ∈ s.m_folders, G.parent ≠ folder) :
    ∃ (id : FolderID) (s' : EntityFolders) (rand' : List FolderID),
      emplaceFolder INVALID_FOLDER defaultPartition s rand folder parent = some (id, s', rand') ∧
      (if folder = INVALID_FOLDER then generateUniqueID s.m_folders rand = some (id, rand')
        else id = folder ∧ rand' = rand) ∧
      id ∉ s.m_folders.map (·.id) ∧
      s' = { s with m_folders := s.m_folders.map (graft INVALID_FOLDER id P) ++
        [newFolder INVALID_FOLDER defaultPartition id P] } ∧
      newFolder INVALID_FOLDER defaultPartition id P =
        { id := id, parent := parent, first_child := INVALID_FOLDER, prev := INVALID_FOLDER,
          next := P.first_child, first_entity := INVALID_ENTITY, partition := defaultPartition,
          name := "Folder" } ∧
      s'.m_folders.length = s.m_folders.length + 1 ∧
      (graft INVALID_FOLDER id P P).first_child = id ∧
      (∀ C ∈ s.m_folders, P.first_child ≠ INVALID_FOLDER → C.id = P.first_child →
        (graft INVALID_FOLDER id P C).prev = id) ∧
      (∀ l, SiblingList INVALID_FOLDER s.m_folders P l →
        SiblingList INVALID_FOLDER s'.m_folders (graft INVALID_FOLDER id P P) (id :: l)) ∧
      Linked INVALID_FOLDER s'.m_folders ∧
      (Forest INVALID_FOLDER s.m_folders → Forest INVALID_FOLDER s'.m_folders) := by
  subst hPid
  obtain ⟨lP, hlP⟩ := hs.2 P hP
  have hchild : P.first_child ≠ INVALID_FOLDER → P.first_child ∈ s.m_folders.map (·.id) := by
    intro hc
    have hh := FChain.head_eq hlP.1
    cases lP with
    | nil => exact absurd hh hc
    | cons y ys =>
      obtain ⟨C, hC, hCid, _⟩ := (hlP.2.2 y).1 (List.mem_cons_self _ _)
      exact List.mem_map.2 ⟨C, hC, hCid.trans hh.symm⟩
  have key : ∀ (id : FolderID) (rand' : List FolderID),
      (if folder = INVALID_FOLDER then generateUniqueID s.m_folders rand
        else some (folder, rand)) = some (id, rand') →
      id ≠ INVALID_FOLDER → id ∉ s.m_folders.map (·.id) → (∀ G ∈ s.m_folders, G.parent ≠ id) →
      ∃ s' : EntityFolders,
        emplaceFolder INVALID_FOLDER defaultPartition s rand folder P.id = some (id, s', rand') ∧
        s' = { s with m_folders := s.m_folders.map (graft INVALID_FOLDER id P) ++
          [newFolder INVALID_FOLDER defaultPartition id P] } ∧
        s'.m_folders.length = s.m_folders.length + 1 ∧
        (∀ l, SiblingList INVALID_FOLDER s.m_folders P l →
          SiblingList INVALID_FOLDER s'.m_folders (graft INVALID_FOLDER id P P) (id :: l)) ∧
        Linked INVALID_FOLDER s'.m_folders ∧
        (Forest INVALID_FOLDER s.m_folders → Forest INVALID_FOLDER s'.m_folders) := by
    intro id rand' hsel hidne hid hnochild
    exact ⟨_, emplaceFolder_eq hs.1 hP hparent hchild hsel, rfl, by simp [grafted],
      fun l hl => SiblingList.grafted_parent hidne hid hl,
      hs.emplaced hP hidne hid hnochild, fun hf => hf.with_new hP hidne hid⟩
  have hfc : ∀ id : FolderID, (graft INVALID_FOLDER id P P).first_child = id := by
    intro id
    simp [graft]
  have hprev : ∀ id : FolderID, ∀ C ∈ s.m_folders, P.first_child ≠ INVALID_FOLDER →
      C.id = P.first_child → (graft INVALID_FOLDER id P C).prev = id := by
    intro id C _ hc hC
    simp [graft, hc, hC]
  by_cases hf : folder = INVALID_FOLDER
  · rw [if_pos hf] at hreq
    obtain ⟨id, rand', hgen, hidne, hnochild⟩ := hreq
    have hid := generateUniqueID_not_mem hgen
    obtain ⟨s', h1, h2, h3, h4, h5, h6⟩ := key id rand' (by rw [if_pos hf]; exact hgen) hidne hid
      hnochild
    exact ⟨id, s', rand', h1, by rw [if_pos hf]; exact hgen, hid, h2, rfl, h3, hfc id,
      hprev id, h4, h5, h6⟩
  · rw [if_neg hf] at hreq
    obtain ⟨s', h1, h2, h3, h4, h5, h6⟩ := key folder rand (by rw [if_neg hf]) hf hreq.1 hreq.2
    exact ⟨folder, s', rand, h1, by rw [if_neg hf]; exact ⟨rfl, rfl⟩, hreq.1, h2, rfl, h3,
      hfc folder, hprev folder, h4, h5, h6⟩

/-- C11 as stated fails in two ways, whatever the value of `INVALID_FOLDER`.
With AUTO and the table holding the root alone, a random source whose output
is the sentinel makes the new folder carry the sentinel id, and the root,
whose `first_child` is then the sentinel, heads an empty chain although it has
a child. With a requested id that is not in the table but is named as parent
by a folder of the table, the new folder has a child and no `first_child`. -/
theorem C11_counterexample :
    (¬ ∃ INVALID_FOLDER : FolderID, ∀ (defaultPartition : PartitionHandle) (s s' : EntityFolders)
      (rand rand' : List FolderID) (parent id : FolderID), Linked INVALID_FOLDER s.m_folders →
      parent ∈ s.m_folders.map (·.id) →
      emplaceFolder INVALID_FOLDER defaultPartition s rand INVALID_FOLDER parent =
        some (id, s', rand') →
      Linked INVALID_FOLDER s'.m_folders) ∧
    (¬ ∃ INVALID_FOLDER : FolderID, ∀ (defaultPartition : PartitionHandle) (s s' : EntityFolders)
      (rand rand' : List FolderID) (folder parent id : FolderID),
      Linked INVALID_FOLDER s.m_folders → parent ∈ s.m_folders.map (·.id) →
      folder ≠ INVALID_FOLDER → folder ∉ s.m_folders.map (·.id) →
      emplaceFolder INVALID_FOLDER defaultPartition s rand folder parent = some (id, s', rand') →
      Linked INVALID_FOLDER s'.m_folders) := by
  constructor
  · rintro ⟨INV, h⟩
    obtain ⟨st, hst⟩ : ∃ st : EntityFolders, st =
        { m_entities := []
          m_folders := [⟨INV + 1, INV, INV, INV, INV, none, 0, "root"⟩]
          m_selected_folder := INV + 1
          m_ignore_new_entities := false
          m_world := ⟨none, 0, []⟩ } := ⟨_, rfl⟩
    have hfs : st.m_folders = [⟨INV + 1, INV, INV, INV, INV, none, 0, "root"⟩] := by rw [hst]
    have hlinked : Linked INV st.m_folders := by
      rw [hfs]
      refine ⟨by simp, fun P hP => ?_⟩
      simp only [List.mem_singleton] at hP
      subst hP
      exact ⟨[], rfl, List.nodup_nil, fun x => by simp⟩
    have hP : (⟨INV + 1, INV, INV, INV, INV, none, 0, "root"⟩ : Folder) ∈ st.m_folders := by
      rw [hfs]
      exact List.mem_singleton.2 rfl
    have hrun := @emplaceFolder_eq INV 0 st [INV] [] INV INV _ hlinked.1 hP (by simp)
      (fun hc => absurd rfl hc) (by rw [if_pos rfl, hfs]; simp [generateUniqueID])
    have hl := h 0 st _ [INV] [] (INV + 1) INV hlinked (by rw [hfs]; simp) hrun
    obtain ⟨l, hl⟩ := hl.2 (graft INV INV ⟨INV + 1, INV, INV, INV, INV, none, 0, "root"⟩
      ⟨INV + 1, INV, INV, INV, INV, none, 0, "root"⟩) (mem_grafted.2 (Or.inl ⟨_, hP, rfl⟩))
    have hnil := hl.nil_of_no_child (by simp [graft])
    have hmem : INV ∈ l := (hl.2.2 INV).2 ⟨_, mem_grafted.2 (Or.inr rfl), rfl, rfl⟩
    rw [hnil] at hmem
    exact absurd hmem (List.not_mem_nil _)
  · rintro ⟨INV, h⟩
    obtain ⟨st, hst⟩ : ∃ st : EntityFolders, st =
        { m_entities := []
          m_folders := [⟨INV + 1, INV, INV, INV, INV, none, 0, "root"⟩,
            ⟨INV + 2, INV + 3, INV, INV, INV, none, 0, "Folder"⟩]
          m_selected_folder := INV + 1
          m_ignore_new_entities := false
          m_world := ⟨none, 0, []⟩ } := ⟨_, rfl⟩
    have hfs : st.m_folders = [⟨INV + 1, INV, INV, INV, INV, none, 0, "root"⟩,
        ⟨INV + 2, INV + 3, INV, INV, INV, none, 0, "Folder"⟩] := by rw [hst]
    have hlinked : Linked INV st.m_folders := by
      rw [hfs]
      refine ⟨by simp, fun P hP => ?_⟩
      simp only [List.mem_cons, List.mem_singleton, List.not_mem_nil, or_false] at hP
      rcases hP with rfl | rfl
      · exact ⟨[], rfl, List.nodup_nil, fun x => by simp⟩
      · exact ⟨[], rfl, List.nodup_nil, fun x => by simp⟩
    have hP : (⟨INV + 1, INV, INV, INV, INV, none, 0, "root"⟩ : Folder) ∈ st.m_folders := by
      rw [hfs]
      exact List.mem_cons_self _ _
    have hG : (⟨INV + 2, INV + 3, INV, INV, INV, none, 0, "Folder"⟩ : Folder) ∈ st.m_folders := by
      rw [hfs]
      exact List.mem_cons_of_mem _ (List.mem_cons_self _ _)
    have hrun := @emplaceFolder_eq INV 0 st [] [] (INV + 3) (INV + 3) _ hlinked.1 hP (by simp)
      (fun hc => absurd rfl hc) (by simp)
    have hl := h 0 st _ [] [] (INV + 3) (INV + 1) (INV + 3) hlinked (by rw [hfs]; simp) (by simp)
      (by rw [hfs]; simp) hrun
    obtain ⟨l, hl⟩ := hl.2 (newFolder INV 0 (INV + 3) ⟨INV + 1, INV, INV, INV, INV, none, 0, "root"⟩)
      (mem_grafted.2 (Or.inr rfl))
    have hnil := hl.nil_of_no_child rfl
    have hmem : INV + 2 ∈ l := (hl.2.2 (INV + 2)).2
      ⟨_, mem_grafted.2 (Or.inl ⟨_, hG, rfl⟩), rfl, rfl⟩
    rw [hnil] at hmem
    exact absurd hmem (List.not_mem_nil _)

/-- Witness for C11: a folder with an automatic id is added under the root
of the table with three children; the random source gives 5, which is taken,
and then 6. -/
theorem C11_emplaceFolder_post_witness :
    ∃ s' : EntityFolders, emplaceFolder 0 0 siblingState [5, 6] 0 5 = some (6, s', []) ∧
      s'.m_folders.length = siblingState.m_folders.length + 1 ∧ Linked 0 s'.m_folders := by
  obtain ⟨id, s', rand', h1, h2, _, _, _, h3, _, _, _, h4, _⟩ := C11_emplaceFolder_post 0 0
    siblingState [5, 6] 0 5 ⟨5, 0, 7, 0, 0, none, 0, "root"⟩ siblingState_forest.1 (by decide) rfl
    (by decide) ⟨6, [], by decide, by decide, by decide⟩
  have hg : generateUniqueID siblingState.m_folders [5, 6] = some (6, []) := by decide
  rw [if_pos rfl, hg] at h2
  cases h2
  exact ⟨s', h1, h3, h4⟩

end Lumix
